import Mathlib

/-!
# led_panel: Raspberry Pi transmitter and Arduino receiver / scan engine

Shallow embedding of `pi/source/led_panel.hpp` and `arduino/arduino.c`.

Machine integers are natural numbers; every place where the C or C++ code can
wrap (8-bit counters, 3-bit and 2-bit bit-fields, the 16-bit return value of the
coordinate mapper) carries an explicit `%`.  Volatile inputs (the request pin
and the data port of the microcontroller) are arguments of the step functions.
-/

namespace LedPanel

/-! ## Raspberry Pi side: `led_panel.hpp` -/

/-- The request signal pin mask, `1u << 27`. -/
def request_mask : Nat := 2 ^ 27

/-- The acknowledge signal pin number. -/
def acknowledge_pin : Nat := 22

/-- Offset of the GPIO set register. -/
def set_offset : Nat := 7

/-- Offset of the GPIO clear register. -/
def clear_offset : Nat := 10

/-- Offset of the GPIO level register. -/
def level_offset : Nat := 13

/-- The table `_byte_to_mask` of `led_panel.hpp`, entry by entry. -/
def _byte_to_mask : List Nat := [
  0b00000000000000000000000000000000, 0b00000000000100000000000000000000, 0b00000000001000000000000000000000,
  0b00000000001100000000000000000000, 0b00000100000000000000000000000000, 0b00000100000100000000000000000000,
  0b00000100001000000000000000000000, 0b00000100001100000000000000000000, 0b00000000000000010000000000000000,
  0b00000000000100010000000000000000, 0b00000000001000010000000000000000, 0b00000000001100010000000000000000,
  0b00000100000000010000000000000000, 0b00000100000100010000000000000000, 0b00000100001000010000000000000000,
  0b00000100001100010000000000000000, 0b00000000000010000000000000000000, 0b00000000000110000000000000000000,
  0b00000000001010000000000000000000, 0b00000000001110000000000000000000, 0b00000100000010000000000000000000,
  0b00000100000110000000000000000000, 0b00000100001010000000000000000000, 0b00000100001110000000000000000000,
  0b00000000000010010000000000000000, 0b00000000000110010000000000000000, 0b00000000001010010000000000000000,
  0b00000000001110010000000000000000, 0b00000100000010010000000000000000, 0b00000100000110010000000000000000,
  0b00000100001010010000000000000000, 0b00000100001110010000000000000000, 0b00000000000000000010000000000000,
  0b00000000000100000010000000000000, 0b00000000001000000010000000000000, 0b00000000001100000010000000000000,
  0b00000100000000000010000000000000, 0b00000100000100000010000000000000, 0b00000100001000000010000000000000,
  0b00000100001100000010000000000000, 0b00000000000000010010000000000000, 0b00000000000100010010000000000000,
  0b00000000001000010010000000000000, 0b00000000001100010010000000000000, 0b00000100000000010010000000000000,
  0b00000100000100010010000000000000, 0b00000100001000010010000000000000, 0b00000100001100010010000000000000,
  0b00000000000010000010000000000000, 0b00000000000110000010000000000000, 0b00000000001010000010000000000000,
  0b00000000001110000010000000000000, 0b00000100000010000010000000000000, 0b00000100000110000010000000000000,
  0b00000100001010000010000000000000, 0b00000100001110000010000000000000, 0b00000000000010010010000000000000,
  0b00000000000110010010000000000000, 0b00000000001010010010000000000000, 0b00000000001110010010000000000000,
  0b00000100000010010010000000000000, 0b00000100000110010010000000000000, 0b00000100001010010010000000000000,
  0b00000100001110010010000000000000, 0b00000000000000000000000001000000, 0b00000000000100000000000001000000,
  0b00000000001000000000000001000000, 0b00000000001100000000000001000000, 0b00000100000000000000000001000000,
  0b00000100000100000000000001000000, 0b00000100001000000000000001000000, 0b00000100001100000000000001000000,
  0b00000000000000010000000001000000, 0b00000000000100010000000001000000, 0b00000000001000010000000001000000,
  0b00000000001100010000000001000000, 0b00000100000000010000000001000000, 0b00000100000100010000000001000000,
  0b00000100001000010000000001000000, 0b00000100001100010000000001000000, 0b00000000000010000000000001000000,
  0b00000000000110000000000001000000, 0b00000000001010000000000001000000, 0b00000000001110000000000001000000,
  0b00000100000010000000000001000000, 0b00000100000110000000000001000000, 0b00000100001010000000000001000000,
  0b00000100001110000000000001000000, 0b00000000000010010000000001000000, 0b00000000000110010000000001000000,
  0b00000000001010010000000001000000, 0b00000000001110010000000001000000, 0b00000100000010010000000001000000,
  0b00000100000110010000000001000000, 0b00000100001010010000000001000000, 0b00000100001110010000000001000000,
  0b00000000000000000010000001000000, 0b00000000000100000010000001000000, 0b00000000001000000010000001000000,
  0b00000000001100000010000001000000, 0b00000100000000000010000001000000, 0b00000100000100000010000001000000,
  0b00000100001000000010000001000000, 0b00000100001100000010000001000000, 0b00000000000000010010000001000000,
  0b00000000000100010010000001000000, 0b00000000001000010010000001000000, 0b00000000001100010010000001000000,
  0b00000100000000010010000001000000, 0b00000100000100010010000001000000, 0b00000100001000010010000001000000,
  0b00000100001100010010000001000000, 0b00000000000010000010000001000000, 0b00000000000110000010000001000000,
  0b00000000001010000010000001000000, 0b00000000001110000010000001000000, 0b00000100000010000010000001000000,
  0b00000100000110000010000001000000, 0b00000100001010000010000001000000, 0b00000100001110000010000001000000,
  0b00000000000010010010000001000000, 0b00000000000110010010000001000000, 0b00000000001010010010000001000000,
  0b00000000001110010010000001000000, 0b00000100000010010010000001000000, 0b00000100000110010010000001000000,
  0b00000100001010010010000001000000, 0b00000100001110010010000001000000, 0b00000000000000000000000000100000,
  0b00000000000100000000000000100000, 0b00000000001000000000000000100000, 0b00000000001100000000000000100000,
  0b00000100000000000000000000100000, 0b00000100000100000000000000100000, 0b00000100001000000000000000100000,
  0b00000100001100000000000000100000, 0b00000000000000010000000000100000, 0b00000000000100010000000000100000,
  0b00000000001000010000000000100000, 0b00000000001100010000000000100000, 0b00000100000000010000000000100000,
  0b00000100000100010000000000100000, 0b00000100001000010000000000100000, 0b00000100001100010000000000100000,
  0b00000000000010000000000000100000, 0b00000000000110000000000000100000, 0b00000000001010000000000000100000,
  0b00000000001110000000000000100000, 0b00000100000010000000000000100000, 0b00000100000110000000000000100000,
  0b00000100001010000000000000100000, 0b00000100001110000000000000100000, 0b00000000000010010000000000100000,
  0b00000000000110010000000000100000, 0b00000000001010010000000000100000, 0b00000000001110010000000000100000,
  0b00000100000010010000000000100000, 0b00000100000110010000000000100000, 0b00000100001010010000000000100000,
  0b00000100001110010000000000100000, 0b00000000000000000010000000100000, 0b00000000000100000010000000100000,
  0b00000000001000000010000000100000, 0b00000000001100000010000000100000, 0b00000100000000000010000000100000,
  0b00000100000100000010000000100000, 0b00000100001000000010000000100000, 0b00000100001100000010000000100000,
  0b00000000000000010010000000100000, 0b00000000000100010010000000100000, 0b00000000001000010010000000100000,
  0b00000000001100010010000000100000, 0b00000100000000010010000000100000, 0b00000100000100010010000000100000,
  0b00000100001000010010000000100000, 0b00000100001100010010000000100000, 0b00000000000010000010000000100000,
  0b00000000000110000010000000100000, 0b00000000001010000010000000100000, 0b00000000001110000010000000100000,
  0b00000100000010000010000000100000, 0b00000100000110000010000000100000, 0b00000100001010000010000000100000,
  0b00000100001110000010000000100000, 0b00000000000010010010000000100000, 0b00000000000110010010000000100000,
  0b00000000001010010010000000100000, 0b00000000001110010010000000100000, 0b00000100000010010010000000100000,
  0b00000100000110010010000000100000, 0b00000100001010010010000000100000, 0b00000100001110010010000000100000,
  0b00000000000000000000000001100000, 0b00000000000100000000000001100000, 0b00000000001000000000000001100000,
  0b00000000001100000000000001100000, 0b00000100000000000000000001100000, 0b00000100000100000000000001100000,
  0b00000100001000000000000001100000, 0b00000100001100000000000001100000, 0b00000000000000010000000001100000,
  0b00000000000100010000000001100000, 0b00000000001000010000000001100000, 0b00000000001100010000000001100000,
  0b00000100000000010000000001100000, 0b00000100000100010000000001100000, 0b00000100001000010000000001100000,
  0b00000100001100010000000001100000, 0b00000000000010000000000001100000, 0b00000000000110000000000001100000,
  0b00000000001010000000000001100000, 0b00000000001110000000000001100000, 0b00000100000010000000000001100000,
  0b00000100000110000000000001100000, 0b00000100001010000000000001100000, 0b00000100001110000000000001100000,
  0b00000000000010010000000001100000, 0b00000000000110010000000001100000, 0b00000000001010010000000001100000,
  0b00000000001110010000000001100000, 0b00000100000010010000000001100000, 0b00000100000110010000000001100000,
  0b00000100001010010000000001100000, 0b00000100001110010000000001100000, 0b00000000000000000010000001100000,
  0b00000000000100000010000001100000, 0b00000000001000000010000001100000, 0b00000000001100000010000001100000,
  0b00000100000000000010000001100000, 0b00000100000100000010000001100000, 0b00000100001000000010000001100000,
  0b00000100001100000010000001100000, 0b00000000000000010010000001100000, 0b00000000000100010010000001100000,
  0b00000000001000010010000001100000, 0b00000000001100010010000001100000, 0b00000100000000010010000001100000,
  0b00000100000100010010000001100000, 0b00000100001000010010000001100000, 0b00000100001100010010000001100000,
  0b00000000000010000010000001100000, 0b00000000000110000010000001100000, 0b00000000001010000010000001100000,
  0b00000000001110000010000001100000, 0b00000100000010000010000001100000, 0b00000100000110000010000001100000,
  0b00000100001010000010000001100000, 0b00000100001110000010000001100000, 0b00000000000010010010000001100000,
  0b00000000000110010010000001100000, 0b00000000001010010010000001100000, 0b00000000001110010010000001100000,
  0b00000100000010010010000001100000, 0b00000100000110010010000001100000, 0b00000100001010010010000001100000,
  0b00000100001110010010000001100000]

/-- The entry `_byte_to_mask[byte]`; `byte` is a `uint8_t`, the table has 256 entries. -/
def byte_to_mask (byte : Nat) : Nat := _byte_to_mask.getD byte 0

/-- The C++ expression `(~_byte_to_mask[byte]) & std::get<255>(_byte_to_mask)` on `uint32_t`. -/
def clear_mask (byte : Nat) : Nat := (2 ^ 32 - 1 - byte_to_mask byte) &&& byte_to_mask 255

/-- `display_coordinates_to_frame_index` of `led_panel.hpp`.  The arguments are
`uint8_t`; the arithmetic is carried out in `int` (so `3 - row` may be negative)
and the result is converted to `uint16_t`.  With `width = 0` the C++ expression
divides by zero, which has no defined result: `none`. -/
def display_coordinates_to_frame_index (width height ab panel row column : Nat) : Option Nat :=
  if width = 0 then none
  else
    some (((column : Int) + ((panel : Int) % (width : Int)) * 4
      + ((3 - (row : Int)) * 4 + (ab : Int) + ((panel : Int) / (width : Int)) * 16)
          * (width : Int) * 4) % 65536).toNat

/-- How a call of `send` ends. -/
inductive Outcome where
  | returned
  | raised (what : String)
  | undefined
  | out_of_fuel
  deriving DecidableEq, Repr

/-- The transmitter object together with the history of what it did: the GPIO
register writes `(offset, value)` in program order, the `send_byte` calls
`(byte, first)` in program order and the frame indices read by `send`. -/
structure led_panel where
  _width : Nat
  _height : Nat
  _previous_write : Nat
  gpio_writes : List (Nat × Nat)
  send_byte_calls : List (Nat × Bool)
  frame_reads : List Nat
  deriving DecidableEq, Repr

/-- The first data register write of `send_byte`. -/
def data_write_1 (byte : Nat) (first : Bool) : Nat × Nat :=
  (if first then set_offset else clear_offset, byte_to_mask byte)

/-- The second data register write of `send_byte`. -/
def data_write_2 (byte : Nat) (first : Bool) : Nat × Nat :=
  (if first then clear_offset else set_offset, clear_mask byte)

/-- The request register write of `send_byte`. -/
def request_write (request : Bool) : Nat × Nat :=
  (if request then set_offset else clear_offset, request_mask)

/-- The running state of one `send`: the object and the two local flags. -/
structure SendState where
  panel : led_panel
  request : Bool
  acknowledge : Bool
  deriving DecidableEq, Repr

/-- `send_byte` as seen from the transmitter alone: the three register writes
and the two flag toggles.  The busy-wait loops and sleeps read registers and the
clock only; here the wait for acknowledge is taken to return. -/
def send_byte (byte : Nat) (first : Bool) (st : SendState) : SendState :=
  { panel :=
      { st.panel with
        gpio_writes := st.panel.gpio_writes ++
          [data_write_1 byte first, data_write_2 byte first, request_write st.request]
        send_byte_calls := st.panel.send_byte_calls ++ [(byte, first)] }
    request := !st.request
    acknowledge := !st.acknowledge }

/-- The body of the innermost loop of `send`: one mapped frame read and one `send_byte`. -/
def send_body (frame : List Nat) (ab panel column row : Nat) (st : SendState) :
    Except Outcome SendState :=
  match display_coordinates_to_frame_index st.panel._width st.panel._height ab panel row column with
  | none => .error .undefined
  | some index =>
    match frame[index + 1]? with
    | none => .error .undefined
    | some byte =>
      .ok (send_byte byte false
        { st with panel := { st.panel with frame_reads := st.panel.frame_reads ++ [index + 1] } })

/-- The `row` loop of `send`, `for (uint8_t row = 0; row < 4; ++row)`. -/
def row_loop (frame : List Nat) (ab panel column : Nat) (st : SendState) :
    Except Outcome SendState :=
  [0, 1, 2, 3].foldlM (fun st row => send_body frame ab panel column row st) st

/-- The `column` loop of `send`, `for (uint8_t column = 0; column < 4; ++column)`. -/
def column_loop (frame : List Nat) (ab panel : Nat) (st : SendState) :
    Except Outcome SendState :=
  [0, 1, 2, 3].foldlM (fun st column => row_loop frame ab panel column st) st

/-- The `panel` loop of `send`, `for (uint8_t panel = 0; panel < _width * _height; ++panel)`.
The counter is 8 bits wide and wraps; the comparison is made in `int`.  `fuel`
bounds the number of evaluations of the loop condition. -/
def panel_loop (frame : List Nat) (ab : Nat) : Nat → Nat → SendState → Except Outcome SendState
  | 0, _, _ => .error .out_of_fuel
  | fuel + 1, panel, st =>
    if panel < st.panel._width * st.panel._height then
      match column_loop frame ab panel st with
      | .error e => .error e
      | .ok st1 => panel_loop frame ab fuel ((panel + 1) % 256) st1
    else .ok st

/-- The `ab` loop of `send`, `for (uint8_t ab = 0; ab < 4; ++ab)`. -/
def ab_loop (fuel : Nat) (frame : List Nat) (st : SendState) : Except Outcome SendState :=
  [0, 1, 2, 3].foldlM (fun st ab => panel_loop frame ab fuel 0 st) st

/-- `led_panel::send`.  `now` is the reading of the clock at the end of the call.
The result is the object after the call and how the call ended; when the call
does not return normally the object is the one at the point where it stopped. -/
def send (fuel : Nat) (now : Nat) (frame : List Nat) (p : led_panel) : led_panel × Outcome :=
  if frame.length ≠ 64 * p._width * p._height + 1 then
    (p, .raised "bad frame size")
  else
    match frame[0]? with
    | none => (p, .undefined)
    | some duty =>
      let st0 := send_byte duty true
        { panel := { p with frame_reads := p.frame_reads ++ [0] }, request := true, acknowledge := true }
      match ab_loop fuel frame st0 with
      | .error e => (st0.panel, e)
      | .ok st1 =>
        let st2 := send_byte 0 false st1
        ({ st2.panel with _previous_write := now }, .returned)

/-- The quadruples `(ab, panel, column, row)` in the nesting order of the loops
of `send`: `ab` outermost, `row` innermost. -/
def transmission_order (width height : Nat) : List (Nat × Nat × Nat × Nat) :=
  (List.range 4).flatMap fun ab =>
    (List.range (width * height)).flatMap fun panel =>
      (List.range 4).flatMap fun column =>
        (List.range 4).map fun row => (ab, panel, column, row)

/-- The frame index `send` reads for a quadruple of `transmission_order`. -/
def frame_index_of (width height : Nat) (t : Nat × Nat × Nat × Nat) : Nat :=
  (display_coordinates_to_frame_index width height t.1 t.2.1 t.2.2.2 t.2.2.1).getD 0 + 1

/-- A fresh transmitter object with empty histories. -/
def new_panel (width height : Nat) : led_panel :=
  { _width := width, _height := height, _previous_write := 0,
    gpio_writes := [], send_byte_calls := [], frame_reads := [] }


/-- One iteration of the innermost loop of `send` for the quadruple `t`, when the
mapped index exists and lies inside the frame. -/
def push (frame : List Nat) (st : SendState) (t : Nat × Nat × Nat × Nat) : SendState :=
  send_byte (frame.getD (frame_index_of st.panel._width st.panel._height t) 0) false
    { st with panel := { st.panel with
        frame_reads := st.panel.frame_reads
          ++ [frame_index_of st.panel._width st.panel._height t] } }

/-- The iterations of the innermost loop of `send` for a list of quadruples. -/
def pushes (frame : List Nat) (st : SendState) (ts : List (Nat × Nat × Nat × Nat)) : SendState :=
  ts.foldl (push frame) st

/-! ## Arduino side: `arduino.c` -/

/-- The shipped value of the macro `frame_size`. -/
def frame_size : Nat := 128

/-- The microcontroller: the frame ring, the variables of the interrupt handler, the
variables of the receiver loop in `main`, and the output pins both drive.  `stores` is the
history of the receiver's writes `(slot, index, value)` into `frame_buffer`, oldest first;
`latch_pulses` counts the pulses on the latch pin. -/
structure Mcu where
  frame_buffer : List (List Nat)
  read : Nat
  write : Nat
  frame_tick : Nat
  count : Nat
  ab : Nat
  oe_count : Nat
  oe : Bool
  a : Bool
  b : Bool
  spdr : Nat
  latch_pulses : Nat
  acknowledge : Bool
  read_state : Nat
  read_index : Nat
  previous_frame_tick : Nat
  stores : List (Nat × Nat × Nat)
  deriving DecidableEq, Repr

/-- The byte `frame_buffer[slot][index]`. -/
def byte_at (fb : List (List Nat)) (slot index : Nat) : Nat :=
  (fb.getD slot []).getD index 0

/-- The assignment `frame_buffer[slot][index] = value`. -/
def store (fb : List (List Nat)) (slot index value : Nat) : List (List Nat) :=
  fb.set slot ((fb.getD slot []).set index value)

/-- The state when `main` reaches `sei()`: every slot holds duty 0 followed by `fs` bytes
255, `read = 0`, `write = 1`, all output pins low, receiver in state 0. -/
def power_up (fs : Nat) : Mcu :=
  { frame_buffer := List.replicate 8 (0 :: List.replicate fs 255)
    read := 0, write := 1, frame_tick := 0
    count := 0, ab := 0, oe_count := 0
    oe := false, a := false, b := false
    spdr := 0, latch_pulses := 0
    acknowledge := false
    read_state := 0, read_index := 0, previous_frame_tick := 0
    stores := [] }

/-- The branch `count < frame_size / 4` of the handler: one byte of the read slot goes to
the serial data register; output is blanked when the threshold equals the counter. -/
def isr_shift (fs : Nat) (s : Mcu) : Mcu :=
  if s.oe_count = s.count then
    { s with spdr := byte_at s.frame_buffer s.read (s.count + (fs / 4) * s.ab + 1), oe := false }
  else
    { s with spdr := byte_at s.frame_buffer s.read (s.count + (fs / 4) * s.ab + 1) }

/-- The branch `count == frame_size / 4` of the handler: the latch pulse, and the blanking for
the two thresholds `frame_size / 4` and `frame_size / 4 + 1`. -/
def isr_latch (fs : Nat) (s : Mcu) : Mcu :=
  if s.oe_count = fs / 4 ∨ s.oe_count = fs / 4 + 1 then
    { s with latch_pulses := s.latch_pulses + 1, oe := false }
  else
    { s with latch_pulses := s.latch_pulses + 1 }

/-- The `switch (state.ab)` of the branch `count == frame_size / 4 + 1`: the row-select pins. -/
def isr_row_select (s : Mcu) : Mcu :=
  if s.ab = 0 then { s with a := false, b := false }
  else if s.ab = 1 then { s with a := true }
  else if s.ab = 2 then { s with a := false, b := true }
  else if s.ab = 3 then { s with a := true }
  else s

/-- The rest of the branch `count == frame_size / 4 + 1`: `++state.ab` on the 2-bit field
and, when it wraps to 0, `++frame_tick` and the guarded `++frame_buffer_index.read`. -/
def isr_advance (s : Mcu) : Mcu :=
  if (s.ab + 1) % 4 = 0 then
    if (s.read + 1) % 8 ≠ s.write then
      { s with ab := (s.ab + 1) % 4, frame_tick := (s.frame_tick + 1) % 256,
               read := (s.read + 1) % 8 }
    else
      { s with ab := (s.ab + 1) % 4, frame_tick := (s.frame_tick + 1) % 256 }
  else
    { s with ab := (s.ab + 1) % 4 }

/-- The branch `count == frame_size / 4 + 2` of the handler: the threshold is recomputed from
the duty byte of the read slot and output is enabled unless the threshold is this tick. -/
def isr_threshold (fs : Nat) (s : Mcu) : Mcu :=
  if (byte_at s.frame_buffer s.read 0 + fs / 4 + 2) % 256 ≠ fs / 4 + 2 then
    { s with oe_count := (byte_at s.frame_buffer s.read 0 + fs / 4 + 2) % 256, oe := true }
  else
    { s with oe_count := (byte_at s.frame_buffer s.read 0 + fs / 4 + 2) % 256 }

/-- The last branch of the handler: output is blanked when the threshold equals the counter. -/
def isr_blank (s : Mcu) : Mcu :=
  if s.oe_count = s.count then { s with oe := false } else s

/-- The closing `++count` of the handler on the 8-bit counter. -/
def isr_count (s : Mcu) : Mcu :=
  { s with count := (s.count + 1) % 256 }

/-- The handler `ISR(TIMER0_COMPA_vect)` for a receiver compiled with `frame_size = fs`. -/
def isr (fs : Nat) (s : Mcu) : Mcu :=
  isr_count
    (if s.count < fs / 4 then isr_shift fs s
     else if s.count = fs / 4 then isr_latch fs s
     else if s.count = fs / 4 + 1 then isr_advance (isr_row_select s)
     else if s.count = fs / 4 + 2 then isr_threshold fs s
     else isr_blank s)

/-- The level of the request pin as the integer `(PINC >> pi_request_pin) & 1`. -/
def request_bit (request : Bool) : Nat := if request then 1 else 0

/-- The first byte of a frame is taken: the body shared by state 0 and state 1. -/
def accept_duty (pind : Nat) (s : Mcu) : Mcu :=
  { s with
    frame_buffer := store s.frame_buffer s.write 0 pind
    stores := s.stores ++ [(s.write, 0, pind)]
    acknowledge := true
    previous_frame_tick := s.frame_tick
    read_index := 1
    read_state := 2 }

/-- One iteration of the `for (;;)` loop of `main` for a receiver compiled with
`frame_size = fs`: `request` is the level of the request pin and `pind` the value of the
data port read in this iteration. -/
def loop_iteration (fs : Nat) (request : Bool) (pind : Nat) (s : Mcu) : Mcu :=
  if s.read_state = 0 then
    if request_bit request = 1 then
      if s.write = s.read then { s with read_state := 1 }
      else accept_duty pind s
    else s
  else if s.read_state = 1 then
    if s.write ≠ s.read then accept_duty pind s else s
  else if s.read_state = 2 then
    if request_bit request ≠ s.read_index % 2 then
      let s0 := { s with
        frame_buffer := store s.frame_buffer s.write s.read_index pind
        stores := s.stores ++ [(s.write, s.read_index, pind)]
        acknowledge := if s.read_index % 2 = 1 then false else true }
      if s.read_index < fs then
        { s0 with previous_frame_tick := s.frame_tick, read_index := (s.read_index + 1) % 65536 }
      else
        { s0 with write := (s.write + 1) % 8, read_state := 3 }
    else
      if (s.frame_tick + 256 - s.previous_frame_tick) % 256 > 8 then
        { s with acknowledge := false, read_state := 0 }
      else s
  else if s.read_state = 3 then
    if request_bit request = 0 then { s with acknowledge := false, read_state := 0 }
    else
      if (s.frame_tick + 256 - s.previous_frame_tick) % 256 > 8 then
        { s with acknowledge := false, read_state := 4 }
      else s
  else if s.read_state = 4 then
    if request_bit request = 0 then { s with read_state := 0 } else s
  else s

/-- What the microcontroller does next: a timer interrupt, or one iteration of the
receiver loop with the given pin readings. -/
inductive McuAction where
  | tick
  | iteration (request : Bool) (pind : Nat)
  deriving DecidableEq, Repr

/-- One step of the microcontroller. -/
def mcu_step (fs : Nat) (s : Mcu) : McuAction → Mcu
  | .tick => isr fs s
  | .iteration request pind => loop_iteration fs request pind s

/-- The microcontroller after a sequence of steps. -/
def mcu_run (fs : Nat) (s : Mcu) (acts : List McuAction) : Mcu :=
  acts.foldl (mcu_step fs) s

/-- The number of steps of a run in which `write` changed (commits). -/
def commits (fs : Nat) : Mcu → List McuAction → Nat
  | _, [] => 0
  | s, act :: acts =>
    (if (mcu_step fs s act).write ≠ s.write then 1 else 0) + commits fs (mcu_step fs s act) acts

/-- The number of steps of a run in which `read` changed (read advances). -/
def advances (fs : Nat) : Mcu → List McuAction → Nat
  | _, [] => 0
  | s, act :: acts =>
    (if (mcu_step fs s act).read ≠ s.read then 1 else 0) + advances fs (mcu_step fs s act) acts

/-- The number of timer interrupts in a sequence of steps. -/
def ticks_in (acts : List McuAction) : Nat :=
  (acts.filter (fun act => act = McuAction.tick)).length

/-! ## The two sides wired together

The transmitter drives the GPIO output levels (8 data lines and the request line); the
microcontroller reads them on its data port and request pin and drives the acknowledge
line, which the transmitter polls.  A run of the composed system is a sequence of atomic
actions: one register access of the transmitter, one iteration of the receiver loop, or
one timer interrupt. -/

/-- The GPIO pin of the request line: `request_mask = 1u << 27`. -/
def request_pin : Nat := 27

/-- The GPIO pin that `_byte_to_mask` assigns to bit `i` of a byte:
`_byte_to_mask[1 << i] = 1 << data_pin i`. -/
def data_pin (i : Nat) : Nat := [20, 21, 26, 16, 19, 13, 6, 5].getD i 0

/-- The effect of a write `(offset, value)` on the 32 GPIO output levels: the set register
raises the pins in `value`, the clear register lowers them; other registers hold no level. -/
def gpio_apply (level : Nat) (w : Nat × Nat) : Nat :=
  if w.1 = set_offset then level ||| w.2
  else if w.1 = clear_offset then level &&& (2 ^ 32 - 1 - w.2)
  else level

/-- The level of the request line. -/
def request_line (level : Nat) : Bool := level.testBit request_pin

/-- The value of the receiver's data port, data line `i` carrying bit `i` of the port. -/
def pind_of_level (level : Nat) : Nat :=
  ((List.range 8).map fun i => if level.testBit (data_pin i) then 2 ^ i else 0).sum

/-- The transmitter process: the `send_byte` calls of the `send` in progress, the number of
them completed, the position inside the current `send_byte`, the two local flags of `send`,
and the frames still to be sent by later calls of `send`.

Positions inside `send_byte`: 0 before the first data register write, 1 before the second,
2 before the request register write, 3 the pacing of the first byte of a frame (sleeps and
one look at acknowledge), 4 the loop that polls acknowledge. -/
structure Sender where
  calls : List (Nat × Bool)
  index : Nat
  pc : Nat
  request : Bool
  acknowledge : Bool
  queue : List (List Nat)
  deriving DecidableEq, Repr

/-- The composed system. -/
structure Sys where
  tx : Sender
  level : Nat
  mcu : Mcu
  deriving DecidableEq, Repr

/-- One atomic step of the transmitter on a `width` by `height` grid; `ack` is the level of
the acknowledge line.  When no `send` is in progress the next frame of the queue is taken:
`send` checks its size, its sequence of `send_byte` calls is the one of `send`, and the
flags start at `true`. -/
def sender_step (width height : Nat) (ack : Bool) (tx : Sender) (level : Nat) : Sender × Nat :=
  match tx.calls[tx.index]? with
  | none =>
    match tx.queue with
    | [] => (tx, level)
    | frame :: rest =>
      if (send 256 0 frame (new_panel width height)).2 = Outcome.returned then
        ({ calls := (send 256 0 frame (new_panel width height)).1.send_byte_calls
           index := 0, pc := 0, request := true, acknowledge := true, queue := rest }, level)
      else
        ({ tx with queue := [] }, level)
  | some call =>
    if tx.pc = 0 then
      ({ tx with pc := 1 }, gpio_apply level (data_write_1 call.1 call.2))
    else if tx.pc = 1 then
      ({ tx with pc := 2 }, gpio_apply level (data_write_2 call.1 call.2))
    else if tx.pc = 2 then
      ({ tx with pc := if call.2 then 3 else 4, request := !tx.request },
        gpio_apply level (request_write tx.request))
    else if tx.pc = 3 then
      ({ tx with pc := 4 }, level)
    else if ack = tx.acknowledge then
      ({ tx with pc := 0, index := tx.index + 1, acknowledge := !tx.acknowledge }, level)
    else
      (tx, level)

/-- The atomic actions of the composed system. -/
inductive Action where
  | sender
  | receiver
  | tick
  deriving DecidableEq, Repr

/-- One step of the composed system for a receiver compiled with `frame_size = fs`. -/
def sys_step (fs width height : Nat) (s : Sys) : Action → Sys
  | .sender =>
    { s with
      tx := (sender_step width height s.mcu.acknowledge s.tx s.level).1
      level := (sender_step width height s.mcu.acknowledge s.tx s.level).2 }
  | .receiver =>
    { s with mcu := loop_iteration fs (request_line s.level) (pind_of_level s.level) s.mcu }
  | .tick => { s with mcu := isr fs s.mcu }

/-- The composed system after a sequence of actions. -/
def sys_run (fs width height : Nat) (s : Sys) (acts : List Action) : Sys :=
  acts.foldl (sys_step fs width height) s

/-- The receiver iteration from this state takes one of the two stall-timeout branches
(state 2 or state 3 with more than 8 refresh ticks elapsed). -/
def times_out (request : Bool) (m : Mcu) : Bool :=
  (decide (m.read_state = 2) && decide (request_bit request = m.read_index % 2)
      && decide ((m.frame_tick + 256 - m.previous_frame_tick) % 256 > 8))
  || (decide (m.read_state = 3) && decide (request_bit request = 1)
      && decide ((m.frame_tick + 256 - m.previous_frame_tick) % 256 > 8))

/-- No receiver iteration of the run takes a stall-timeout branch. -/
def no_timeout (fs width height : Nat) : Sys → List Action → Bool
  | _, [] => true
  | s, act :: acts =>
    (!decide (act = Action.receiver) || !times_out (request_line s.level) s.mcu)
      && no_timeout fs width height (sys_step fs width height s act) acts

/-- The transmitter has returned from every `send`. -/
def sender_done (tx : Sender) : Bool :=
  decide (tx.calls.length ≤ tx.index) && decide (tx.queue = [])

/-- The transmitter before its first `send`, with the given frames to send. -/
def sender_start (frames : List (List Nat)) : Sender :=
  { calls := [], index := 0, pc := 0, request := true, acknowledge := true, queue := frames }

/-- The schedule in which every transmitter access is followed by a receiver iteration,
`n` times. -/
def lockstep (n : Nat) : List Action :=
  (List.replicate n [Action.sender, Action.receiver]).flatten

/-- What the receiver's data port shows for a `send_byte` call: the byte itself for the
first byte of a frame, its bitwise complement otherwise. -/
def wire (call : Nat × Bool) : Nat := if call.2 then call.1 else 255 - call.1

/-- The frame of the end-to-end scenario of the specification: duty 255, payload bytes
0, 1, ..., 63 (a 1 by 1 grid, `frame_size = 64`). -/
def scenario_frame : List Nat := 255 :: List.range 64

/-- The composed system at rest before `send (scenario_frame)`: all lines low and the
receiver in its power-up state. -/
def scenario_start : Sys :=
  { tx := sender_start [scenario_frame], level := 0, mcu := power_up 64 }

/-- The machine integers of a state are in the range of their C types. -/
def in_range (s : Sys) : Bool :=
  decide (s.mcu.count < 256) && decide (s.mcu.ab < 4) && decide (s.mcu.frame_tick < 256)
    && decide (s.mcu.oe_count < 256) && decide (s.mcu.previous_frame_tick < 256)
    && decide (s.mcu.read < 8) && decide (s.mcu.write < 8)
    && decide (s.mcu.read_state < 256) && decide (s.mcu.read_index < 65536)
    && decide (s.level < 2 ^ 32) && decide (s.tx.pc < 5)

/-- Every state of the run has its machine integers in range. -/
def stays_in_range (fs width height : Nat) : Sys → List Action → Bool
  | s, [] => in_range s
  | s, act :: acts => in_range s && stays_in_range fs width height (sys_step fs width height s act) acts

/-- A schedule in which the transmitter stalls inside its third `send_byte` for nine
refresh ticks, the receiver looks at the lines, and the transfer then goes on. -/
def stall_schedule : List Action :=
  lockstep 12 ++ List.replicate 8978 Action.tick ++ [Action.receiver] ++ lockstep 330

/-! ## Predicates used in the statements and proofs -/

/-- The ring invariant carried along a run: `C` commits and `D` read advances so far. -/
def RingInv (s : Mcu) (C D : Nat) : Prop :=
  s.write = (1 + C) % 8 ∧ s.read = D % 8 ∧ D ≤ C ∧ C ≤ D + 7 ∧ (s.read_state = 2 → C ≤ D + 6)

/-- While the request level stays at the parity the receiver already has, the receiver is
idle, or waiting for space with request high, or reading with no flip pending. -/
def Stalled (request : Bool) (w : Nat) (s : Mcu) : Prop :=
  s.write = w ∧
  (s.read_state = 0 ∨ (s.read_state = 1 ∧ request_bit request = 1) ∨
    (s.read_state = 2 ∧ request_bit request = s.read_index % 2))

/-- Some step of the run takes the receiver from a state other than 0 into state 0. -/
def returns_to_idle (fs : Nat) : Mcu → List McuAction → Bool
  | _, [] => false
  | s, act :: acts =>
    (decide (s.read_state ≠ 0) && decide ((mcu_step fs s act).read_state = 0))
      || returns_to_idle fs (mcu_step fs s act) acts

/-- In state 2 the index is between 1 and `fs`, and every store so far was inside a slot. -/
def ReadingInv (fs : Nat) (s : Mcu) : Prop :=
  (s.read_state = 2 → 1 ≤ s.read_index ∧ s.read_index ≤ fs) ∧
  ∀ e ∈ s.stores, e.2.1 ≤ fs

/-- The receiver's progress on a path that left state 0 of `s0` and did not come back. -/
def PathInv (fs : Nat) (s0 s : Mcu) : Prop :=
  (s.read_state ≤ 1 ∧ s.stores = s0.stores ∧ s.write = s0.write) ∨
  (s.read_state = 2 ∧ s.write = s0.write ∧ 1 ≤ s.read_index ∧ s.read_index ≤ fs ∧
    ∃ extra : List (Nat × Nat × Nat), s.stores = s0.stores ++ extra ∧
      extra.map (fun e => (e.1, e.2.1)) = (List.range s.read_index).map (fun i => (s0.write, i))) ∨
  3 ≤ s.read_state

/-- The ring keeps its shape: 8 slots of `fs + 1` bytes, 3-bit indices. -/
def BufferShape (fs : Nat) (s : Mcu) : Prop :=
  s.frame_buffer.length = 8 ∧ (∀ slot ∈ s.frame_buffer, slot.length = fs + 1) ∧
  s.write < 8 ∧ s.read < 8

/-- The output-enable invariant of the scan engine: when the pin is high, the tick that
blanks it again (tick `oe_count`, or the latch tick `fs / 4` for the threshold `fs / 4 + 1`)
has still to come before the next tick `fs / 4 + 2`. -/
def OeInv (fs : Nat) (s : Mcu) : Prop :=
  s.count < 256 ∧ s.oe_count < 256 ∧
  (s.oe = true →
    s.oe_count ≠ fs / 4 + 2 ∧ s.count ≠ fs / 4 + 2 ∧
    (s.count + 256 - (fs / 4 + 2)) % 256
      ≤ ((if s.oe_count = fs / 4 + 1 then fs / 4 else s.oe_count) + 256 - (fs / 4 + 2)) % 256)

/-- Every timer interrupt of the run that executes tick `fs / 4 + 2` finds the duty byte 0
in the read slot. -/
def duty_zero_at_thresholds (fs : Nat) : Mcu → List McuAction → Bool
  | _, [] => true
  | s, act :: acts =>
    (decide (act = McuAction.tick → s.count = fs / 4 + 2 → byte_at s.frame_buffer s.read 0 = 0))
      && duty_zero_at_thresholds fs (mcu_step fs s act) acts

/-- After the first data register write of a call, the lines of the one-bits of the byte
are already at their final level. -/
def HalfWritten (call : Nat × Bool) (level : Nat) : Prop :=
  ∀ i < 8, call.1.testBit i = true → level.testBit (data_pin i) = call.2

/-- The sequence of `send_byte` calls of `send` for a frame on a `width` by `height` grid. -/
def calls_of (width height : Nat) (frame : List Nat) : List (Nat × Bool) :=
  (send 256 0 frame (new_panel width height)).1.send_byte_calls

/-- A well-formed call sequence for a receiver with `frame_size = fs`: `fs + 2` calls of
bytes, the first and only the first flagged `first`. -/
def ValidCalls (fs : Nat) (cs : List (Nat × Bool)) : Prop :=
  cs.length = fs + 2 ∧ ∀ i c, cs[i]? = some c → c.1 < 256 ∧ (c.2 = true ↔ i = 0)

/-- The receiver has accepted exactly `j` bytes of the frame in transfer (`j = fs + 2`: the
closing dummy byte has been taken as the request de-assertion). -/
def RecvAt (fs j : Nat) (m : Mcu) : Prop :=
  (j = 0 ∧ m.read_state = 0 ∧ m.acknowledge = false) ∨
  (1 ≤ j ∧ j ≤ fs ∧ m.read_state = 2 ∧ m.read_index = j ∧ request_bit m.acknowledge = j % 2) ∨
  (j = fs + 1 ∧ m.read_state = 3 ∧ m.acknowledge = true) ∨
  (j = fs + 2 ∧ m.read_state = 0 ∧ m.acknowledge = false)

/-- No `send` is in progress; the lines are at rest and the receiver is idle. -/
def Quiet (s : Sys) : Prop :=
  s.tx.calls.length ≤ s.tx.index ∧ request_line s.level = false ∧
  s.mcu.read_state = 0 ∧ s.mcu.acknowledge = false

/-- A `send` is in progress at the call `c`. -/
def InSend (fs : Nat) (s : Sys) (c : Nat × Bool) : Prop :=
  ValidCalls fs s.tx.calls ∧ s.tx.calls[s.tx.index]? = some c ∧
  request_bit s.tx.acknowledge = (s.tx.index + 1) % 2

/-- The current `send_byte` has not yet written the request register. -/
def Early (fs : Nat) (s : Sys) (c : Nat × Bool) : Prop :=
  s.tx.pc ≤ 2 ∧ request_bit s.tx.request = (s.tx.index + 1) % 2 ∧
  request_bit (request_line s.level) = s.tx.index % 2 ∧
  RecvAt fs s.tx.index s.mcu ∧
  (s.tx.pc = 1 → HalfWritten c s.level) ∧
  (s.tx.pc = 2 → pind_of_level s.level = wire c)

/-- The current `send_byte` has written the request register and waits for acknowledge. -/
def Late (fs : Nat) (s : Sys) (c : Nat × Bool) : Prop :=
  3 ≤ s.tx.pc ∧ request_bit s.tx.request = s.tx.index % 2 ∧
  request_bit (request_line s.level) = (s.tx.index + 1) % 2 ∧
  pind_of_level s.level = wire c ∧
  (RecvAt fs s.tx.index s.mcu ∨ RecvAt fs (s.tx.index + 1) s.mcu ∨
    (s.tx.index = 0 ∧ s.mcu.read_state = 1 ∧ s.mcu.acknowledge = false))

/-- The handshake invariant of the composed system in the absence of receiver timeouts. -/
def Ctl (fs : Nat) (s : Sys) : Prop :=
  (∀ f ∈ s.tx.queue, f.length = fs + 1 ∧ ∀ b ∈ f, b < 256) ∧
  (Quiet s ∨ ∃ c, InSend fs s c ∧ (Early fs s c ∨ Late fs s c))

/-- The receiver has accepted the byte of the transmitter's current call. -/
def Accepted (fs : Nat) (s : Sys) : Prop :=
  (s.mcu.read_state = 2 ∧ s.mcu.read_index = s.tx.index + 1) ∨
  (s.mcu.read_state = 3 ∧ s.tx.index = fs)

/-- The receiver has committed the frame in transfer. -/
def Committed (fs : Nat) (s : Sys) : Prop :=
  s.mcu.read_state = 3 ∨ fs + 1 ≤ s.tx.index

/-- What the slot `w0` holds while the single frame `F` is sent: the bytes of the calls
already completed, and the byte of the current call once the receiver has accepted it. -/
def FrameData (fs w h : Nat) (F : List Nat) (w0 : Nat) (s : Sys) : Prop :=
  BufferShape fs s.mcu ∧ w0 < 8 ∧
  ((s.tx.calls = [] ∧ s.tx.queue = [F] ∧ s.tx.index = 0 ∧ s.mcu.write = w0) ∨
   (s.tx.calls = calls_of w h F ∧ s.tx.queue = [] ∧
     (∀ i, i < s.tx.index → i ≤ fs →
       byte_at s.mcu.frame_buffer w0 i = wire ((calls_of w h F).getD i (0, false))) ∧
     (Accepted fs s → s.tx.index ≤ fs →
       byte_at s.mcu.frame_buffer w0 s.tx.index
         = wire ((calls_of w h F).getD s.tx.index (0, false))) ∧
     (Committed fs s → s.mcu.write = (w0 + 1) % 8) ∧
     (¬ Committed fs s → s.mcu.write = w0)))

/-- The position of the scan engine in its cycle of 1024 ticks: the row-group selector times
256 plus the number of ticks since the last tick `fs / 4 + 2`.  The refresh tick counter
advances when the handler runs at phase 1023. -/
def phase (fs : Nat) (m : Mcu) : Nat :=
  m.ab * 256 + (m.count + 256 - (fs / 4 + 2)) % 256

/-- The number of committed frames the scan engine has still to move on to. -/
def pending (m : Mcu) : Nat := (m.write + 7 - m.read) % 8

/-- The state with the variables of the scan engine cleared: what the receiver loop and the
transmitter can observe of the microcontroller. -/
def scan_reset (m : Mcu) : Mcu :=
  { m with count := 0, ab := 0, oe_count := 0, oe := false, a := false, b := false,
           spdr := 0, latch_pulses := 0 }

/-- The composed system with the variables of the scan engine cleared. -/
def sys_reset (s : Sys) : Sys := { s with mcu := scan_reset s.mcu }

/-- The state of the stall schedule after the nine refresh ticks, the variables of the scan
engine cleared: the third `send_byte` has written its data, the receiver has read two
bytes, and the refresh tick counter is 9 ahead of the receiver's time stamp. -/
def stall_resume : Sys :=
  { sys_reset (sys_run 64 1 1 scenario_start (lockstep 12)) with
    mcu := { scan_reset (sys_run 64 1 1 scenario_start (lockstep 12)).mcu with frame_tick := 9 } }

/-- The frame of the constructor's warm-up loop: `std::vector<uint8_t>(64 * w * h + 1, 0)`. -/
def zero_frame (width height : Nat) : List Nat := List.replicate (64 * width * height + 1) 0

/-- The composed system when the transmitter starts sending `n` all-zero frames: all lines
low (the constructor has cleared them) and the receiver in its power-up state. -/
def warm_up_start (fs width height n : Nat) : Sys :=
  { tx := sender_start (List.replicate n (zero_frame width height)), level := 0,
    mcu := power_up fs }

/-- What holds while all-zero frames are sent from power-up: the ring has its power-up
contents, output is blanked, and the transmitter sends nothing but all-zero frames. -/
def WarmInv (fs w h : Nat) (s : Sys) : Prop :=
  BufferShape fs s.mcu ∧ s.mcu.frame_buffer = (power_up fs).frame_buffer ∧
  s.mcu.count < 256 ∧ s.mcu.ab < 4 ∧ s.mcu.oe = false ∧
  (∀ f ∈ s.tx.queue, f = zero_frame w h) ∧
  (s.tx.calls = [] ∨ s.tx.calls = calls_of w h (zero_frame w h))

/-! ## Further predicates and runs -/

/-- The acknowledge line is low in the states 0, 1 and 4 of the receiver. -/
def AckLow (s : Mcu) : Prop :=
  (s.read_state = 0 ∨ s.read_state = 1 ∨ s.read_state = 4) → s.acknowledge = false

/-- The offsets the mapper gives on a 1 by 1 grid (`panel = 0`) for every combination of
`ab`, `row` and `column` in `[0, 4)`. -/
def unit_grid_offsets : List (Option Nat) :=
  (List.range 4).flatMap fun ab =>
    (List.range 4).flatMap fun row =>
      (List.range 4).map fun column => display_coordinates_to_frame_index 1 1 ab 0 row column

/-- The GPIO output levels after the two data register writes of `send_byte`. -/
def after_data_writes (level byte : Nat) (first : Bool) : Nat :=
  gpio_apply (gpio_apply level (data_write_1 byte first)) (data_write_2 byte first)

/-- The four register writes of the constructor before the warm-up: the three function
select registers and the clear register. -/
def initial_writes : List (Nat × Nat) :=
  [(0, 0b00000000000001001000000000000000), (1, 0b00001000000001000000001000000000),
   (2, 0b00000000001001000000000000001001), (clear_offset, byte_to_mask 255 ||| request_mask)]

/-- The warm-up loop of the constructor, `n` iterations to go: each one is
`send(std::vector<uint8_t>(64 * _width * _height + 1, 0))`. -/
def warm_up (fuel now : Nat) : Nat → led_panel → led_panel × Outcome
  | 0, p => (p, Outcome.returned)
  | n + 1, p =>
    if (send fuel now (List.replicate (64 * p._width * p._height + 1) 0) p).2 = Outcome.returned then
      warm_up fuel now n (send fuel now (List.replicate (64 * p._width * p._height + 1) 0) p).1
    else send fuel now (List.replicate (64 * p._width * p._height + 1) 0) p

set_option linter.dupNamespace false in
/-- The constructor `led_panel::led_panel(width, height)`.  `open_ok` and `mmap_ok` tell
whether `open` and `mmap` succeed; `fuel` and `now` are those of every `send`. -/
def led_panel.led_panel (fuel now : Nat) (open_ok mmap_ok : Bool) (width height : Nat) :
    led_panel × Outcome :=
  if open_ok = false then
    (new_panel width height,
      Outcome.raised "'/dev/gpiomem' could not be opened in read and write mode")
  else if mmap_ok = false then
    (new_panel width height, Outcome.raised "mmap failed")
  else
    warm_up fuel now 8 { new_panel width height with gpio_writes := initial_writes }

/-- The number of handler invocations, among the next `n`, after which the output-enable
pin is low. -/
def sweep_blanked (fs : Nat) : Nat → Mcu → Nat
  | 0, _ => 0
  | n + 1, m => (if (isr fs m).oe then 0 else 1) + sweep_blanked fs n (isr fs m)

/-- The number of ticks of a 256-tick row-group sweep, from the tick `fs / 4 + 2` that
recomputes the threshold to the next one, during which the display is blanked. -/
def blanked_ticks (fs : Nat) (m : Mcu) : Nat := sweep_blanked fs 256 m

/-- A state on entry to the tick `fs / 4 + 2`, output enable low, with the duty byte `d` in
the read slot. -/
def sweep_start (fs d : Nat) : Mcu :=
  { power_up fs with
    count := fs / 4 + 2, frame_buffer := store (power_up fs).frame_buffer 0 0 d }

/-- The compare value of Timer0, `OCR0A = 155`: in CTC mode with no prescaler the handler
runs every `OCR0A + 1` clock cycles. -/
def OCR0A : Nat := 155

/-- The clock frequency of the microcontroller, the `16e6` of the header comment. -/
def clock_hz : Nat := 16000000

/-- The period of the timer interrupt in seconds. -/
def tick_period : ℚ := ((OCR0A + 1 : Nat) : ℚ) / (clock_hz : ℚ)

/-- The display period in seconds: 256 handler invocations for each of the 4 row groups. -/
def display_period : ℚ := 256 * 4 * tick_period

/-- What the transmitter alone guarantees while it sends the single frame `F` on a `w` by
`h` grid, whatever the receiver does: the parities of its two flags and of the request
line follow the number of `send_byte` calls completed. -/
def SenderInv (w h : Nat) (F : List Nat) (s : Sys) : Prop :=
  (s.tx.calls = [] ∧ s.tx.queue = [F] ∧ s.tx.index = 0) ∨
  (s.tx.calls = calls_of w h F ∧ s.tx.queue = [] ∧ s.tx.index ≤ 64 * w * h + 2 ∧
    request_bit s.tx.acknowledge = (s.tx.index + 1) % 2 ∧
    (s.tx.index = 64 * w * h + 2 → s.tx.pc = 0) ∧
    (s.tx.pc ≤ 2 → request_bit s.tx.request = (s.tx.index + 1) % 2 ∧
      (1 ≤ s.tx.index → request_bit (request_line s.level) = s.tx.index % 2)) ∧
    (3 ≤ s.tx.pc → request_bit s.tx.request = s.tx.index % 2 ∧
      request_bit (request_line s.level) = (s.tx.index + 1) % 2))

/-- The composed system at rest on a grid without panels (`width = 0`, `height = 1`), the
receiver compiled with `frame_size = 0`, before `send` of the one-byte frame `[7]`. -/
def empty_grid_start : Sys :=
  { tx := sender_start [[7]], level := 0, mcu := power_up 0 }

/-- The receiver's stores since the start of the transfer of the single frame `F`, while
no timeout fires: the wire values of the first `j` calls of `send`, in order, each at its
index of the slot `m0.write`; `j` follows the receiver's state and is never behind the
number of calls the transmitter has completed. -/
def StoreLog (fs w h : Nat) (F : List Nat) (m0 : Mcu) (s : Sys) : Prop :=
  ∃ j, s.mcu.stores = m0.stores ++ (List.range j).map
        (fun i => (m0.write, i, wire ((calls_of w h F).getD i (0, false)))) ∧
    j ≤ fs + 1 ∧
    (s.mcu.read_state = 2 → j = s.mcu.read_index) ∧
    (s.mcu.read_state = 3 → j = fs + 1) ∧
    (s.mcu.read_state ≤ 1 → j = 0 ∨ (j = fs + 1 ∧ fs + 1 ≤ s.tx.index)) ∧
    (s.tx.calls = [] → j = 0) ∧
    (s.tx.index ≤ j ∨ j = fs + 1)

/-- A schedule in which the transmitter stalls inside its second `send_byte`, between the
data register writes and the request register write, for nine refresh ticks; the receiver
then looks at the lines and the transmitter goes on with two register accesses. -/
def early_release_schedule : List Action :=
  lockstep 8 ++ (List.replicate 8978 Action.tick
    ++ [Action.receiver, Action.sender, Action.sender])

/-- The state of `early_release_schedule` after the nine refresh ticks, the variables of
the scan engine cleared. -/
def early_release_resume : Sys :=
  { sys_reset (sys_run 64 1 1 scenario_start (lockstep 8)) with
    mcu := { scan_reset (sys_run 64 1 1 scenario_start (lockstep 8)).mcu with frame_tick := 9 } }

/-- The bitwise OR of the single-bit masks `_byte_to_mask[2 ^ i]` over the set bits `i` of
a byte. -/
def mask_of_bits (b : Nat) : Nat :=
  ((List.range 8).filter fun i => b.testBit i).foldl (fun acc i => acc ||| byte_to_mask (2 ^ i)) 0

/-- What the row-select pins need on entry to the tick `fs / 4 + 1`: the cases for
`ab = 1` and `ab = 3` leave pin `b` alone, and find it at the level the previous case
gave it. -/
def RowInv (s : Mcu) : Prop :=
  s.ab < 4 ∧ (s.ab = 1 → s.b = false) ∧ (s.ab = 3 → s.b = true)

/-- The index of the read slot whose byte the handler writes to the serial data register in
the branch `count < frame_size / 4`: `count + (frame_size / 4) * state.ab + 1`. -/
def scan_index (fs ab count : Nat) : Nat := count + (fs / 4) * ab + 1

/-- The state of the stall schedule on `n` all-zero frames from power-up (1 by 1 grid) after
the nine refresh ticks, the variables of the scan engine cleared. -/
def warm_stall_resume (n : Nat) : Sys :=
  { sys_reset (sys_run 64 1 1 (warm_up_start 64 1 1 n) (lockstep 12)) with
    mcu := { scan_reset (sys_run 64 1 1 (warm_up_start 64 1 1 n) (lockstep 12)).mcu with
      frame_tick := 9 } }

/-! ## The transmitter: `send` -/

/-- A fold in `Except Outcome` whose steps never raise does not raise. -/
theorem foldlM_not_raised {σ α : Type} (f : σ → α → Except Outcome σ)
    (hf : ∀ s a what, f s a ≠ .error (.raised what)) (l : List α) (s : σ) (what : String) :
    l.foldlM f s ≠ .error (.raised what) := by
  induction l generalizing s with
  | nil => simp [pure, Except.pure]
  | cons a l ih =>
    rw [List.foldlM_cons]
    cases h : f s a with
    | error e =>
      intro h2
      simp only [bind, Except.bind] at h2
      exact hf s a what (by rw [h, h2])
    | ok s1 => simpa [bind, Except.bind] using ih s1

theorem send_body_not_raised (frame : List Nat) (ab panel column row : Nat) (st : SendState)
    (what : String) : send_body frame ab panel column row st ≠ .error (.raised what) := by
  unfold send_body
  split
  · simp
  · split <;> simp

theorem panel_loop_not_raised (frame : List Nat) (ab fuel panel : Nat) (st : SendState)
    (what : String) : panel_loop frame ab fuel panel st ≠ .error (.raised what) := by
  induction fuel generalizing panel st with
  | zero => simp [panel_loop]
  | succ fuel ih =>
    unfold panel_loop
    split
    · cases h : column_loop frame ab panel st with
      | error e =>
        have hc : column_loop frame ab panel st ≠ .error (.raised what) :=
          foldlM_not_raised _ (fun s c w => foldlM_not_raised _
            (fun s r w => send_body_not_raised frame ab panel c r s w) _ s w) _ st what
        simp only
        intro h2
        exact hc (by rw [h, h2])
      | ok st1 => exact ih _ _
    · simp

theorem ab_loop_not_raised (fuel : Nat) (frame : List Nat) (st : SendState) (what : String) :
    ab_loop fuel frame st ≠ .error (.raised what) :=
  foldlM_not_raised _ (fun s ab w => panel_loop_not_raised frame ab fuel 0 s w) _ st what

/-- C1: `send` raises the bad frame size error exactly when the frame length differs from
`64 * width * height + 1`; when it raises, the transmitter object (its GPIO write history
and `_previous_write` included) is unchanged; when the length matches it raises nothing. -/
theorem send_raises_iff_bad_frame_size (fuel now : Nat) (frame : List Nat) (p : led_panel) :
    ((send fuel now frame p).2 = .raised "bad frame size"
        ↔ frame.length ≠ 64 * p._width * p._height + 1) ∧
    (frame.length ≠ 64 * p._width * p._height + 1 → (send fuel now frame p).1 = p) ∧
    (frame.length = 64 * p._width * p._height + 1 →
        ∀ what, (send fuel now frame p).2 ≠ .raised what) := by
  have key : frame.length = 64 * p._width * p._height + 1 →
      ∀ what, (send fuel now frame p).2 ≠ .raised what := by
    intro hlen what
    unfold send
    rw [if_neg (by simpa using hlen)]
    cases h0 : frame[0]? with
    | none => simp
    | some duty =>
      simp only
      cases h1 : ab_loop fuel frame (send_byte duty true
          { panel := { p with frame_reads := p.frame_reads ++ [0] },
            request := true, acknowledge := true }) with
      | error e =>
        simp only
        intro h2
        exact ab_loop_not_raised fuel frame _ what (by rw [h1, h2])
      | ok st1 => simp
  refine ⟨⟨?_, ?_⟩, ?_, key⟩
  · intro h hlen
    exact key hlen _ h
  · intro hlen
    unfold send
    rw [if_pos hlen]
  · intro hlen
    unfold send
    rw [if_pos hlen]

/-- The mapper's value as a natural-number expression, for in-range arguments. -/
theorem display_coordinates_to_frame_index_eq (width height ab panel row column : Nat)
    (hw : 1 ≤ width) (hwh : width * height ≤ 255)
    (hab : ab < 4) (hp : panel < width * height) (hr : row < 4) (hc : column < 4) :
    display_coordinates_to_frame_index width height ab panel row column
        = some (column + (panel % width) * 4
            + ((3 - row) * 4 + ab + (panel / width) * 16) * width * 4) ∧
      column + (panel % width) * 4
            + ((3 - row) * 4 + ab + (panel / width) * 16) * width * 4 < 64 * width * height := by
  have hX : panel % width < width := Nat.mod_lt _ hw
  have hY : panel / width < height := by
    rw [Nat.div_lt_iff_lt_mul hw]; rw [Nat.mul_comm]; exact hp
  have hbound : column + (panel % width) * 4
      + ((3 - row) * 4 + ab + (panel / width) * 16) * width * 4 < 64 * width * height := by
    have h1 : (3 - row) * 4 + ab + (panel / width) * 16 + 1 ≤ 16 * height := by omega
    have h2 := Nat.mul_le_mul_right (width * 4) h1
    have h3 : ((3 - row) * 4 + ab + (panel / width) * 16 + 1) * (width * 4)
        = ((3 - row) * 4 + ab + (panel / width) * 16) * width * 4 + width * 4 := by ring
    have h4 : 16 * height * (width * 4) = 64 * width * height := by ring
    omega
  refine ⟨?_, hbound⟩
  unfold display_coordinates_to_frame_index
  have hw0 : width ≠ 0 := by omega
  simp only [hw0, if_false]
  congr 1
  have hrow : (3 - (row : Int)) = ((3 - row : Nat) : Int) := by omega
  have hcast : ((column : Int) + ((panel : Int) % (width : Int)) * 4
      + ((3 - (row : Int)) * 4 + (ab : Int) + ((panel : Int) / (width : Int)) * 16)
          * (width : Int) * 4)
      = ((column + (panel % width) * 4
            + ((3 - row) * 4 + ab + (panel / width) * 16) * width * 4 : Nat) : Int) := by
    rw [hrow]; push_cast; ring
  rw [hcast]
  have hlt : 64 * width * height ≤ 65536 := by
    have : 64 * width * height = 64 * (width * height) := by ring
    omega
  rw [Int.emod_eq_of_lt (by positivity) (by exact_mod_cast (by omega :
    column + (panel % width) * 4
            + ((3 - row) * 4 + ab + (panel / width) * 16) * width * 4 < 65536))]
  exact Int.toNat_natCast _

/-- Two in-range tuples with the same mapped value are equal. -/
theorem display_coordinates_to_frame_index_inj (width ab panel row column ab' panel' row' column' : Nat)
    (hw : 1 ≤ width)
    (hab : ab < 4) (hr : row < 4) (hc : column < 4)
    (hab' : ab' < 4) (hr' : row' < 4) (hc' : column' < 4)
    (h : column + (panel % width) * 4
            + ((3 - row) * 4 + ab + (panel / width) * 16) * width * 4
        = column' + (panel' % width) * 4
            + ((3 - row') * 4 + ab' + (panel' / width) * 16) * width * 4) :
    ab = ab' ∧ panel = panel' ∧ row = row' ∧ column = column' := by
  have hX : panel % width < width := Nat.mod_lt _ hw
  have hX' : panel' % width < width := Nat.mod_lt _ hw
  have hm : 0 < width * 4 := by omega
  have e : ∀ a b : Nat, a + b * width * 4 = a + (width * 4) * b := by intro a b; ring
  rw [e, e] at h
  have hA : column + (panel % width) * 4 < width * 4 := by omega
  have hA' : column' + (panel' % width) * 4 < width * 4 := by omega
  have hmod := congrArg (· % (width * 4)) h
  have hdiv := congrArg (· / (width * 4)) h
  simp only [Nat.add_mul_mod_self_left, Nat.add_mul_div_left _ _ hm,
    Nat.mod_eq_of_lt hA, Nat.mod_eq_of_lt hA', Nat.div_eq_of_lt hA, Nat.div_eq_of_lt hA',
    Nat.zero_add] at hmod hdiv
  have h1 : panel % width = panel' % width := by omega
  have h2 : panel / width = panel' / width := by omega
  have h3 : panel = panel' := by
    rw [← Nat.div_add_mod panel width, ← Nat.div_add_mod panel' width, h1, h2]
  refine ⟨by omega, h3, by omega, by omega⟩

/-- Every offset of the pixel region is the image of an in-range tuple. -/
theorem display_coordinates_to_frame_index_surj (width height v : Nat)
    (hw : 1 ≤ width) (hv : v < 64 * width * height) :
    ∃ ab panel row column, ab < 4 ∧ panel < width * height ∧ row < 4 ∧ column < 4 ∧
      column + (panel % width) * 4
            + ((3 - row) * 4 + ab + (panel / width) * 16) * width * 4 = v := by
  have hm : 0 < width * 4 := by omega
  have hB : v / (width * 4) < 16 * height := by
    rw [Nat.div_lt_iff_lt_mul hm]
    have : 16 * height * (width * 4) = 64 * width * height := by ring
    omega
  have hA : v % (width * 4) < width * 4 := Nat.mod_lt _ hm
  have hX : v % (width * 4) / 4 < width := by omega
  have hY : v / (width * 4) / 16 < height := by omega
  refine ⟨v / (width * 4) % 16 % 4, v / (width * 4) / 16 * width + v % (width * 4) / 4,
    3 - v / (width * 4) % 16 / 4, v % (width * 4) % 4, by omega, ?_, by omega, by omega, ?_⟩
  · have h1 : (v / (width * 4) / 16 + 1) * width ≤ height * width := Nat.mul_le_mul_right _ hY
    have h2 : (v / (width * 4) / 16 + 1) * width = v / (width * 4) / 16 * width + width := by ring
    have h3 : height * width = width * height := by ring
    omega
  · have hpm : (v / (width * 4) / 16 * width + v % (width * 4) / 4) % width
        = v % (width * 4) / 4 := by
      rw [Nat.add_comm, Nat.add_mul_mod_self_right, Nat.mod_eq_of_lt hX]
    have hpd : (v / (width * 4) / 16 * width + v % (width * 4) / 4) / width
        = v / (width * 4) / 16 := by
      rw [Nat.add_comm, Nat.add_mul_div_right _ _ hw, Nat.div_eq_of_lt hX, Nat.zero_add]
    rw [hpm, hpd]
    have hs : (3 - (3 - v / (width * 4) % 16 / 4)) * 4 + v / (width * 4) % 16 % 4
        + v / (width * 4) / 16 * 16 = v / (width * 4) := by omega
    rw [hs]
    have hlow : v % (width * 4) % 4 + v % (width * 4) / 4 * 4 = v % (width * 4) := by omega
    rw [hlow]
    have := Nat.mod_add_div v (width * 4)
    calc v % (width * 4) + v / (width * 4) * width * 4
        = v % (width * 4) + width * 4 * (v / (width * 4)) := by ring
      _ = v := this

/-- C2: for a grid of `width ≥ 1` by `height ≥ 1` panels with `width * height ≤ 255`,
`display_coordinates_to_frame_index` on in-range tuples returns the untruncated value of
its formula, which is below `64 * width * height`; it is injective on in-range tuples and
every offset below `64 * width * height` is reached: it is a bijection onto the pixel region. -/
theorem display_coordinates_to_frame_index_bijection (width height : Nat)
    (hw : 1 ≤ width) (hh : 1 ≤ height) (hwh : width * height ≤ 255) :
    (∀ ab panel row column, ab < 4 → panel < width * height → row < 4 → column < 4 →
      ∃ v, display_coordinates_to_frame_index width height ab panel row column = some v ∧
        v < 64 * width * height ∧
        v = column + (panel % width) * 4
              + ((3 - row) * 4 + ab + (panel / width) * 16) * width * 4) ∧
    (∀ ab panel row column ab' panel' row' column',
      ab < 4 → panel < width * height → row < 4 → column < 4 →
      ab' < 4 → panel' < width * height → row' < 4 → column' < 4 →
      display_coordinates_to_frame_index width height ab panel row column
        = display_coordinates_to_frame_index width height ab' panel' row' column' →
      ab = ab' ∧ panel = panel' ∧ row = row' ∧ column = column') ∧
    (∀ v, v < 64 * width * height →
      ∃ ab panel row column, ab < 4 ∧ panel < width * height ∧ row < 4 ∧ column < 4 ∧
        display_coordinates_to_frame_index width height ab panel row column = some v) := by
  have _ := hh
  refine ⟨?_, ?_, ?_⟩
  · intro ab panel row column hab hp hr hc
    obtain ⟨h1, h2⟩ := display_coordinates_to_frame_index_eq width height ab panel row column
      hw hwh hab hp hr hc
    exact ⟨_, h1, h2, rfl⟩
  · intro ab panel row column ab' panel' row' column' hab hp hr hc hab' hp' hr' hc' h
    rw [(display_coordinates_to_frame_index_eq width height ab panel row column
        hw hwh hab hp hr hc).1,
      (display_coordinates_to_frame_index_eq width height ab' panel' row' column'
        hw hwh hab' hp' hr' hc').1] at h
    exact display_coordinates_to_frame_index_inj width ab panel row column ab' panel' row' column'
      hw hab hr hc hab' hr' hc' (Option.some.inj h)
  · intro v hv
    obtain ⟨ab, panel, row, column, hab, hp, hr, hc, h⟩ :=
      display_coordinates_to_frame_index_surj width height v hw hv
    refine ⟨ab, panel, row, column, hab, hp, hr, hc, ?_⟩
    rw [(display_coordinates_to_frame_index_eq width height ab panel row column
        hw hwh hab hp hr hc).1, h]

/-- Witness for C2 on the 2 by 1 grid that matches the shipped receiver. -/
theorem display_coordinates_to_frame_index_bijection_witness :
    (1 ≤ 2 ∧ 1 ≤ 1 ∧ 2 * 1 ≤ 255) ∧
    display_coordinates_to_frame_index 2 1 3 1 0 2 = some 126 :=
  ⟨by decide, by
    obtain ⟨v, h1, _, h3⟩ := (display_coordinates_to_frame_index_bijection 2 1
      (by decide) (by decide) (by decide)).1 3 1 0 2 (by decide) (by decide) (by decide) (by decide)
    rw [h1, h3]⟩

theorem push_width (frame : List Nat) (st : SendState) (t : Nat × Nat × Nat × Nat) :
    (push frame st t).panel._width = st.panel._width ∧
    (push frame st t).panel._height = st.panel._height := by
  simp [push, send_byte]

theorem pushes_width (frame : List Nat) (ts : List (Nat × Nat × Nat × Nat)) (st : SendState) :
    (pushes frame st ts).panel._width = st.panel._width ∧
    (pushes frame st ts).panel._height = st.panel._height := by
  induction ts generalizing st with
  | nil => simp [pushes]
  | cons t ts ih =>
    have h := ih (push frame st t)
    have h2 := push_width frame st t
    simp only [pushes, List.foldl_cons] at h ⊢
    rw [h.1, h.2, h2.1, h2.2]; exact ⟨rfl, rfl⟩

theorem pushes_append (frame : List Nat) (st : SendState) (ts us : List (Nat × Nat × Nat × Nat)) :
    pushes frame st (ts ++ us) = pushes frame (pushes frame st ts) us := by
  simp [pushes, List.foldl_append]

/-- What a run of loop iterations adds to the histories. -/
theorem pushes_histories (frame : List Nat) (ts : List (Nat × Nat × Nat × Nat)) (st : SendState) :
    (pushes frame st ts).panel.send_byte_calls = st.panel.send_byte_calls
        ++ ts.map (fun t => (frame.getD (frame_index_of st.panel._width st.panel._height t) 0, false)) ∧
    (pushes frame st ts).panel.frame_reads = st.panel.frame_reads
        ++ ts.map (frame_index_of st.panel._width st.panel._height) ∧
    (pushes frame st ts).panel._previous_write = st.panel._previous_write := by
  induction ts generalizing st with
  | nil => simp [pushes]
  | cons t ts ih =>
    have h := ih (push frame st t)
    have h2 := push_width frame st t
    simp only [pushes, List.foldl_cons] at h ⊢
    rw [h.1, h.2.1, h.2.2, h2.1, h2.2]
    simp [push, send_byte]

/-- The body of the innermost loop on an in-range quadruple. -/
theorem send_body_eq (frame : List Nat) (ab panel column row : Nat) (st : SendState)
    (hw : 1 ≤ st.panel._width) (hwh : st.panel._width * st.panel._height ≤ 255)
    (hlen : frame.length = 64 * st.panel._width * st.panel._height + 1)
    (hab : ab < 4) (hp : panel < st.panel._width * st.panel._height)
    (hr : row < 4) (hc : column < 4) :
    send_body frame ab panel column row st = .ok (push frame st (ab, panel, column, row)) := by
  obtain ⟨h1, h2⟩ := display_coordinates_to_frame_index_eq st.panel._width st.panel._height
    ab panel row column hw hwh hab hp hr hc
  unfold send_body push frame_index_of
  simp only [h1, Option.getD_some]
  have hlt : column + panel % st.panel._width * 4
      + ((3 - row) * 4 + ab + panel / st.panel._width * 16) * st.panel._width * 4 + 1
        < frame.length := by omega
  rw [List.getElem?_eq_getElem hlt]
  simp only [List.getD_eq_getElem?_getD, List.getElem?_eq_getElem hlt, Option.getD_some]

theorem row_loop_eq (frame : List Nat) (ab panel column : Nat) (st : SendState)
    (hw : 1 ≤ st.panel._width) (hwh : st.panel._width * st.panel._height ≤ 255)
    (hlen : frame.length = 64 * st.panel._width * st.panel._height + 1)
    (hab : ab < 4) (hp : panel < st.panel._width * st.panel._height) (hc : column < 4) :
    row_loop frame ab panel column st
      = .ok (pushes frame st ((List.range 4).map fun row => (ab, panel, column, row))) := by
  have e : List.range 4 = [0, 1, 2, 3] := by decide
  have step : ∀ (s : SendState) (row : Nat), row < 4 →
      s.panel._width = st.panel._width → s.panel._height = st.panel._height →
      send_body frame ab panel column row s = .ok (push frame s (ab, panel, column, row)) := by
    intro s row hr h1 h2
    exact send_body_eq frame ab panel column row s (by rw [h1]; exact hw) (by rw [h1, h2]; exact hwh)
      (by rw [h1, h2]; exact hlen) hab (by rw [h1, h2]; exact hp) hr hc
  unfold row_loop
  rw [e]
  simp only [List.foldlM_cons, List.foldlM_nil, List.map_cons, List.map_nil, pushes,
    List.foldl_cons, List.foldl_nil]
  rw [step st 0 (by decide) rfl rfl]
  simp only [bind, Except.bind]
  rw [step _ 1 (by decide) (push_width _ _ _).1 (push_width _ _ _).2]
  simp only [bind, Except.bind]
  rw [step _ 2 (by decide) (by simp [push_width]) (by simp [push_width])]
  simp only [bind, Except.bind]
  rw [step _ 3 (by decide) (by simp [push_width]) (by simp [push_width])]
  rfl

/-- A fold in `Except Outcome` whose steps all succeed as a pure step, under an invariant. -/
theorem foldlM_ok {σ α : Type} (f : σ → α → Except Outcome σ) (g : σ → α → σ) (I : σ → Prop)
    (l : List α) (hstep : ∀ s a, a ∈ l → I s → f s a = .ok (g s a) ∧ I (g s a))
    (s : σ) (hs : I s) :
    l.foldlM f s = .ok (l.foldl g s) ∧ I (l.foldl g s) := by
  induction l generalizing s with
  | nil => exact ⟨rfl, hs⟩
  | cons a l ih =>
    obtain ⟨h1, h2⟩ := hstep s a (List.mem_cons_self _ _) hs
    rw [List.foldlM_cons, h1]
    simp only [bind, Except.bind, List.foldl_cons]
    exact ih (fun s b hb hI => hstep s b (List.mem_cons_of_mem _ hb) hI) _ h2

theorem foldl_pushes {α : Type} (frame : List Nat) (F : α → List (Nat × Nat × Nat × Nat))
    (l : List α) (s : SendState) :
    l.foldl (fun s a => pushes frame s (F a)) s = pushes frame s (l.flatMap F) := by
  induction l generalizing s with
  | nil => rfl
  | cons a l ih => rw [List.foldl_cons, ih, List.flatMap_cons, pushes_append]

theorem column_loop_eq (frame : List Nat) (w h ab panel : Nat) (st : SendState)
    (hsw : st.panel._width = w) (hsh : st.panel._height = h)
    (hw : 1 ≤ w) (hwh : w * h ≤ 255) (hlen : frame.length = 64 * w * h + 1)
    (hab : ab < 4) (hp : panel < w * h) :
    column_loop frame ab panel st
      = .ok (pushes frame st ((List.range 4).flatMap fun column =>
          (List.range 4).map fun row => (ab, panel, column, row))) := by
  have e : List.range 4 = [0, 1, 2, 3] := by decide
  have key := foldlM_ok (fun st column => row_loop frame ab panel column st)
    (fun st column => pushes frame st ((List.range 4).map fun row => (ab, panel, column, row)))
    (fun s => s.panel._width = w ∧ s.panel._height = h) [0, 1, 2, 3]
    (by
      intro s c hc hI
      have hc4 : c < 4 := by
        simp only [List.mem_cons, List.mem_singleton, List.not_mem_nil, or_false] at hc; omega
      refine ⟨row_loop_eq frame ab panel c s (by rw [hI.1]; exact hw) (by rw [hI.1, hI.2]; exact hwh)
        (by rw [hI.1, hI.2]; exact hlen) hab (by rw [hI.1, hI.2]; exact hp) hc4, ?_⟩
      beta_reduce
      rw [(pushes_width _ _ _).1, (pushes_width _ _ _).2]; exact hI)
    st ⟨hsw, hsh⟩
  unfold column_loop
  rw [key.1, foldl_pushes, e]

/-- The quadruples of one `ab` block for the panels `panel, ..., panel + n - 1`. -/
theorem panel_loop_eq (frame : List Nat) (w h ab : Nat)
    (hw : 1 ≤ w) (hwh : w * h ≤ 255) (hlen : frame.length = 64 * w * h + 1) (hab : ab < 4)
    (n : Nat) : ∀ (fuel panel : Nat) (st : SendState),
      st.panel._width = w → st.panel._height = h → panel + n = w * h → n < fuel →
      panel_loop frame ab fuel panel st
        = .ok (pushes frame st ((List.range' panel n).flatMap fun panel =>
            (List.range 4).flatMap fun column =>
              (List.range 4).map fun row => (ab, panel, column, row))) := by
  induction n with
  | zero =>
    intro fuel panel st hsw hsh hpn hfuel
    obtain ⟨fuel, rfl⟩ : ∃ k, fuel = k + 1 := ⟨fuel - 1, by omega⟩
    unfold panel_loop
    rw [if_neg (by rw [hsw, hsh]; omega)]
    rfl
  | succ n ih =>
    intro fuel panel st hsw hsh hpn hfuel
    obtain ⟨fuel, rfl⟩ : ∃ k, fuel = k + 1 := ⟨fuel - 1, by omega⟩
    unfold panel_loop
    rw [if_pos (by rw [hsw, hsh]; omega)]
    rw [column_loop_eq frame w h ab panel st hsw hsh hw hwh hlen hab (by omega)]
    simp only
    have hwrap : (panel + 1) % 256 = panel + 1 := Nat.mod_eq_of_lt (by omega)
    rw [hwrap, ih fuel (panel + 1) _ (by rw [(pushes_width _ _ _).1]; exact hsw)
      (by rw [(pushes_width _ _ _).2]; exact hsh) (by omega) (by omega)]
    rw [List.range'_succ, List.flatMap_cons, pushes_append]

theorem ab_loop_eq (fuel : Nat) (frame : List Nat) (w h : Nat) (st : SendState)
    (hsw : st.panel._width = w) (hsh : st.panel._height = h)
    (hw : 1 ≤ w) (hwh : w * h ≤ 255) (hlen : frame.length = 64 * w * h + 1)
    (hfuel : w * h < fuel) :
    ab_loop fuel frame st = .ok (pushes frame st (transmission_order w h)) := by
  have e : List.range 4 = [0, 1, 2, 3] := by decide
  have key := foldlM_ok (fun st ab => panel_loop frame ab fuel 0 st)
    (fun st ab => pushes frame st ((List.range (w * h)).flatMap fun panel =>
            (List.range 4).flatMap fun column =>
              (List.range 4).map fun row => (ab, panel, column, row)))
    (fun s => s.panel._width = w ∧ s.panel._height = h) [0, 1, 2, 3]
    (by
      intro s ab hab hI
      have hab4 : ab < 4 := by
        simp only [List.mem_cons, List.mem_singleton, List.not_mem_nil, or_false] at hab; omega
      refine ⟨?_, ?_⟩
      · beta_reduce
        rw [panel_loop_eq frame w h ab hw hwh hlen hab4 (w * h) fuel 0 s hI.1 hI.2
          (by omega) hfuel, ← List.range_eq_range']
      · beta_reduce
        rw [(pushes_width _ _ _).1, (pushes_width _ _ _).2]; exact hI)
    st ⟨hsw, hsh⟩
  unfold ab_loop transmission_order
  rw [key.1, foldl_pushes, e]

theorem mem_transmission_order (w h : Nat) (t : Nat × Nat × Nat × Nat) :
    t ∈ transmission_order w h ↔ t.1 < 4 ∧ t.2.1 < w * h ∧ t.2.2.1 < 4 ∧ t.2.2.2 < 4 := by
  obtain ⟨ab, panel, column, row⟩ := t
  simp only [transmission_order, List.mem_flatMap, List.mem_map, List.mem_range, Prod.mk.injEq]
  constructor
  · rintro ⟨a, ha, p, hp, c, hc, r, hr, rfl, rfl, rfl, rfl⟩
    exact ⟨ha, hp, hc, hr⟩
  · rintro ⟨ha, hp, hc, hr⟩
    exact ⟨ab, ha, panel, hp, column, hc, row, hr, rfl, rfl, rfl, rfl⟩

theorem length_flatMap_const {α β : Type} (l : List α) (f : α → List β) (k : Nat)
    (hf : ∀ a, (f a).length = k) : (l.flatMap f).length = l.length * k := by
  induction l with
  | nil => simp
  | cons a l ih => rw [List.flatMap_cons, List.length_append, ih, hf, List.length_cons]; ring

theorem length_transmission_order (w h : Nat) :
    (transmission_order w h).length = 64 * w * h := by
  unfold transmission_order
  rw [length_flatMap_const _ _ (w * h * 16)]
  · simp only [List.length_range]; ring
  · intro ab
    rw [length_flatMap_const _ _ 16]
    · simp only [List.length_range]
    · intro panel
      rw [length_flatMap_const _ _ 4]
      · simp only [List.length_range]
      · intro column
        simp only [List.length_map, List.length_range]

/-- The frame indices read for the payload are the indices `1, ..., 64 * w * h`, each once. -/
theorem frame_reads_perm (w h : Nat) (hw : 1 ≤ w) (hwh : w * h ≤ 255) :
    ((transmission_order w h).map (frame_index_of w h)).Perm (List.range' 1 (64 * w * h)) := by
  apply List.Perm.symm
  apply List.Subperm.perm_of_length_le
  · apply List.subperm_of_subset (List.nodup_range' 1 (64 * w * h))
    intro i hi
    rw [List.mem_range'_1] at hi
    obtain ⟨ab, panel, row, column, hab, hp, hr, hc, hv⟩ :=
      display_coordinates_to_frame_index_surj w h (i - 1) hw (by omega)
    rw [List.mem_map]
    refine ⟨(ab, panel, column, row), (mem_transmission_order w h _).2 ⟨hab, hp, hc, hr⟩, ?_⟩
    unfold frame_index_of
    rw [(display_coordinates_to_frame_index_eq w h ab panel row column hw hwh hab hp hr hc).1]
    simp only [Option.getD_some]
    omega
  · rw [List.length_map, length_transmission_order, List.length_range']

/-- What `send` does on a well-sized frame: it returns, and the object it leaves. -/
theorem send_result (fuel now : Nat) (frame : List Nat) (p : led_panel)
    (hw : 1 ≤ p._width) (hwh : p._width * p._height ≤ 255)
    (hlen : frame.length = 64 * p._width * p._height + 1) (hfuel : p._width * p._height < fuel) :
    send fuel now frame p
      = ({ (send_byte 0 false (pushes frame (send_byte (frame.getD 0 0) true
            { panel := { p with frame_reads := p.frame_reads ++ [0] },
              request := true, acknowledge := true })
            (transmission_order p._width p._height))).panel with _previous_write := now },
          .returned) := by
  have h0 : frame[0]? = some (frame.getD 0 0) := by
    rw [List.getD_eq_getElem?_getD, List.getElem?_eq_getElem (by omega)]; rfl
  have hab := ab_loop_eq fuel frame p._width p._height
    (send_byte (frame.getD 0 0) true
      { panel := { p with frame_reads := p.frame_reads ++ [0] },
        request := true, acknowledge := true })
    rfl rfl hw hwh hlen hfuel
  unfold send
  rw [if_neg (by simpa using hlen), h0]
  simp only
  rw [hab]

/-- The calls `send` makes on a well-sized frame. -/
theorem send_result_calls (fuel now : Nat) (frame : List Nat) (p : led_panel)
    (hw : 1 ≤ p._width) (hwh : p._width * p._height ≤ 255)
    (hlen : frame.length = 64 * p._width * p._height + 1) (hfuel : p._width * p._height < fuel) :
    (send fuel now frame p).2 = .returned ∧
    (send fuel now frame p).1.send_byte_calls = p.send_byte_calls
      ++ ((frame.getD 0 0, true)
          :: (transmission_order p._width p._height).map
              (fun t => (frame.getD (frame_index_of p._width p._height t) 0, false)))
      ++ [(0, false)] := by
  have hsend := send_result fuel now frame p hw hwh hlen hfuel
  have hist := pushes_histories frame (transmission_order p._width p._height)
    (send_byte (frame.getD 0 0) true
      { panel := { p with frame_reads := p.frame_reads ++ [0] },
        request := true, acknowledge := true })
  refine ⟨by rw [hsend], ?_⟩
  rw [hsend]
  simp only [send_byte] at hist ⊢
  rw [hist.1]
  simp

/-- C3: on a grid with `width, height ≥ 1` and `width * height ≤ 255` and a frame of length
`64 * width * height + 1`, `send` returns after exactly `64 * width * height + 2` calls of
`send_byte`: the duty byte `frame[0]` with `first = true`, then for each quadruple in the
nesting order `ab`, `panel`, `column`, `row` the byte at index
`1 + display_coordinates_to_frame_index width height ab panel row column`, then one byte `0`;
the payload indices read are exactly `1, ..., 64 * width * height`, each once, and every
index read lies inside the frame. -/
theorem send_calls (fuel now : Nat) (frame : List Nat) (p : led_panel)
    (hw : 1 ≤ p._width) (hh : 1 ≤ p._height) (hwh : p._width * p._height ≤ 255)
    (hlen : frame.length = 64 * p._width * p._height + 1) (hfuel : p._width * p._height < fuel) :
    (send fuel now frame p).2 = .returned ∧
    (send fuel now frame p).1.send_byte_calls = p.send_byte_calls
      ++ ((frame.getD 0 0, true)
          :: (transmission_order p._width p._height).map
              (fun t => (frame.getD (frame_index_of p._width p._height t) 0, false)))
      ++ [(0, false)] ∧
    (((frame.getD 0 0, true)
          :: (transmission_order p._width p._height).map
              (fun t => (frame.getD (frame_index_of p._width p._height t) 0, false)))
      ++ [(0, false)]).length = 64 * p._width * p._height + 2 ∧
    (send fuel now frame p).1.frame_reads = p.frame_reads
      ++ 0 :: (transmission_order p._width p._height).map (frame_index_of p._width p._height) ∧
    ((transmission_order p._width p._height).map (frame_index_of p._width p._height)).Perm
      (List.range' 1 (64 * p._width * p._height)) ∧
    (∀ i ∈ (0 :: (transmission_order p._width p._height).map
        (frame_index_of p._width p._height)), i < frame.length) := by
  have _ := hh
  have hperm := frame_reads_perm p._width p._height hw hwh
  have hsend := send_result fuel now frame p hw hwh hlen hfuel
  have hist := pushes_histories frame (transmission_order p._width p._height)
    (send_byte (frame.getD 0 0) true
      { panel := { p with frame_reads := p.frame_reads ++ [0] },
        request := true, acknowledge := true })
  refine ⟨by rw [hsend], ?_, ?_, ?_, hperm, ?_⟩
  · rw [hsend]
    simp only [send_byte] at hist ⊢
    rw [hist.1]
    simp
  · simp [length_transmission_order]
  · rw [hsend]
    simp only [send_byte] at hist ⊢
    rw [hist.2.1]
    simp
  · intro i hi
    rcases List.mem_cons.1 hi with rfl | hi
    · omega
    · have := (hperm.mem_iff).1 hi
      rw [List.mem_range'_1] at this
      omega

/-- Witness for C3: a 1 by 1 grid and the 65-byte frame `0, 1, ..., 64`. -/
theorem send_calls_witness :
    (send 2 7 (List.range 65) (new_panel 1 1)).2 = .returned ∧
    (send 2 7 (List.range 65) (new_panel 1 1)).1.send_byte_calls.take 3
      = [(0, true), (49, false), (33, false)] := by
  have h := send_calls 2 7 (List.range 65) (new_panel 1 1) (by decide) (by decide) (by decide)
    (by decide) (by decide)
  refine ⟨h.1, ?_⟩
  rw [h.2.1]
  decide

/-! ## Field-by-field description of the handler and of the receiver loop -/

theorem isr_shift_eq (fs : Nat) (s : Mcu) :
    isr_shift fs s = { s with
      spdr := byte_at s.frame_buffer s.read (s.count + (fs / 4) * s.ab + 1)
      oe := if s.oe_count = s.count then false else s.oe } := by
  unfold isr_shift; split_ifs <;> rfl

theorem isr_latch_eq (fs : Nat) (s : Mcu) :
    isr_latch fs s = { s with
      latch_pulses := s.latch_pulses + 1
      oe := if s.oe_count = fs / 4 ∨ s.oe_count = fs / 4 + 1 then false else s.oe } := by
  unfold isr_latch; split_ifs <;> rfl

theorem isr_row_select_eq (s : Mcu) :
    isr_row_select s = { s with
      a := if s.ab = 0 then false else if s.ab = 1 then true else if s.ab = 2 then false
           else if s.ab = 3 then true else s.a
      b := if s.ab = 0 then false else if s.ab = 1 then s.b else if s.ab = 2 then true
           else s.b } := by
  unfold isr_row_select; split_ifs <;> rfl

theorem isr_advance_eq (s : Mcu) :
    isr_advance s = { s with
      ab := (s.ab + 1) % 4
      frame_tick := if (s.ab + 1) % 4 = 0 then (s.frame_tick + 1) % 256 else s.frame_tick
      read := if (s.ab + 1) % 4 = 0 ∧ (s.read + 1) % 8 ≠ s.write then (s.read + 1) % 8
              else s.read } := by
  unfold isr_advance; split_ifs <;> first | rfl | simp_all

theorem isr_threshold_eq (fs : Nat) (s : Mcu) :
    isr_threshold fs s = { s with
      oe_count := (byte_at s.frame_buffer s.read 0 + fs / 4 + 2) % 256
      oe := if (byte_at s.frame_buffer s.read 0 + fs / 4 + 2) % 256 ≠ fs / 4 + 2 then true
            else s.oe } := by
  unfold isr_threshold; split_ifs <;> rfl

theorem isr_blank_eq (s : Mcu) :
    isr_blank s = { s with oe := if s.oe_count = s.count then false else s.oe } := by
  unfold isr_blank; split_ifs <;> rfl

theorem isr_frame_buffer (fs : Nat) (s : Mcu) : (isr fs s).frame_buffer = s.frame_buffer := by
  simp only [isr, isr_count, isr_shift_eq, isr_latch_eq, isr_row_select_eq, isr_advance_eq,
    isr_threshold_eq, isr_blank_eq, apply_ite Mcu.frame_buffer, ite_self]

theorem isr_write (fs : Nat) (s : Mcu) : (isr fs s).write = s.write := by
  simp only [isr, isr_count, isr_shift_eq, isr_latch_eq, isr_row_select_eq, isr_advance_eq,
    isr_threshold_eq, isr_blank_eq, apply_ite Mcu.write, ite_self]

theorem isr_acknowledge (fs : Nat) (s : Mcu) : (isr fs s).acknowledge = s.acknowledge := by
  simp only [isr, isr_count, isr_shift_eq, isr_latch_eq, isr_row_select_eq, isr_advance_eq,
    isr_threshold_eq, isr_blank_eq, apply_ite Mcu.acknowledge, ite_self]

theorem isr_read_state (fs : Nat) (s : Mcu) : (isr fs s).read_state = s.read_state := by
  simp only [isr, isr_count, isr_shift_eq, isr_latch_eq, isr_row_select_eq, isr_advance_eq,
    isr_threshold_eq, isr_blank_eq, apply_ite Mcu.read_state, ite_self]

theorem isr_read_index (fs : Nat) (s : Mcu) : (isr fs s).read_index = s.read_index := by
  simp only [isr, isr_count, isr_shift_eq, isr_latch_eq, isr_row_select_eq, isr_advance_eq,
    isr_threshold_eq, isr_blank_eq, apply_ite Mcu.read_index, ite_self]

theorem isr_previous_frame_tick (fs : Nat) (s : Mcu) : (isr fs s).previous_frame_tick = s.previous_frame_tick := by
  simp only [isr, isr_count, isr_shift_eq, isr_latch_eq, isr_row_select_eq, isr_advance_eq,
    isr_threshold_eq, isr_blank_eq, apply_ite Mcu.previous_frame_tick, ite_self]

theorem isr_stores (fs : Nat) (s : Mcu) : (isr fs s).stores = s.stores := by
  simp only [isr, isr_count, isr_shift_eq, isr_latch_eq, isr_row_select_eq, isr_advance_eq,
    isr_threshold_eq, isr_blank_eq, apply_ite Mcu.stores, ite_self]

theorem isr_count_eq (fs : Nat) (s : Mcu) : (isr fs s).count = (s.count + 1) % 256 := by
  simp only [isr, isr_count]
  congr 2
  simp only [isr_shift_eq, isr_latch_eq, isr_row_select_eq, isr_advance_eq,
    isr_threshold_eq, isr_blank_eq, apply_ite Mcu.count, ite_self]

theorem isr_read (fs : Nat) (s : Mcu) :
    (isr fs s).read =
      if s.count = fs / 4 + 1 ∧ (s.ab + 1) % 4 = 0 ∧ (s.read + 1) % 8 ≠ s.write
      then (s.read + 1) % 8 else s.read := by
  simp only [isr, isr_count, isr_shift_eq, isr_latch_eq, isr_row_select_eq, isr_advance_eq,
    isr_threshold_eq, isr_blank_eq, apply_ite Mcu.read, ite_self]
  split_ifs <;> first | rfl | omega

theorem isr_ab (fs : Nat) (s : Mcu) :
    (isr fs s).ab = if s.count = fs / 4 + 1 then (s.ab + 1) % 4 else s.ab := by
  simp only [isr, isr_count, isr_shift_eq, isr_latch_eq, isr_row_select_eq, isr_advance_eq,
    isr_threshold_eq, isr_blank_eq, apply_ite Mcu.ab, ite_self]
  split_ifs <;> first | rfl | omega

theorem isr_frame_tick (fs : Nat) (s : Mcu) :
    (isr fs s).frame_tick =
      if s.count = fs / 4 + 1 ∧ (s.ab + 1) % 4 = 0 then (s.frame_tick + 1) % 256
      else s.frame_tick := by
  simp only [isr, isr_count, isr_shift_eq, isr_latch_eq, isr_row_select_eq, isr_advance_eq,
    isr_threshold_eq, isr_blank_eq, apply_ite Mcu.frame_tick, ite_self]
  split_ifs <;> first | rfl | omega

theorem isr_oe_count (fs : Nat) (s : Mcu) :
    (isr fs s).oe_count =
      if s.count = fs / 4 + 2 then (byte_at s.frame_buffer s.read 0 + fs / 4 + 2) % 256
      else s.oe_count := by
  simp only [isr, isr_count, isr_shift_eq, isr_latch_eq, isr_row_select_eq, isr_advance_eq,
    isr_threshold_eq, isr_blank_eq, apply_ite Mcu.oe_count, ite_self]
  split_ifs <;> first | rfl | omega

theorem isr_oe (fs : Nat) (s : Mcu) :
    (isr fs s).oe =
      if s.count < fs / 4 then (if s.oe_count = s.count then false else s.oe)
      else if s.count = fs / 4 then
        (if s.oe_count = fs / 4 ∨ s.oe_count = fs / 4 + 1 then false else s.oe)
      else if s.count = fs / 4 + 1 then s.oe
      else if s.count = fs / 4 + 2 then
        (if (byte_at s.frame_buffer s.read 0 + fs / 4 + 2) % 256 ≠ fs / 4 + 2 then true else s.oe)
      else (if s.oe_count = s.count then false else s.oe) := by
  simp only [isr, isr_count, isr_shift_eq, isr_latch_eq, isr_row_select_eq, isr_advance_eq,
    isr_threshold_eq, isr_blank_eq, apply_ite Mcu.oe, ite_self]

theorem loop_iteration_read (fs : Nat) (request : Bool) (pind : Nat) (s : Mcu) :
    (loop_iteration fs request pind s).read = s.read := by
  simp only [loop_iteration, accept_duty, apply_ite Mcu.read, ite_self]

theorem loop_iteration_frame_tick (fs : Nat) (request : Bool) (pind : Nat) (s : Mcu) :
    (loop_iteration fs request pind s).frame_tick = s.frame_tick := by
  simp only [loop_iteration, accept_duty, apply_ite Mcu.frame_tick, ite_self]

theorem loop_iteration_count (fs : Nat) (request : Bool) (pind : Nat) (s : Mcu) :
    (loop_iteration fs request pind s).count = s.count := by
  simp only [loop_iteration, accept_duty, apply_ite Mcu.count, ite_self]

theorem loop_iteration_ab (fs : Nat) (request : Bool) (pind : Nat) (s : Mcu) :
    (loop_iteration fs request pind s).ab = s.ab := by
  simp only [loop_iteration, accept_duty, apply_ite Mcu.ab, ite_self]

theorem loop_iteration_oe_count (fs : Nat) (request : Bool) (pind : Nat) (s : Mcu) :
    (loop_iteration fs request pind s).oe_count = s.oe_count := by
  simp only [loop_iteration, accept_duty, apply_ite Mcu.oe_count, ite_self]

theorem loop_iteration_oe (fs : Nat) (request : Bool) (pind : Nat) (s : Mcu) :
    (loop_iteration fs request pind s).oe = s.oe := by
  simp only [loop_iteration, accept_duty, apply_ite Mcu.oe, ite_self]

theorem loop_iteration_a (fs : Nat) (request : Bool) (pind : Nat) (s : Mcu) :
    (loop_iteration fs request pind s).a = s.a := by
  simp only [loop_iteration, accept_duty, apply_ite Mcu.a, ite_self]

theorem loop_iteration_b (fs : Nat) (request : Bool) (pind : Nat) (s : Mcu) :
    (loop_iteration fs request pind s).b = s.b := by
  simp only [loop_iteration, accept_duty, apply_ite Mcu.b, ite_self]

theorem loop_iteration_spdr (fs : Nat) (request : Bool) (pind : Nat) (s : Mcu) :
    (loop_iteration fs request pind s).spdr = s.spdr := by
  simp only [loop_iteration, accept_duty, apply_ite Mcu.spdr, ite_self]

theorem loop_iteration_latch_pulses (fs : Nat) (request : Bool) (pind : Nat) (s : Mcu) :
    (loop_iteration fs request pind s).latch_pulses = s.latch_pulses := by
  simp only [loop_iteration, accept_duty, apply_ite Mcu.latch_pulses, ite_self]

theorem loop_iteration_write (fs : Nat) (request : Bool) (pind : Nat) (s : Mcu) :
    (loop_iteration fs request pind s).write =
      if s.read_state = 2 ∧ request_bit request ≠ s.read_index % 2 ∧ ¬ s.read_index < fs
      then (s.write + 1) % 8 else s.write := by
  simp only [loop_iteration, accept_duty, apply_ite Mcu.write, ite_self]
  split_ifs <;> first | rfl | omega

theorem loop_iteration_read_state (fs : Nat) (request : Bool) (pind : Nat) (s : Mcu) :
    (loop_iteration fs request pind s).read_state =
      if s.read_state = 0 then
        (if request_bit request = 1 then (if s.write = s.read then 1 else 2) else 0)
      else if s.read_state = 1 then (if s.write ≠ s.read then 2 else 1)
      else if s.read_state = 2 then
        (if request_bit request ≠ s.read_index % 2 then (if s.read_index < fs then 2 else 3)
         else if (s.frame_tick + 256 - s.previous_frame_tick) % 256 > 8 then 0 else 2)
      else if s.read_state = 3 then
        (if request_bit request = 0 then 0
         else if (s.frame_tick + 256 - s.previous_frame_tick) % 256 > 8 then 4 else 3)
      else if s.read_state = 4 then (if request_bit request = 0 then 0 else 4)
      else s.read_state := by
  simp only [loop_iteration, accept_duty, apply_ite Mcu.read_state, ite_self]
  split_ifs <;> first | rfl | omega

theorem loop_iteration_read_index (fs : Nat) (request : Bool) (pind : Nat) (s : Mcu) :
    (loop_iteration fs request pind s).read_index =
      if (s.read_state = 0 ∧ request_bit request = 1 ∧ s.write ≠ s.read)
          ∨ (s.read_state = 1 ∧ s.write ≠ s.read) then 1
      else if s.read_state = 2 ∧ request_bit request ≠ s.read_index % 2 ∧ s.read_index < fs
        then (s.read_index + 1) % 65536
      else s.read_index := by
  simp only [loop_iteration, accept_duty, apply_ite Mcu.read_index, ite_self]
  split_ifs <;> first | rfl | omega

theorem loop_iteration_stores (fs : Nat) (request : Bool) (pind : Nat) (s : Mcu) :
    (loop_iteration fs request pind s).stores =
      if (s.read_state = 0 ∧ request_bit request = 1 ∧ s.write ≠ s.read)
          ∨ (s.read_state = 1 ∧ s.write ≠ s.read) then s.stores ++ [(s.write, 0, pind)]
      else if s.read_state = 2 ∧ request_bit request ≠ s.read_index % 2
        then s.stores ++ [(s.write, s.read_index, pind)]
      else s.stores := by
  simp only [loop_iteration, accept_duty, apply_ite Mcu.stores, ite_self]
  split_ifs <;> first | rfl | omega

theorem loop_iteration_frame_buffer (fs : Nat) (request : Bool) (pind : Nat) (s : Mcu) :
    (loop_iteration fs request pind s).frame_buffer =
      if (s.read_state = 0 ∧ request_bit request = 1 ∧ s.write ≠ s.read)
          ∨ (s.read_state = 1 ∧ s.write ≠ s.read) then store s.frame_buffer s.write 0 pind
      else if s.read_state = 2 ∧ request_bit request ≠ s.read_index % 2
        then store s.frame_buffer s.write s.read_index pind
      else s.frame_buffer := by
  simp only [loop_iteration, accept_duty, apply_ite Mcu.frame_buffer, ite_self]
  split_ifs <;> first | rfl | omega

theorem loop_iteration_acknowledge (fs : Nat) (request : Bool) (pind : Nat) (s : Mcu) :
    (loop_iteration fs request pind s).acknowledge =
      if (s.read_state = 0 ∧ request_bit request = 1 ∧ s.write ≠ s.read)
          ∨ (s.read_state = 1 ∧ s.write ≠ s.read) then true
      else if s.read_state = 2 ∧ request_bit request ≠ s.read_index % 2
        then (if s.read_index % 2 = 1 then false else true)
      else if s.read_state = 2 ∧ (s.frame_tick + 256 - s.previous_frame_tick) % 256 > 8
        then false
      else if s.read_state = 3 ∧ (request_bit request = 0
          ∨ (s.frame_tick + 256 - s.previous_frame_tick) % 256 > 8) then false
      else s.acknowledge := by
  simp only [loop_iteration, accept_duty, apply_ite Mcu.acknowledge, ite_self]
  split_ifs <;> first | rfl | omega

theorem loop_iteration_previous_frame_tick (fs : Nat) (request : Bool) (pind : Nat) (s : Mcu) :
    (loop_iteration fs request pind s).previous_frame_tick =
      if (s.read_state = 0 ∧ request_bit request = 1 ∧ s.write ≠ s.read)
          ∨ (s.read_state = 1 ∧ s.write ≠ s.read)
          ∨ (s.read_state = 2 ∧ request_bit request ≠ s.read_index % 2 ∧ s.read_index < fs)
      then s.frame_tick else s.previous_frame_tick := by
  simp only [loop_iteration, accept_duty, apply_ite Mcu.previous_frame_tick, ite_self]
  split_ifs <;> first | rfl | omega

/-! ### The transitions of the receiver loop, one by one -/

theorem request_bit_cases (request : Bool) :
    (request = false ∧ request_bit request = 0) ∨ (request = true ∧ request_bit request = 1) := by
  cases request <;> simp [request_bit]

theorem loop_idle_low (fs : Nat) (request : Bool) (pind : Nat) (s : Mcu)
    (hs : s.read_state = 0) (hr : request_bit request = 0) :
    loop_iteration fs request pind s = s := by
  unfold loop_iteration
  rw [if_pos hs, if_neg (by omega)]

theorem loop_idle_full (fs : Nat) (request : Bool) (pind : Nat) (s : Mcu)
    (hs : s.read_state = 0) (hr : request_bit request = 1) (hf : s.write = s.read) :
    loop_iteration fs request pind s = { s with read_state := 1 } := by
  unfold loop_iteration
  rw [if_pos hs, if_pos hr, if_pos hf]

theorem loop_idle_accept (fs : Nat) (request : Bool) (pind : Nat) (s : Mcu)
    (hs : s.read_state = 0) (hr : request_bit request = 1) (hf : s.write ≠ s.read) :
    loop_iteration fs request pind s = accept_duty pind s := by
  unfold loop_iteration
  rw [if_pos hs, if_pos hr, if_neg hf]

theorem loop_wait_full (fs : Nat) (request : Bool) (pind : Nat) (s : Mcu)
    (hs : s.read_state = 1) (hf : s.write = s.read) :
    loop_iteration fs request pind s = s := by
  unfold loop_iteration
  rw [if_neg (by omega), if_pos hs, if_neg (by simpa using hf)]

theorem loop_wait_accept (fs : Nat) (request : Bool) (pind : Nat) (s : Mcu)
    (hs : s.read_state = 1) (hf : s.write ≠ s.read) :
    loop_iteration fs request pind s = accept_duty pind s := by
  unfold loop_iteration
  rw [if_neg (by omega), if_pos hs, if_pos hf]

theorem loop_read_next (fs : Nat) (request : Bool) (pind : Nat) (s : Mcu)
    (hs : s.read_state = 2) (hflip : request_bit request ≠ s.read_index % 2)
    (hlt : s.read_index < fs) :
    loop_iteration fs request pind s = { s with
      frame_buffer := store s.frame_buffer s.write s.read_index pind
      stores := s.stores ++ [(s.write, s.read_index, pind)]
      acknowledge := if s.read_index % 2 = 1 then false else true
      previous_frame_tick := s.frame_tick
      read_index := (s.read_index + 1) % 65536 } := by
  unfold loop_iteration
  rw [if_neg (by omega), if_neg (by omega), if_pos hs, if_pos hflip]
  simp only [if_pos hlt]

theorem loop_read_commit (fs : Nat) (request : Bool) (pind : Nat) (s : Mcu)
    (hs : s.read_state = 2) (hflip : request_bit request ≠ s.read_index % 2)
    (hlt : ¬ s.read_index < fs) :
    loop_iteration fs request pind s = { s with
      frame_buffer := store s.frame_buffer s.write s.read_index pind
      stores := s.stores ++ [(s.write, s.read_index, pind)]
      acknowledge := if s.read_index % 2 = 1 then false else true
      write := (s.write + 1) % 8
      read_state := 3 } := by
  unfold loop_iteration
  rw [if_neg (by omega), if_neg (by omega), if_pos hs, if_pos hflip]
  simp only [if_neg hlt]

theorem loop_read_timeout (fs : Nat) (request : Bool) (pind : Nat) (s : Mcu)
    (hs : s.read_state = 2) (hflip : request_bit request = s.read_index % 2)
    (ht : (s.frame_tick + 256 - s.previous_frame_tick) % 256 > 8) :
    loop_iteration fs request pind s = { s with acknowledge := false, read_state := 0 } := by
  unfold loop_iteration
  rw [if_neg (by omega), if_neg (by omega), if_pos hs, if_neg (by omega), if_pos ht]

theorem loop_read_wait (fs : Nat) (request : Bool) (pind : Nat) (s : Mcu)
    (hs : s.read_state = 2) (hflip : request_bit request = s.read_index % 2)
    (ht : ¬ (s.frame_tick + 256 - s.previous_frame_tick) % 256 > 8) :
    loop_iteration fs request pind s = s := by
  unfold loop_iteration
  rw [if_neg (by omega), if_neg (by omega), if_pos hs, if_neg (by omega), if_neg ht]

theorem loop_post_done (fs : Nat) (request : Bool) (pind : Nat) (s : Mcu)
    (hs : s.read_state = 3) (hr : request_bit request = 0) :
    loop_iteration fs request pind s = { s with acknowledge := false, read_state := 0 } := by
  unfold loop_iteration
  rw [if_neg (by omega), if_neg (by omega), if_neg (by omega), if_pos hs, if_pos hr]

theorem loop_post_timeout (fs : Nat) (request : Bool) (pind : Nat) (s : Mcu)
    (hs : s.read_state = 3) (hr : request_bit request = 1)
    (ht : (s.frame_tick + 256 - s.previous_frame_tick) % 256 > 8) :
    loop_iteration fs request pind s = { s with acknowledge := false, read_state := 4 } := by
  unfold loop_iteration
  rw [if_neg (by omega), if_neg (by omega), if_neg (by omega), if_pos hs, if_neg (by omega),
    if_pos ht]

theorem loop_post_wait (fs : Nat) (request : Bool) (pind : Nat) (s : Mcu)
    (hs : s.read_state = 3) (hr : request_bit request = 1)
    (ht : ¬ (s.frame_tick + 256 - s.previous_frame_tick) % 256 > 8) :
    loop_iteration fs request pind s = s := by
  unfold loop_iteration
  rw [if_neg (by omega), if_neg (by omega), if_neg (by omega), if_pos hs, if_neg (by omega),
    if_neg ht]

theorem loop_recover_done (fs : Nat) (request : Bool) (pind : Nat) (s : Mcu)
    (hs : s.read_state = 4) (hr : request_bit request = 0) :
    loop_iteration fs request pind s = { s with read_state := 0 } := by
  unfold loop_iteration
  rw [if_neg (by omega), if_neg (by omega), if_neg (by omega), if_neg (by omega), if_pos hs,
    if_pos hr]

theorem loop_recover_wait (fs : Nat) (request : Bool) (pind : Nat) (s : Mcu)
    (hs : s.read_state = 4) (hr : request_bit request = 1) :
    loop_iteration fs request pind s = s := by
  unfold loop_iteration
  rw [if_neg (by omega), if_neg (by omega), if_neg (by omega), if_neg (by omega), if_pos hs,
    if_neg (by omega)]

theorem loop_other (fs : Nat) (request : Bool) (pind : Nat) (s : Mcu)
    (hs : 5 ≤ s.read_state) :
    loop_iteration fs request pind s = s := by
  unfold loop_iteration
  rw [if_neg (by omega), if_neg (by omega), if_neg (by omega), if_neg (by omega),
    if_neg (by omega)]

/-! ## The frame ring and the scan engine -/

/-- C4: for every ring state, the handler changes `read` only in its advance step (tick
`fs / 4 + 1` with the row-group selector wrapping to 0) and only when
`(read + 1) % 8 ≠ write`, in which case `read` becomes `(read + 1) % 8`; it never
modifies `write`; after a step that changed `read`, `read ≠ write`; and
`(write - read) mod 8` lies in `[0, 7]`. -/
theorem isr_ring_advance (fs : Nat) (s : Mcu) :
    (isr fs s).write = s.write ∧
    ((isr fs s).read ≠ s.read →
      s.count = fs / 4 + 1 ∧ (s.ab + 1) % 4 = 0 ∧ (s.read + 1) % 8 ≠ s.write ∧
      (isr fs s).read = (s.read + 1) % 8) ∧
    (s.count = fs / 4 + 1 → (s.ab + 1) % 4 = 0 →
      (isr fs s).read = if (s.read + 1) % 8 ≠ s.write then (s.read + 1) % 8 else s.read) ∧
    ((isr fs s).read ≠ s.read → (isr fs s).read ≠ (isr fs s).write) ∧
    ((isr fs s).write + 8 - (isr fs s).read) % 8 ≤ 7 ∧
    (s.read < 8 → (isr fs s).read < 8) := by
  rw [isr_write, isr_read]
  refine ⟨rfl, ?_, ?_, ?_, by omega, ?_⟩
  · intro h
    split_ifs at h with hc
    · exact ⟨hc.1, hc.2.1, hc.2.2, by rw [if_pos hc]⟩
    · exact absurd rfl h
  · intro h1 h2
    by_cases h3 : (s.read + 1) % 8 ≠ s.write
    · rw [if_pos ⟨h1, h2, h3⟩, if_pos h3]
    · rw [if_neg (fun h => h3 h.2.2), if_neg h3]
  · intro h
    split_ifs at h ⊢ with hc
    · exact hc.2.2
    · exact absurd rfl h
  · intro h
    split_ifs <;> omega

theorem loop_iteration_read_state_two (fs : Nat) (request : Bool) (pind : Nat) (s : Mcu)
    (h : (loop_iteration fs request pind s).read_state = 2) :
    (s.read_state = 2 ∧ ¬ (request_bit request ≠ s.read_index % 2 ∧ ¬ s.read_index < fs)) ∨
    (s.read_state ≠ 2 ∧ s.write ≠ s.read) := by
  rw [loop_iteration_read_state] at h
  split_ifs at h <;> omega

theorem ringInv_step (fs : Nat) (s : Mcu) (C D : Nat) (act : McuAction) (h : RingInv s C D) :
    RingInv (mcu_step fs s act)
      (C + if (mcu_step fs s act).write ≠ s.write then 1 else 0)
      (D + if (mcu_step fs s act).read ≠ s.read then 1 else 0) := by
  obtain ⟨hw, hr, h1, h2, h3⟩ := h
  cases act with
  | tick =>
    simp only [mcu_step, RingInv, isr_write, isr_read, isr_read_state]
    rw [show (if s.write ≠ s.write then 1 else 0) = 0 from if_neg (fun h => h rfl), Nat.add_zero]
    by_cases hc : s.count = fs / 4 + 1 ∧ (s.ab + 1) % 4 = 0 ∧ (s.read + 1) % 8 ≠ s.write
    · rw [if_pos hc]
      have hne : (s.read + 1) % 8 ≠ s.read := by omega
      rw [if_pos hne]
      have := hc.2.2
      refine ⟨?_, ?_, ?_, ?_, ?_⟩ <;> omega
    · rw [if_neg hc]
      simp only [ne_eq, not_true_eq_false, if_false, Nat.add_zero]
      exact ⟨hw, hr, h1, h2, h3⟩
  | iteration request pind =>
    have h2' := loop_iteration_read_state_two fs request pind s
    simp only [mcu_step, RingInv, loop_iteration_write, loop_iteration_read] at h2' ⊢
    rw [show (if s.read ≠ s.read then 1 else 0) = 0 from if_neg (fun h => h rfl), Nat.add_zero]
    by_cases hc : s.read_state = 2 ∧ request_bit request ≠ s.read_index % 2 ∧ ¬ s.read_index < fs
    · rw [if_pos hc]
      have hne : (s.write + 1) % 8 ≠ s.write := by omega
      rw [if_pos hne]
      have := h3 hc.1
      refine ⟨?_, ?_, ?_, ?_, ?_⟩
      · omega
      · simpa using hr
      · omega
      · omega
      · intro h4
        rcases h2' h4 with h5 | h5
        · exact absurd hc.2 h5.2
        · exact absurd hc.1 h5.1
    · rw [if_neg hc]
      simp only [ne_eq, not_true_eq_false, if_false, Nat.add_zero]
      refine ⟨hw, hr, h1, h2, ?_⟩
      intro h4
      rcases h2' h4 with h5 | h5
      · exact h3 h5.1
      · have := h5.2
        omega

theorem ringInv_run (fs : Nat) (acts : List McuAction) :
    ∀ (s : Mcu) (C D : Nat), RingInv s C D →
      RingInv (mcu_run fs s acts) (C + commits fs s acts) (D + advances fs s acts) := by
  induction acts with
  | nil => intro s C D h; simpa [mcu_run, commits, advances] using h
  | cons act acts ih =>
    intro s C D h
    have h1 := ih _ _ _ (ringInv_step fs s C D act h)
    simp only [mcu_run, List.foldl_cons, commits, advances] at h1 ⊢
    rw [Nat.add_assoc, Nat.add_assoc] at h1
    exact h1

theorem ringInv_power_up (fs : Nat) : RingInv (power_up fs) 0 0 := by
  simp [RingInv, power_up]

/-- C5: in every state reached from power-up by any interleaving of receiver-loop iterations
and timer interrupts, with `C` the number of commits and `D` the number of read advances so
far, `write = (1 + C) mod 8`, `read = D mod 8` and `D ≤ C ≤ D + 7`; and whenever the next
receiver iteration stores a byte (the duty byte in state 0 or 1, a payload byte in state 2)
it stores it into slot `write` and `write ≠ read`. -/
theorem ring_invariant (fs : Nat) (acts : List McuAction) :
    (mcu_run fs (power_up fs) acts).write = (1 + commits fs (power_up fs) acts) % 8 ∧
    (mcu_run fs (power_up fs) acts).read = advances fs (power_up fs) acts % 8 ∧
    advances fs (power_up fs) acts ≤ commits fs (power_up fs) acts ∧
    commits fs (power_up fs) acts ≤ advances fs (power_up fs) acts + 7 ∧
    ∀ request pind,
      (loop_iteration fs request pind (mcu_run fs (power_up fs) acts)).stores
          = (mcu_run fs (power_up fs) acts).stores ∨
      ((∃ index, (loop_iteration fs request pind (mcu_run fs (power_up fs) acts)).stores
          = (mcu_run fs (power_up fs) acts).stores
              ++ [((mcu_run fs (power_up fs) acts).write, index, pind)]) ∧
        (mcu_run fs (power_up fs) acts).write ≠ (mcu_run fs (power_up fs) acts).read) := by
  have h := ringInv_run fs acts (power_up fs) 0 0 (ringInv_power_up fs)
  simp only [Nat.zero_add] at h
  obtain ⟨hw, hr, h1, h2, h3⟩ := h
  refine ⟨hw, hr, h1, h2, ?_⟩
  intro request pind
  rw [loop_iteration_stores]
  split_ifs with c1 c2
  · right
    refine ⟨⟨0, rfl⟩, ?_⟩
    rcases c1 with c1 | c1
    · exact c1.2.2
    · exact c1.2
  · right
    refine ⟨⟨_, rfl⟩, ?_⟩
    have := h3 c2.1
    omega
  · left; rfl

/-! ## The receiver loop -/

theorem stalled_step (fs : Nat) (request : Bool) (w : Nat) (s : Mcu) (act : McuAction)
    (hact : ∀ r p, act = .iteration r p → r = request) (h : Stalled request w s) :
    Stalled request w (mcu_step fs s act) := by
  obtain ⟨hw, hs⟩ := h
  cases act with
  | tick =>
    simp only [mcu_step, Stalled, isr_write, isr_read_state, isr_read_index]
    exact ⟨hw, hs⟩
  | iteration r p =>
    obtain rfl := hact r p rfl
    simp only [mcu_step, Stalled, loop_iteration_write, loop_iteration_read_state,
      loop_iteration_read_index]
    have hb : request_bit r = 0 ∨ request_bit r = 1 := by
      unfold request_bit; split_ifs <;> simp
    rcases hs with h0 | ⟨h1, hr⟩ | ⟨h2, hr⟩
    · refine ⟨?_, ?_⟩
      · rw [if_neg (by omega)]; exact hw
      · split_ifs <;> omega
    · refine ⟨?_, ?_⟩
      · rw [if_neg (by omega)]; exact hw
      · split_ifs <;> omega
    · refine ⟨?_, ?_⟩
      · rw [if_neg (by omega)]; exact hw
      · split_ifs <;> omega

theorem stalled_run (fs : Nat) (request : Bool) (w : Nat) (acts : List McuAction) :
    ∀ s : Mcu, (∀ act ∈ acts, ∀ r p, act = McuAction.iteration r p → r = request) →
      Stalled request w s → Stalled request w (mcu_run fs s acts) := by
  induction acts with
  | nil => intro s _ h; exact h
  | cons act acts ih =>
    intro s hacts h
    simp only [mcu_run, List.foldl_cons]
    exact ih _ (fun a ha => hacts a (List.mem_cons_of_mem _ ha))
      (stalled_step fs request w s act (hacts act (List.mem_cons_self _ _)) h)

/-- C6: in state 2 (Reading) with the request level equal to `read_index & 1` (no parity
flip): if `(frame_tick - previous_frame_tick) mod 256 > 8`, one loop iteration drives
acknowledge low, sets `read_state` to 0 and changes nothing else (`write` included); if the
elapsed value is at most 8 the iteration changes nothing; and as long as the request level
does not flip again, whatever the interleaving of interrupts and loop iterations, `write`
is never advanced: the interrupted frame is not committed. -/
theorem reading_timeout (fs : Nat) (request : Bool) (pind : Nat) (s : Mcu)
    (hs : s.read_state = 2) (hflip : request_bit request = s.read_index % 2) :
    ((s.frame_tick + 256 - s.previous_frame_tick) % 256 > 8 →
      loop_iteration fs request pind s = { s with acknowledge := false, read_state := 0 } ∧
      (loop_iteration fs request pind s).acknowledge = false ∧
      (loop_iteration fs request pind s).read_state = 0 ∧
      (loop_iteration fs request pind s).write = s.write) ∧
    ((s.frame_tick + 256 - s.previous_frame_tick) % 256 ≤ 8 →
      loop_iteration fs request pind s = s) ∧
    (∀ acts : List McuAction,
      (∀ act ∈ acts, ∀ r p, act = McuAction.iteration r p → r = request) →
      (mcu_run fs s acts).write = s.write) := by
  refine ⟨?_, ?_, ?_⟩
  · intro h
    have e : loop_iteration fs request pind s = { s with acknowledge := false, read_state := 0 } := by
      unfold loop_iteration
      rw [if_neg (by omega), if_neg (by omega), if_pos hs, if_neg (by omega), if_pos h]
    rw [e]
    exact ⟨rfl, rfl, rfl, rfl⟩
  · intro h
    unfold loop_iteration
    rw [if_neg (by omega), if_neg (by omega), if_pos hs, if_neg (by omega), if_neg (by omega)]
  · intro acts hacts
    exact (stalled_run fs request s.write acts s hacts ⟨rfl, Or.inr (Or.inr ⟨hs, hflip⟩)⟩).1

/-- Witness for C6: the shipped receiver stalls after the duty byte for nine refresh ticks. -/
theorem reading_timeout_witness :
    (loop_iteration frame_size true 0
      { loop_iteration frame_size true 7 (power_up frame_size) with frame_tick := 9 }).read_state = 0 ∧
    (loop_iteration frame_size true 0
      { loop_iteration frame_size true 7 (power_up frame_size) with frame_tick := 9 }).acknowledge
        = false ∧
    (loop_iteration frame_size true 0
      { loop_iteration frame_size true 7 (power_up frame_size) with frame_tick := 9 }).write = 1 := by
  have h := (reading_timeout frame_size true 0
    { loop_iteration frame_size true 7 (power_up frame_size) with frame_tick := 9 }
    (by decide) (by decide)).1 (by decide)
  exact ⟨h.2.2.1, h.2.1, h.2.2.2.trans (by decide)⟩

/-- An invariant of single steps is an invariant of runs. -/
theorem run_invariant (fs : Nat) (I : Mcu → Prop)
    (hstep : ∀ s act, I s → I (mcu_step fs s act)) (acts : List McuAction) :
    ∀ s, I s → I (mcu_run fs s acts) := by
  induction acts with
  | nil => intro s h; exact h
  | cons act acts ih =>
    intro s h
    simp only [mcu_run, List.foldl_cons]
    exact ih _ (hstep s act h)

theorem mcu_run_append (fs : Nat) (s : Mcu) (acts acts' : List McuAction) :
    mcu_run fs s (acts ++ acts') = mcu_run fs (mcu_run fs s acts) acts' := by
  simp [mcu_run, List.foldl_append]

theorem readingInv_step (fs : Nat) (h1 : 1 ≤ fs) (h2 : fs < 65536) (s : Mcu) (act : McuAction)
    (h : ReadingInv fs s) : ReadingInv fs (mcu_step fs s act) := by
  obtain ⟨hr, hst⟩ := h
  cases act with
  | tick =>
    simp only [mcu_step, ReadingInv, isr_read_state, isr_read_index, isr_stores]
    exact ⟨hr, hst⟩
  | iteration r p =>
    simp only [mcu_step, ReadingInv, loop_iteration_read_state, loop_iteration_read_index,
      loop_iteration_stores]
    refine ⟨?_, ?_⟩
    · intro h
      split_ifs at h ⊢ <;> omega
    · intro e he
      split_ifs at he with c1 c2
      · rcases List.mem_append.1 he with he | he
        · exact hst e he
        · simp only [List.mem_singleton] at he
          rw [he]; exact Nat.zero_le _
      · rcases List.mem_append.1 he with he | he
        · exact hst e he
        · simp only [List.mem_singleton] at he
          rw [he]; exact (hr c2.1).2
      · exact hst e he

theorem readingInv_power_up (fs : Nat) : ReadingInv fs (power_up fs) := by
  simp [ReadingInv, power_up]

theorem pathInv_step (fs : Nat) (h1 : 1 ≤ fs) (h2 : fs < 65536) (s0 s : Mcu) (act : McuAction)
    (h : PathInv fs s0 s)
    (hno : ¬ (s.read_state ≠ 0 ∧ (mcu_step fs s act).read_state = 0)) :
    PathInv fs s0 (mcu_step fs s act) := by
  cases act with
  | tick =>
    simp only [mcu_step, PathInv, isr_read_state, isr_read_index, isr_stores, isr_write]
    exact h
  | iteration r p =>
    simp only [mcu_step] at hno ⊢
    have hb := request_bit_cases r
    rcases h with ⟨hs, hst, hw⟩ | ⟨hs, hw, hi1, hi2, extra, hst, hex⟩ | hs
    · have hacc : PathInv fs s0 (accept_duty p s) := by
        right; left
        refine ⟨rfl, hw, le_refl _, h1, [(s.write, 0, p)], ?_, ?_⟩
        · simp only [accept_duty, hst]
        · simp [accept_duty, hw, List.range_succ]
      by_cases hs0 : s.read_state = 0
      · rcases hb with ⟨_, hr⟩ | ⟨_, hr⟩
        · rw [loop_idle_low fs r p s hs0 hr]; exact Or.inl ⟨hs, hst, hw⟩
        · by_cases hf : s.write = s.read
          · rw [loop_idle_full fs r p s hs0 hr hf]; exact Or.inl ⟨le_refl _, hst, hw⟩
          · rw [loop_idle_accept fs r p s hs0 hr hf]; exact hacc
      · have hs1 : s.read_state = 1 := by omega
        by_cases hf : s.write = s.read
        · rw [loop_wait_full fs r p s hs1 hf]; exact Or.inl ⟨hs, hst, hw⟩
        · rw [loop_wait_accept fs r p s hs1 hf]; exact hacc
    · by_cases hflip : request_bit r ≠ s.read_index % 2
      · by_cases hlt : s.read_index < fs
        · rw [loop_read_next fs r p s hs hflip hlt]
          right; left
          have hwrap : (s.read_index + 1) % 65536 = s.read_index + 1 :=
            Nat.mod_eq_of_lt (by omega)
          refine ⟨hs, hw, ?_, ?_, extra ++ [(s.write, s.read_index, p)], ?_, ?_⟩
          · simp only [hwrap]; omega
          · simp only [hwrap]; omega
          · simp only [hst, List.append_assoc]
          · simp only [hwrap]
            rw [List.map_append, hex, List.range_succ, List.map_append, hw]
            rfl
        · rw [loop_read_commit fs r p s hs hflip hlt]
          exact Or.inr (Or.inr (le_refl _))
      · have hflip' : request_bit r = s.read_index % 2 := by omega
        by_cases ht : (s.frame_tick + 256 - s.previous_frame_tick) % 256 > 8
        · exfalso
          apply hno
          rw [loop_read_timeout fs r p s hs hflip' ht]
          exact ⟨by omega, rfl⟩
        · rw [loop_read_wait fs r p s hs hflip' ht]
          exact Or.inr (Or.inl ⟨hs, hw, hi1, hi2, extra, hst, hex⟩)
    · right; right
      rw [loop_iteration_read_state] at hno ⊢
      split_ifs at hno ⊢ <;> omega

theorem pathInv_run (fs : Nat) (h1 : 1 ≤ fs) (h2 : fs < 65536) (s0 : Mcu)
    (acts : List McuAction) :
    ∀ s, PathInv fs s0 s → returns_to_idle fs s acts = false →
      PathInv fs s0 (mcu_run fs s acts) := by
  induction acts with
  | nil => intro s h _; exact h
  | cons act acts ih =>
    intro s h hno
    simp only [returns_to_idle, Bool.or_eq_false_iff, Bool.and_eq_false_iff,
      decide_eq_false_iff_not] at hno
    simp only [mcu_run, List.foldl_cons]
    refine ih _ (pathInv_step fs h1 h2 s0 s act h ?_) hno.2
    rintro ⟨ha, hb⟩
    rcases hno.1 with h3 | h3
    · exact h3 ha
    · exact h3 hb

theorem store_shape (fs : Nat) (fb : List (List Nat)) (slot index value : Nat)
    (hlen : fb.length = 8) (hslots : ∀ sl ∈ fb, sl.length = fs + 1) (hslot : slot < 8) :
    (store fb slot index value).length = 8 ∧
    ∀ sl ∈ store fb slot index value, sl.length = fs + 1 := by
  unfold store
  refine ⟨by rw [List.length_set]; exact hlen, ?_⟩
  intro sl hsl
  rcases List.mem_or_eq_of_mem_set hsl with h | h
  · exact hslots sl h
  · rw [h, List.length_set]
    apply hslots
    rw [List.getD_eq_getElem?_getD, List.getElem?_eq_getElem (by omega)]
    exact List.getElem_mem _

theorem bufferShape_step (fs : Nat) (s : Mcu) (act : McuAction) (h : BufferShape fs s) :
    BufferShape fs (mcu_step fs s act) := by
  obtain ⟨hlen, hslots, hw, hr⟩ := h
  cases act with
  | tick =>
    simp only [mcu_step, BufferShape, isr_frame_buffer, isr_write, isr_read]
    refine ⟨hlen, hslots, hw, ?_⟩
    split_ifs <;> omega
  | iteration r p =>
    simp only [mcu_step, BufferShape, loop_iteration_frame_buffer, loop_iteration_write,
      loop_iteration_read]
    refine ⟨?_, ?_, ?_, hr⟩
    · split_ifs
      · exact (store_shape fs _ _ _ _ hlen hslots hw).1
      · exact (store_shape fs _ _ _ _ hlen hslots hw).1
      · exact hlen
    · split_ifs
      · exact (store_shape fs _ _ _ _ hlen hslots hw).2
      · exact (store_shape fs _ _ _ _ hlen hslots hw).2
      · exact hslots
    · split_ifs <;> omega

theorem bufferShape_power_up (fs : Nat) : BufferShape fs (power_up fs) := by
  refine ⟨by simp [power_up], ?_, by simp [power_up], by simp [power_up]⟩
  intro slot hslot
  simp only [power_up, List.mem_replicate] at hslot
  rw [hslot.2]
  simp

theorem returns_to_idle_of_append (fs : Nat) (acts acts' : List McuAction) :
    ∀ s, returns_to_idle fs s (acts ++ acts') = false → returns_to_idle fs s acts = false := by
  induction acts with
  | nil => intro s _; rfl
  | cons a as ih =>
    intro s hno
    simp only [List.cons_append, returns_to_idle, Bool.or_eq_false_iff] at hno ⊢
    exact ⟨hno.1, ih _ hno.2⟩

/-- C7: in every state reached from power-up (receiver compiled with `1 ≤ fs < 65536`):
a receiver iteration changes `write` exactly when it is in state 2 and accepts the byte at
`read_index = fs`, and then to `(write + 1) % 8`; timer interrupts never change `write`;
in state 2, `1 ≤ read_index ≤ fs`; every store so far had an index at most `fs`, inside a
slot of `fs + 1` bytes; and on every path from an idle state to a commit that does not pass
through a return to state 0, the stores made on the path are exactly `fs + 1` stores into
the slot `write`, at the indices `0, 1, ..., fs` in this order. -/
theorem write_advances_only_on_commit (fs : Nat) (h1 : 1 ≤ fs) (h2 : fs < 65536)
    (acts : List McuAction) :
    (∀ request pind,
      ((loop_iteration fs request pind (mcu_run fs (power_up fs) acts)).write
          ≠ (mcu_run fs (power_up fs) acts).write ↔
        (mcu_run fs (power_up fs) acts).read_state = 2 ∧
        request_bit request ≠ (mcu_run fs (power_up fs) acts).read_index % 2 ∧
        (mcu_run fs (power_up fs) acts).read_index = fs) ∧
      ((loop_iteration fs request pind (mcu_run fs (power_up fs) acts)).write
          ≠ (mcu_run fs (power_up fs) acts).write →
        (loop_iteration fs request pind (mcu_run fs (power_up fs) acts)).write
          = ((mcu_run fs (power_up fs) acts).write + 1) % 8)) ∧
    (isr fs (mcu_run fs (power_up fs) acts)).write = (mcu_run fs (power_up fs) acts).write ∧
    ((mcu_run fs (power_up fs) acts).read_state = 2 →
      1 ≤ (mcu_run fs (power_up fs) acts).read_index ∧
      (mcu_run fs (power_up fs) acts).read_index ≤ fs) ∧
    (∀ e ∈ (mcu_run fs (power_up fs) acts).stores, e.1 < 8 ∧ e.2.1 ≤ fs) ∧
    ((mcu_run fs (power_up fs) acts).frame_buffer.length = 8 ∧
      ∀ slot ∈ (mcu_run fs (power_up fs) acts).frame_buffer, slot.length = fs + 1) ∧
    ((mcu_run fs (power_up fs) acts).read_state = 0 →
      ∀ (acts' : List McuAction) (act : McuAction),
        returns_to_idle fs (mcu_run fs (power_up fs) acts) (acts' ++ [act]) = false →
        (mcu_run fs (mcu_run fs (power_up fs) acts) (acts' ++ [act])).write
          ≠ (mcu_run fs (mcu_run fs (power_up fs) acts) acts').write →
        ∃ extra : List (Nat × Nat × Nat),
          (mcu_run fs (mcu_run fs (power_up fs) acts) (acts' ++ [act])).stores
            = (mcu_run fs (power_up fs) acts).stores ++ extra ∧
          extra.map (fun e => (e.1, e.2.1))
            = (List.range (fs + 1)).map
                (fun i => ((mcu_run fs (power_up fs) acts).write, i))) := by
  have hR : ReadingInv fs (mcu_run fs (power_up fs) acts) ∧
      BufferShape fs (mcu_run fs (power_up fs) acts) ∧
      ∀ e ∈ (mcu_run fs (power_up fs) acts).stores, e.1 < 8 :=
    run_invariant fs (fun s => ReadingInv fs s ∧ BufferShape fs s ∧ ∀ e ∈ s.stores, e.1 < 8)
      (fun s act h => ⟨readingInv_step fs h1 h2 s act h.1, bufferShape_step fs s act h.2.1, by
        intro e he
        cases act with
        | tick => simp only [mcu_step, isr_stores] at he; exact h.2.2 e he
        | iteration r p =>
          simp only [mcu_step, loop_iteration_stores] at he
          split_ifs at he
          · rcases List.mem_append.1 he with he | he
            · exact h.2.2 e he
            · simp only [List.mem_singleton] at he
              rw [he]; exact h.2.1.2.2.1
          · rcases List.mem_append.1 he with he | he
            · exact h.2.2 e he
            · simp only [List.mem_singleton] at he
              rw [he]; exact h.2.1.2.2.1
          · exact h.2.2 e he⟩)
      acts (power_up fs)
      ⟨readingInv_power_up fs, bufferShape_power_up fs, by simp [power_up]⟩
  generalize mcu_run fs (power_up fs) acts = s at hR ⊢
  obtain ⟨⟨hri, hst⟩, ⟨hlen, hslots, _, _⟩, hsl⟩ := hR
  refine ⟨?_, isr_write fs s, hri, fun e he => ⟨hsl e he, hst e he⟩, ⟨hlen, hslots⟩, ?_⟩
  · intro request pind
    rw [loop_iteration_write]
    have hne : (s.write + 1) % 8 ≠ s.write := by omega
    constructor
    · constructor
      · intro h
        split_ifs at h with hc
        · have := hri hc.1
          exact ⟨hc.1, hc.2.1, by omega⟩
        · exact absurd rfl h
      · rintro ⟨ha, hb, hc⟩
        rw [if_pos ⟨ha, hb, by omega⟩]
        exact hne
    · intro h
      split_ifs at h ⊢ with hc
      · rfl
      · exact absurd rfl h
  · intro hs0 acts' act hno hcommit
    rw [mcu_run_append] at hcommit ⊢
    have hsplit := returns_to_idle_of_append fs acts' [act] s hno
    have hP := pathInv_run fs h1 h2 s acts' s (Or.inl ⟨by omega, rfl, rfl⟩) hsplit
    generalize mcu_run fs s acts' = t at hP hcommit
    simp only [mcu_run, List.foldl_cons, List.foldl_nil] at hcommit ⊢
    cases act with
    | tick => exact absurd (isr_write fs t) hcommit
    | iteration r p =>
      simp only [mcu_step] at hcommit ⊢
      rw [loop_iteration_write] at hcommit
      split_ifs at hcommit with hc
      · rcases hP with ⟨hs, _, _⟩ | ⟨hs, hw, hi1, hi2, extra, hst', hex⟩ | hs
        · omega
        · rw [loop_read_commit fs r p t hc.1 hc.2.1 hc.2.2]
          have hfs : t.read_index = fs := by omega
          refine ⟨extra ++ [(t.write, t.read_index, p)], ?_, ?_⟩
          · simp only [hst', List.append_assoc]
          · rw [List.map_append, hex, List.range_succ, List.map_append, hw, hfs]
            rfl
        · omega
      · exact absurd rfl hcommit

/-- Witness for C7: the shipped receiver takes the 129 bytes of one frame from power-up. -/
theorem write_advances_only_on_commit_witness :
    (1 ≤ frame_size ∧ frame_size < 65536) ∧
    ∃ extra : List (Nat × Nat × Nat),
      (mcu_run frame_size (mcu_run frame_size (power_up frame_size) [])
        ((List.range 128).map (fun i => McuAction.iteration (i % 2 == 0) i)
          ++ [McuAction.iteration true 128])).stores
        = (mcu_run frame_size (power_up frame_size) []).stores ++ extra ∧
      extra.map (fun e => (e.1, e.2.1))
        = (List.range (frame_size + 1)).map
            (fun i => ((mcu_run frame_size (power_up frame_size) []).write, i)) :=
  ⟨by decide,
    (write_advances_only_on_commit frame_size (by decide) (by decide) []).2.2.2.2.2
      (by decide) ((List.range 128).map (fun i => McuAction.iteration (i % 2 == 0) i))
      (McuAction.iteration true 128) (by decide) (by decide)⟩

/-! ## Output enable -/

theorem oeInv_step (fs : Nat) (hq : fs / 4 + 2 ≤ 255) (s : Mcu) (act : McuAction)
    (h : OeInv fs s) : OeInv fs (mcu_step fs s act) := by
  obtain ⟨hc, ho, hoe⟩ := h
  cases act with
  | iteration r p =>
    simp only [mcu_step, OeInv, loop_iteration_count, loop_iteration_oe_count,
      loop_iteration_oe]
    exact ⟨hc, ho, hoe⟩
  | tick =>
    simp only [mcu_step, OeInv, isr_count_eq, isr_oe_count, isr_oe]
    refine ⟨Nat.mod_lt _ (by decide), by split_ifs <;> omega, ?_⟩
    intro h
    have hoe' : s.oe = true → s.oe_count ≠ fs / 4 + 2 ∧ s.count ≠ fs / 4 + 2 ∧
        (s.count + 256 - (fs / 4 + 2)) % 256
          ≤ ((if s.oe_count = fs / 4 + 1 then fs / 4 else s.oe_count) + 256 - (fs / 4 + 2)) % 256 :=
      hoe
    by_cases hoeb : s.oe = true
    · obtain ⟨h1, h2, h3⟩ := hoe' hoeb
      rw [hoeb] at h
      split_ifs at h h3 ⊢
      all_goals
        first | (exfalso; omega) | (refine ⟨?_, ?_, ?_⟩ <;> omega)
    · have hf : s.oe = false := by simpa using hoeb
      rw [hf] at h
      split_ifs at h ⊢
      all_goals
        first | (exfalso; omega) | (refine ⟨?_, ?_, ?_⟩ <;> omega)

theorem oeInv_power_up (fs : Nat) : OeInv fs (power_up fs) := by
  simp [OeInv, power_up]

theorem count_lt_step (fs : Nat) (s : Mcu) (act : McuAction) (h : s.count < 256) :
    (mcu_step fs s act).count < 256 := by
  cases act with
  | iteration r p => simp only [mcu_step, loop_iteration_count]; exact h
  | tick => simp only [mcu_step, isr_count_eq]; exact Nat.mod_lt _ (by decide)

theorem ticks_in_cons (act : McuAction) (acts : List McuAction) :
    ticks_in (act :: acts) = (if act = McuAction.tick then 1 else 0) + ticks_in acts := by
  unfold ticks_in
  rw [List.filter_cons]
  split_ifs with h1 h2 h2
  · rw [List.length_cons]; omega
  · simp at h1; exact absurd h1 h2
  · simp at h1; exact absurd h2 h1
  · omega

/-- Blanked within a sweep: `k` ticks after the tick `fs / 4 + 2` that set the threshold
to `fs / 4 + 2`, with `k ≤ 255`. -/
theorem sweep_blank (fs : Nat) (acts : List McuAction) :
    ∀ (s : Mcu) (k : Nat),
      s.oe = false → s.oe_count = fs / 4 + 2 → s.count = (fs / 4 + 2 + 1 + k) % 256 →
      k + ticks_in acts ≤ 255 →
      (mcu_run fs s acts).oe = false ∧ (mcu_run fs s acts).oe_count = fs / 4 + 2 := by
  induction acts with
  | nil => intro s k h1 h2 _ _; exact ⟨h1, h2⟩
  | cons act acts ih =>
    intro s k h1 h2 h3 hk
    rw [ticks_in_cons] at hk
    simp only [mcu_run, List.foldl_cons]
    cases act with
    | iteration r p =>
      simp only [reduceCtorEq, if_false, Nat.zero_add] at hk
      exact ih _ k (by simp only [mcu_step, loop_iteration_oe]; exact h1)
        (by simp only [mcu_step, loop_iteration_oe_count]; exact h2)
        (by simp only [mcu_step, loop_iteration_count]; exact h3) hk
    | tick =>
      simp only [if_true] at hk
      have hne : s.count ≠ fs / 4 + 2 := by omega
      refine ih _ (k + 1) ?_ ?_ ?_ (by omega)
      · simp only [mcu_step, isr_oe, h1]
        split_ifs <;> first | rfl | (exfalso; omega)
      · simp only [mcu_step, isr_oe_count, if_neg hne]; exact h2
      · simp only [mcu_step, isr_count_eq]; omega

/-- Blanked as long as every tick `fs / 4 + 2` finds the duty byte 0. -/
theorem duty_zero_blank (fs : Nat) (acts : List McuAction) :
    ∀ (s : Mcu), s.oe = false → s.oe_count = fs / 4 + 2 → s.oe_count < 256 →
      duty_zero_at_thresholds fs s acts = true →
      (mcu_run fs s acts).oe = false := by
  induction acts with
  | nil => intro s h1 _ _ _; exact h1
  | cons act acts ih =>
    intro s h1 h2 h3 hd
    simp only [duty_zero_at_thresholds, Bool.and_eq_true, decide_eq_true_eq] at hd
    simp only [mcu_run, List.foldl_cons]
    cases act with
    | iteration r p =>
      exact ih _ (by simp only [mcu_step, loop_iteration_oe]; exact h1)
        (by simp only [mcu_step, loop_iteration_oe_count]; exact h2)
        (by simp only [mcu_step, loop_iteration_oe_count]; exact h3) hd.2
    | tick =>
      have hz := hd.1 rfl
      refine ih _ ?_ ?_ ?_ hd.2
      · simp only [mcu_step, isr_oe, h1]
        by_cases c4 : s.count = fs / 4 + 2
        · have hz' := hz c4
          rw [hz']
          split_ifs <;> first | rfl | (exfalso; omega)
        · split_ifs <;> rfl
      · simp only [mcu_step, isr_oe_count]
        split_ifs with c1
        · rw [hz c1]; omega
        · exact h2
      · simp only [mcu_step, isr_oe_count]
        split_ifs with c1
        · exact Nat.mod_lt _ (by decide)
        · exact h3

/-- C9: in every state reached from power-up that is about to execute tick `fs / 4 + 2`
with duty byte 0 in the read slot: the pin is low on entry, the handler computes the
threshold `fs / 4 + 2` and leaves the pin low; the pin then stays low through the rest of
the 256-tick sweep that this tick starts (any interleaving of receiver iterations with up
to 255 further timer interrupts, the next tick `fs / 4 + 2` being the 256th); and it stays
low beyond that for as long as every later tick `fs / 4 + 2` again finds duty byte 0. -/
theorem duty_zero_stays_blanked (fs : Nat) (acts : List McuAction)
    (hcount : (mcu_run fs (power_up fs) acts).count = fs / 4 + 2)
    (hduty : byte_at (mcu_run fs (power_up fs) acts).frame_buffer
      (mcu_run fs (power_up fs) acts).read 0 = 0) :
    (mcu_run fs (power_up fs) acts).oe = false ∧
    (isr fs (mcu_run fs (power_up fs) acts)).oe_count = fs / 4 + 2 ∧
    (isr fs (mcu_run fs (power_up fs) acts)).oe = false ∧
    (∀ acts' : List McuAction, ticks_in acts' ≤ 255 →
      (mcu_run fs (isr fs (mcu_run fs (power_up fs) acts)) acts').oe = false ∧
      (mcu_run fs (isr fs (mcu_run fs (power_up fs) acts)) acts').oe_count = fs / 4 + 2) ∧
    (∀ acts' : List McuAction,
      duty_zero_at_thresholds fs (isr fs (mcu_run fs (power_up fs) acts)) acts' = true →
      (mcu_run fs (isr fs (mcu_run fs (power_up fs) acts)) acts').oe = false) := by
  have hlt : (mcu_run fs (power_up fs) acts).count < 256 :=
    run_invariant fs (fun s => s.count < 256) (fun s act h => count_lt_step fs s act h)
      acts (power_up fs) (by simp [power_up])
  have hq : fs / 4 + 2 ≤ 255 := by omega
  have hinv : OeInv fs (mcu_run fs (power_up fs) acts) :=
    run_invariant fs (OeInv fs) (fun s act h => oeInv_step fs hq s act h)
      acts (power_up fs) (oeInv_power_up fs)
  generalize mcu_run fs (power_up fs) acts = s at hcount hduty hlt hinv ⊢
  have hoe : s.oe = false := by
    by_cases h : s.oe = true
    · exact absurd hcount (hinv.2.2 h).2.1
    · simpa using h
  have h1 : (isr fs s).oe_count = fs / 4 + 2 := by
    rw [isr_oe_count, if_pos hcount, hduty]; omega
  have h2 : (isr fs s).oe = false := by
    rw [isr_oe, hoe, hduty]
    split_ifs <;> first | rfl | (exfalso; omega)
  refine ⟨hoe, h1, h2, ?_, ?_⟩
  · intro acts' hk
    exact sweep_blank fs acts' (isr fs s) 0 h2 h1 (by rw [isr_count_eq, hcount]) (by omega)
  · intro acts' hd
    exact duty_zero_blank fs acts' (isr fs s) h2 h1 (by omega) hd

set_option maxRecDepth 100000 in
/-- Witness for C9: the shipped receiver, 34 timer interrupts after power-up. -/
theorem duty_zero_stays_blanked_witness :
    (mcu_run frame_size (power_up frame_size) (List.replicate 34 McuAction.tick)).count
        = frame_size / 4 + 2 ∧
    (isr frame_size
      (mcu_run frame_size (power_up frame_size) (List.replicate 34 McuAction.tick))).oe_count
        = frame_size / 4 + 2 :=
  ⟨by decide,
    (duty_zero_stays_blanked frame_size (List.replicate 34 McuAction.tick)
      (by decide) (by decide)).2.1⟩

/-! ## The wires: what the register writes of `send_byte` do to the lines -/

set_option maxRecDepth 100000 in
theorem table_bits :
    ∀ b < 256, byte_to_mask b < 2 ^ 32 ∧ clear_mask b < 2 ^ 32 ∧
      (byte_to_mask b).testBit request_pin = false ∧
      (clear_mask b).testBit request_pin = false ∧
      ∀ i < 8, (byte_to_mask b).testBit (data_pin i) = b.testBit i ∧
        (clear_mask b).testBit (data_pin i) = !b.testBit i := by
  decide

theorem pin_facts :
    request_mask < 2 ^ 32 ∧ request_mask.testBit request_pin = true ∧
    ∀ i < 8, data_pin i < 32 ∧ request_mask.testBit (data_pin i) = false ∧
      byte_to_mask (2 ^ i) = 2 ^ data_pin i := by
  decide

set_option maxRecDepth 100000 in
theorem byte_of_bits :
    ∀ b < 256, ((List.range 8).map fun i => if b.testBit i then 2 ^ i else 0).sum = b := by
  decide

set_option maxRecDepth 100000 in
theorem complement_bits : ∀ b < 256, ∀ i < 8, (255 - b).testBit i = !b.testBit i := by
  decide

theorem testBit_gpio_set (level value p : Nat) :
    (gpio_apply level (set_offset, value)).testBit p = (level.testBit p || value.testBit p) := by
  simp [gpio_apply, Nat.testBit_lor]

theorem testBit_gpio_clear (level value p : Nat) (hv : value < 2 ^ 32) (hp : p < 32) :
    (gpio_apply level (clear_offset, value)).testBit p
      = (level.testBit p && !value.testBit p) := by
  have h : clear_offset ≠ set_offset := by decide
  have e : 2 ^ 32 - 1 - value = 2 ^ 32 - (value + 1) := by omega
  simp only [gpio_apply, if_neg h, if_true, Nat.testBit_land, e,
    Nat.testBit_two_pow_sub_succ hv, decide_eq_true hp, Bool.true_and]

theorem pind_of_level_eq (level v : Nat) (hv : v < 256)
    (h : ∀ i < 8, level.testBit (data_pin i) = v.testBit i) : pind_of_level level = v := by
  have e : ((List.range 8).map fun i => if level.testBit (data_pin i) then 2 ^ i else 0)
      = (List.range 8).map fun i => if v.testBit i then 2 ^ i else 0 := by
    apply List.map_congr_left
    intro i hi
    rw [h i (List.mem_range.1 hi)]
  unfold pind_of_level
  rw [e]
  exact byte_of_bits v hv

theorem pind_of_level_congr (level level' : Nat)
    (h : ∀ i < 8, level'.testBit (data_pin i) = level.testBit (data_pin i)) :
    pind_of_level level' = pind_of_level level := by
  unfold pind_of_level
  congr 1
  apply List.map_congr_left
  intro i hi
  rw [h i (List.mem_range.1 hi)]

theorem data_write_1_half (call : Nat × Bool) (level : Nat) (hb : call.1 < 256) :
    HalfWritten call (gpio_apply level (data_write_1 call.1 call.2)) ∧
    request_line (gpio_apply level (data_write_1 call.1 call.2)) = request_line level := by
  obtain ⟨h1, _, h3, _, h5⟩ := table_bits call.1 hb
  obtain ⟨b, first⟩ := call
  cases first
  · simp only [data_write_1, Bool.false_eq_true, if_false, HalfWritten, request_line]
    refine ⟨?_, ?_⟩
    · intro i hi hbit
      rw [testBit_gpio_clear _ _ _ h1 (pin_facts.2.2 i hi).1, (h5 i hi).1, hbit]
      simp
    · rw [testBit_gpio_clear _ _ _ h1 (by decide), h3]
      simp
  · simp only [data_write_1, if_true, HalfWritten, request_line]
    refine ⟨?_, ?_⟩
    · intro i hi hbit
      rw [testBit_gpio_set, (h5 i hi).1, hbit]
      simp
    · rw [testBit_gpio_set, h3]
      simp

theorem data_write_2_wire (call : Nat × Bool) (level : Nat) (hb : call.1 < 256)
    (hh : HalfWritten call level) :
    pind_of_level (gpio_apply level (data_write_2 call.1 call.2)) = wire call ∧
    request_line (gpio_apply level (data_write_2 call.1 call.2)) = request_line level := by
  obtain ⟨_, h2, _, h4, h5⟩ := table_bits call.1 hb
  obtain ⟨b, first⟩ := call
  cases first
  · simp only [data_write_2, Bool.false_eq_true, if_false, request_line, wire]
    refine ⟨?_, ?_⟩
    · apply pind_of_level_eq _ _ (by omega)
      intro i hi
      rw [testBit_gpio_set, (h5 i hi).2, complement_bits b hb i hi]
      cases hbit : b.testBit i
      · simp
      · have := hh i hi hbit
        simp only at this
        simp [this]
    · rw [testBit_gpio_set, h4]
      simp
  · simp only [data_write_2, if_true, request_line, wire]
    refine ⟨?_, ?_⟩
    · apply pind_of_level_eq _ _ hb
      intro i hi
      rw [testBit_gpio_clear _ _ _ h2 (pin_facts.2.2 i hi).1, (h5 i hi).2]
      cases hbit : b.testBit i
      · simp
      · have := hh i hi hbit
        simp only at this
        simp [this]
    · rw [testBit_gpio_clear _ _ _ h2 (by decide), h4]
      simp

theorem request_write_lines (request : Bool) (level : Nat) :
    request_line (gpio_apply level (request_write request)) = request ∧
    pind_of_level (gpio_apply level (request_write request)) = pind_of_level level := by
  obtain ⟨h1, h2, h3⟩ := pin_facts
  cases request
  · simp only [request_write, Bool.false_eq_true, if_false, request_line]
    refine ⟨?_, ?_⟩
    · rw [testBit_gpio_clear _ _ _ h1 (by decide), h2]
      simp
    · apply pind_of_level_congr
      intro i hi
      rw [testBit_gpio_clear _ _ _ h1 (h3 i hi).1, (h3 i hi).2.1]
      simp
  · simp only [request_write, if_true, request_line]
    refine ⟨?_, ?_⟩
    · rw [testBit_gpio_set, h2]
      simp
    · apply pind_of_level_congr
      intro i hi
      rw [testBit_gpio_set, (h3 i hi).2.1]
      simp

/-! ## The handshake of the composed system -/

theorem getD_lt_of_all_lt (frame : List Nat) (i : Nat) (h : ∀ b ∈ frame, b < 256) :
    frame.getD i 0 < 256 := by
  rw [List.getD_eq_getElem?_getD]
  cases hi : frame[i]? with
  | none => simp
  | some b => exact h b (List.getElem?_mem hi)

/-- The call sequence of `send` for a well-sized frame of bytes. -/
theorem calls_of_eq (w h : Nat) (frame : List Nat) (hw : 1 ≤ w) (hwh : w * h ≤ 255)
    (hlen : frame.length = 64 * w * h + 1) :
    (send 256 0 frame (new_panel w h)).2 = Outcome.returned ∧
    calls_of w h frame = (frame.getD 0 0, true)
      :: ((transmission_order w h).map
            (fun t => (frame.getD (frame_index_of w h t) 0, false)) ++ [(0, false)]) := by
  have h1 := send_result_calls 256 0 frame (new_panel w h) hw hwh hlen
    (by show w * h < 256; omega)
  refine ⟨h1.1, ?_⟩
  unfold calls_of
  rw [h1.2]
  simp [new_panel]

theorem calls_of_valid (w h : Nat) (frame : List Nat) (hw : 1 ≤ w) (hwh : w * h ≤ 255)
    (hlen : frame.length = 64 * w * h + 1) (hb : ∀ b ∈ frame, b < 256) :
    ValidCalls (64 * w * h) (calls_of w h frame) := by
  rw [(calls_of_eq w h frame hw hwh hlen).2]
  refine ⟨by simp [length_transmission_order], ?_⟩
  intro i c hc
  cases i with
  | zero =>
    simp only [List.getElem?_cons_zero, Option.some.injEq] at hc
    rw [← hc]
    exact ⟨getD_lt_of_all_lt frame 0 hb, by simp⟩
  | succ i =>
    simp only [List.getElem?_cons_succ] at hc
    have hmem := List.getElem?_mem hc
    rcases List.mem_append.1 hmem with hm | hm
    · obtain ⟨t, _, rfl⟩ := List.mem_map.1 hm
      exact ⟨getD_lt_of_all_lt frame _ hb, by simp⟩
    · simp only [List.mem_singleton] at hm
      rw [hm]
      exact ⟨by decide, by simp⟩

/-! ### The steps of the transmitter, one by one -/

theorem sender_step_finished (w h : Nat) (ack : Bool) (tx : Sender) (level : Nat)
    (hc : tx.calls[tx.index]? = none) (hq : tx.queue = []) :
    sender_step w h ack tx level = (tx, level) := by
  simp only [sender_step, hc, hq]

theorem sender_step_load (w h : Nat) (ack : Bool) (tx : Sender) (level : Nat)
    (frame : List Nat) (rest : List (List Nat))
    (hc : tx.calls[tx.index]? = none) (hq : tx.queue = frame :: rest)
    (hret : (send 256 0 frame (new_panel w h)).2 = Outcome.returned) :
    sender_step w h ack tx level
      = ({ calls := calls_of w h frame, index := 0, pc := 0, request := true,
           acknowledge := true, queue := rest }, level) := by
  simp only [sender_step, hc, hq, hret, if_true, calls_of]

theorem sender_step_pc0 (w h : Nat) (ack : Bool) (tx : Sender) (level : Nat) (c : Nat × Bool)
    (hc : tx.calls[tx.index]? = some c) (hpc : tx.pc = 0) :
    sender_step w h ack tx level
      = ({ tx with pc := 1 }, gpio_apply level (data_write_1 c.1 c.2)) := by
  simp only [sender_step, hc, hpc, if_true]

theorem sender_step_pc1 (w h : Nat) (ack : Bool) (tx : Sender) (level : Nat) (c : Nat × Bool)
    (hc : tx.calls[tx.index]? = some c) (hpc : tx.pc = 1) :
    sender_step w h ack tx level
      = ({ tx with pc := 2 }, gpio_apply level (data_write_2 c.1 c.2)) := by
  simp only [sender_step, hc, hpc, if_true, if_false, one_ne_zero]

theorem sender_step_pc2 (w h : Nat) (ack : Bool) (tx : Sender) (level : Nat) (c : Nat × Bool)
    (hc : tx.calls[tx.index]? = some c) (hpc : tx.pc = 2) :
    sender_step w h ack tx level
      = ({ tx with pc := if c.2 then 3 else 4, request := !tx.request },
          gpio_apply level (request_write tx.request)) := by
  simp only [sender_step, hc, hpc]
  rfl

theorem sender_step_pc3 (w h : Nat) (ack : Bool) (tx : Sender) (level : Nat) (c : Nat × Bool)
    (hc : tx.calls[tx.index]? = some c) (hpc : tx.pc = 3) :
    sender_step w h ack tx level = ({ tx with pc := 4 }, level) := by
  simp only [sender_step, hc, hpc]
  rfl

theorem sender_step_pass (w h : Nat) (ack : Bool) (tx : Sender) (level : Nat) (c : Nat × Bool)
    (hc : tx.calls[tx.index]? = some c) (hpc : 4 ≤ tx.pc) (hack : ack = tx.acknowledge) :
    sender_step w h ack tx level
      = ({ tx with pc := 0, index := tx.index + 1, acknowledge := !tx.acknowledge }, level) := by
  simp only [sender_step, hc]
  rw [if_neg (by omega), if_neg (by omega), if_neg (by omega), if_neg (by omega), if_pos hack]

theorem sender_step_wait (w h : Nat) (ack : Bool) (tx : Sender) (level : Nat) (c : Nat × Bool)
    (hc : tx.calls[tx.index]? = some c) (hpc : 4 ≤ tx.pc) (hack : ack ≠ tx.acknowledge) :
    sender_step w h ack tx level = (tx, level) := by
  simp only [sender_step, hc]
  rw [if_neg (by omega), if_neg (by omega), if_neg (by omega), if_neg (by omega), if_neg hack]

/-! ### The receiver side of the handshake -/

theorem recvAt_parity (fs j : Nat) (m : Mcu) (he : fs % 2 = 0) (h : RecvAt fs j m) :
    request_bit m.acknowledge = j % 2 := by
  rcases h with ⟨h1, _, h3⟩ | ⟨_, _, _, _, h5⟩ | ⟨h1, _, h3⟩ | ⟨h1, _, h3⟩
  · rw [h3, h1]; rfl
  · exact h5
  · rw [h3, h1]; simp only [request_bit, if_true]; omega
  · rw [h3, h1]; simp only [request_bit, Bool.false_eq_true, if_false]; omega

theorem recvAt_isr (fs j : Nat) (m : Mcu) (h : RecvAt fs j m) : RecvAt fs j (isr fs m) := by
  unfold RecvAt at h ⊢
  rw [isr_read_state, isr_acknowledge, isr_read_index]
  exact h

theorem times_out_false (r : Bool) (m : Mcu) (h : times_out r m = false) :
    (m.read_state = 2 → request_bit r = m.read_index % 2 →
      ¬ (m.frame_tick + 256 - m.previous_frame_tick) % 256 > 8) ∧
    (m.read_state = 3 → request_bit r = 1 →
      ¬ (m.frame_tick + 256 - m.previous_frame_tick) % 256 > 8) := by
  simp only [times_out, Bool.or_eq_false_iff, Bool.and_eq_false_iff, decide_eq_false_iff_not] at h
  constructor
  · intro h1 h2 h3
    rcases h.1 with (h4 | h4) | h4
    · exact h4 h1
    · exact h4 h2
    · exact h4 h3
  · intro h1 h2 h3
    rcases h.2 with (h4 | h4) | h4
    · exact h4 h1
    · exact h4 h2
    · exact h4 h3

/-- With the request line at the parity of the bytes already accepted and no timeout, a
receiver iteration changes nothing. -/
theorem recv_stays (fs j : Nat) (m : Mcu) (r : Bool) (p : Nat) (he : fs % 2 = 0)
    (h : RecvAt fs j m) (hr : request_bit r = j % 2) (hno : times_out r m = false) :
    loop_iteration fs r p m = m := by
  obtain ⟨t2, t3⟩ := times_out_false r m hno
  rcases h with ⟨h1, h2, _⟩ | ⟨_, _, h3, h4, _⟩ | ⟨h1, h2, _⟩ | ⟨h1, h2, _⟩
  · exact loop_idle_low fs r p m h2 (by omega)
  · exact loop_read_wait fs r p m h3 (by omega) (t2 h3 (by omega))
  · exact loop_post_wait fs r p m h2 (by omega) (t3 h2 (by omega))
  · exact loop_idle_low fs r p m h2 (by omega)

/-- With the request line flipped for byte `j` (`j ≤ fs`), a receiver iteration either finds
the ring full in state 0 and moves to state 1, or stores the data port at index `j` of the
slot `write` and has then accepted `j + 1` bytes. -/
theorem recv_accepts (fs j : Nat) (m : Mcu) (r : Bool) (p : Nat) (he : fs % 2 = 0)
    (h1 : 1 ≤ fs) (h2 : fs < 65536) (hj : j ≤ fs)
    (h : RecvAt fs j m) (hr : request_bit r = (j + 1) % 2) :
    (j = 0 ∧ m.write = m.read ∧ loop_iteration fs r p m = { m with read_state := 1 }) ∨
    (RecvAt fs (j + 1) (loop_iteration fs r p m) ∧
      (loop_iteration fs r p m).frame_buffer = store m.frame_buffer m.write j p ∧
      (loop_iteration fs r p m).write = (if j = fs then (m.write + 1) % 8 else m.write) ∧
      (loop_iteration fs r p m).read = m.read ∧
      (loop_iteration fs r p m).stores = m.stores ++ [(m.write, j, p)]) := by
  rcases h with ⟨h3, h4, _⟩ | ⟨h3, _, h5, h6, _⟩ | ⟨h3, _, _⟩ | ⟨h3, _, _⟩
  · by_cases hf : m.write = m.read
    · exact Or.inl ⟨h3, hf, loop_idle_full fs r p m h4 (by omega) hf⟩
    · right
      have hw : (if j = fs then (m.write + 1) % 8 else m.write) = m.write := if_neg (by omega)
      rw [loop_idle_accept fs r p m h4 (by omega) hf, hw, h3]
      exact ⟨Or.inr (Or.inl ⟨le_refl _, h1, rfl, rfl, rfl⟩), rfl, rfl, rfl, rfl⟩
  · right
    have hflip : request_bit r ≠ m.read_index % 2 := by omega
    by_cases hlt : m.read_index < fs
    · have hw : (if j = fs then (m.write + 1) % 8 else m.write) = m.write := if_neg (by omega)
      rw [loop_read_next fs r p m h5 hflip hlt, hw]
      have hwrap : (m.read_index + 1) % 65536 = j + 1 := by omega
      refine ⟨Or.inr (Or.inl ⟨by omega, by omega, h5, hwrap, ?_⟩), by rw [h6], rfl, rfl,
        by rw [h6]⟩
      show request_bit (if m.read_index % 2 = 1 then false else true) = (j + 1) % 2
      split_ifs with hpar
      · simp only [request_bit, Bool.false_eq_true, if_false]; omega
      · simp only [request_bit, if_true]; omega
    · have hjfs : j = fs := by omega
      have hw : (if j = fs then (m.write + 1) % 8 else m.write) = (m.write + 1) % 8 :=
        if_pos hjfs
      rw [loop_read_commit fs r p m h5 hflip hlt, hw]
      refine ⟨Or.inr (Or.inr (Or.inl ⟨by omega, rfl, ?_⟩)), by rw [h6], rfl, rfl, by rw [h6]⟩
      show (if m.read_index % 2 = 1 then false else true) = true
      rw [if_neg (by omega)]
  · omega
  · omega

/-- The request de-assertion after the last payload byte ends the frame. -/
theorem recv_finishes (fs : Nat) (m : Mcu) (r : Bool) (p : Nat) (he : fs % 2 = 0)
    (h : RecvAt fs (fs + 1) m) (hr : request_bit r = 0) :
    RecvAt fs (fs + 2) (loop_iteration fs r p m) ∧
    (loop_iteration fs r p m).frame_buffer = m.frame_buffer ∧
    (loop_iteration fs r p m).write = m.write ∧
    (loop_iteration fs r p m).read = m.read ∧
    (loop_iteration fs r p m).stores = m.stores := by
  rcases h with ⟨h3, _, _⟩ | ⟨_, h3, _⟩ | ⟨_, h4, _⟩ | ⟨h3, _, _⟩
  · omega
  · omega
  · rw [loop_post_done fs r p m h4 hr]
    exact ⟨Or.inr (Or.inr (Or.inr ⟨rfl, rfl, rfl⟩)), rfl, rfl, rfl, rfl⟩
  · omega

/-- In state 1 the receiver waits for a free slot and then accepts the duty byte. -/
theorem recv_waits_for_space (fs : Nat) (m : Mcu) (r : Bool) (p : Nat) (h1 : 1 ≤ fs)
    (hs : m.read_state = 1) :
    (m.write = m.read ∧ loop_iteration fs r p m = m) ∨
    (RecvAt fs 1 (loop_iteration fs r p m) ∧
      (loop_iteration fs r p m).frame_buffer = store m.frame_buffer m.write 0 p ∧
      (loop_iteration fs r p m).write = m.write ∧
      (loop_iteration fs r p m).read = m.read ∧
      (loop_iteration fs r p m).stores = m.stores ++ [(m.write, 0, p)]) := by
  by_cases hf : m.write = m.read
  · exact Or.inl ⟨hf, loop_wait_full fs r p m hs hf⟩
  · right
    rw [loop_wait_accept fs r p m hs hf]
    exact ⟨Or.inr (Or.inl ⟨le_refl _, h1, rfl, rfl, rfl⟩), rfl, rfl, rfl, rfl⟩

/-! ### The handshake invariant, step by step -/

theorem ctl_tick (fs w h : Nat) (s : Sys) (hc : Ctl fs s) :
    Ctl fs (sys_step fs w h s Action.tick) := by
  obtain ⟨hq, hc⟩ := hc
  refine ⟨hq, ?_⟩
  rcases hc with ⟨h1, h2, h3, h4⟩ | ⟨c, hin, hc⟩
  · left
    exact ⟨h1, h2, by show (isr fs s.mcu).read_state = 0; rw [isr_read_state]; exact h3,
      by show (isr fs s.mcu).acknowledge = false; rw [isr_acknowledge]; exact h4⟩
  · right
    refine ⟨c, hin, ?_⟩
    rcases hc with ⟨e1, e2, e3, e4, e5, e6⟩ | ⟨l1, l2, l3, l4, l5⟩
    · left
      exact ⟨e1, e2, e3, recvAt_isr fs _ _ e4, e5, e6⟩
    · right
      refine ⟨l1, l2, l3, l4, ?_⟩
      rcases l5 with l5 | l5 | ⟨l5, l6, l7⟩
      · exact Or.inl (recvAt_isr fs _ _ l5)
      · exact Or.inr (Or.inl (recvAt_isr fs _ _ l5))
      · refine Or.inr (Or.inr ⟨l5, ?_, ?_⟩)
        · show (isr fs s.mcu).read_state = 1
          rw [isr_read_state]; exact l6
        · show (isr fs s.mcu).acknowledge = false
          rw [isr_acknowledge]; exact l7

theorem sys_step_sender (fs w h : Nat) (s : Sys) (tx : Sender) (level : Nat)
    (e : sender_step w h s.mcu.acknowledge s.tx s.level = (tx, level)) :
    sys_step fs w h s Action.sender = { s with tx := tx, level := level } := by
  simp only [sys_step, e]

theorem request_bit_not (b : Bool) : request_bit (!b) = (request_bit b + 1) % 2 := by
  cases b <;> rfl

/-- A transmitter step under the handshake invariant: the invariant is kept, the
microcontroller is untouched, and the transmitter either stays in its call, or completes it
(the receiver having accepted its byte), or starts the next `send` from rest. -/
theorem ctl_sender (fs w h : Nat) (hw : 1 ≤ w) (hwh : w * h ≤ 255) (hfs : fs = 64 * w * h)
    (s : Sys) (hc : Ctl fs s) :
    Ctl fs (sys_step fs w h s Action.sender) ∧
    (sys_step fs w h s Action.sender).mcu = s.mcu ∧
    ((sys_step fs w h s Action.sender).tx.index = s.tx.index ∧
        (sys_step fs w h s Action.sender).tx.calls = s.tx.calls ∧
        (sys_step fs w h s Action.sender).tx.queue = s.tx.queue ∨
      (sys_step fs w h s Action.sender).tx.index = s.tx.index + 1 ∧
        (sys_step fs w h s Action.sender).tx.calls = s.tx.calls ∧
        (sys_step fs w h s Action.sender).tx.queue = s.tx.queue ∧
        s.tx.index < fs + 2 ∧ RecvAt fs (s.tx.index + 1) s.mcu ∨
      ∃ frame rest, Quiet s ∧ s.tx.queue = frame :: rest ∧
        (sys_step fs w h s Action.sender).tx.index = 0 ∧
        (sys_step fs w h s Action.sender).tx.calls = calls_of w h frame ∧
        (sys_step fs w h s Action.sender).tx.queue = rest) := by
  have he : fs % 2 = 0 := by
    have : 64 * w * h = 2 * (32 * w * h) := by ring
    omega
  obtain ⟨hq, hc⟩ := hc
  rcases hc with ⟨h1, h2, h3, h4⟩ | ⟨c, ⟨hv, hcall, hack⟩, hc⟩
  · -- no send in progress
    have hnone : s.tx.calls[s.tx.index]? = none := List.getElem?_eq_none (by omega)
    cases hqueue : s.tx.queue with
    | nil =>
      rw [sys_step_sender fs w h s _ _ (sender_step_finished w h _ _ _ hnone hqueue)]
      exact ⟨⟨hq, Or.inl ⟨h1, h2, h3, h4⟩⟩, rfl, Or.inl ⟨rfl, rfl, hqueue⟩⟩
    | cons frame rest =>
      have hf := hq frame (by rw [hqueue]; exact List.mem_cons_self _ _)
      have hlen : frame.length = 64 * w * h + 1 := by rw [hf.1, hfs]
      obtain ⟨hret, _⟩ := calls_of_eq w h frame hw hwh hlen
      have hvalid := calls_of_valid w h frame hw hwh hlen hf.2
      rw [← hfs] at hvalid
      rw [sys_step_sender fs w h s _ _ (sender_step_load w h _ _ _ frame rest hnone hqueue hret)]
      refine ⟨⟨?_, Or.inr ?_⟩, rfl, Or.inr (Or.inr ⟨frame, rest, ⟨h1, h2, h3, h4⟩, rfl, rfl, rfl, rfl⟩)⟩
      · intro f hf'
        exact hq f (by rw [hqueue]; exact List.mem_cons_of_mem _ hf')
      · have hlen2 : 0 < (calls_of w h frame).length := by rw [hvalid.1]; omega
        refine ⟨(calls_of w h frame)[0], ⟨hvalid, List.getElem?_eq_getElem hlen2, rfl⟩, Or.inl ?_⟩
        refine ⟨Nat.zero_le _, rfl, ?_, Or.inl ⟨rfl, h3, h4⟩, ?_, ?_⟩
        · show request_bit (request_line s.level) = 0 % 2
          rw [h2]; rfl
        · intro hpc; exact absurd hpc (by show ¬ ((0 : Nat) = _); decide)
        · intro hpc; exact absurd hpc (by show ¬ ((0 : Nat) = _); decide)
  · -- a send is in progress
    have hidx : s.tx.index < fs + 2 := by
      have := (List.getElem?_eq_some.1 hcall).1
      rw [hv.1] at this
      exact this
    have hbyte := (hv.2 _ c hcall).1
    rcases hc with ⟨e1, e2, e3, e4, e5, e6⟩ | ⟨l1, l2, l3, l4, l5⟩
    · by_cases hpc0 : s.tx.pc = 0
      · rw [sys_step_sender fs w h s _ _ (sender_step_pc0 w h _ _ _ c hcall hpc0)]
        obtain ⟨hhalf, hreq⟩ := data_write_1_half c s.level hbyte
        refine ⟨⟨hq, Or.inr ⟨c, ⟨hv, hcall, hack⟩, Or.inl ?_⟩⟩, rfl, Or.inl ⟨rfl, rfl, rfl⟩⟩
        refine ⟨by show 1 ≤ 2; decide, e2, ?_, e4, fun _ => hhalf, ?_⟩
        · show request_bit (request_line (gpio_apply s.level _)) = s.tx.index % 2
          rw [hreq]; exact e3
        · intro hpc; exact absurd hpc (by show ¬ ((1 : Nat) = _); decide)
      · by_cases hpc1 : s.tx.pc = 1
        · rw [sys_step_sender fs w h s _ _ (sender_step_pc1 w h _ _ _ c hcall hpc1)]
          obtain ⟨hwire, hreq⟩ := data_write_2_wire c s.level hbyte (e5 hpc1)
          refine ⟨⟨hq, Or.inr ⟨c, ⟨hv, hcall, hack⟩, Or.inl ?_⟩⟩, rfl, Or.inl ⟨rfl, rfl, rfl⟩⟩
          refine ⟨le_refl _, e2, ?_, e4, ?_, fun _ => hwire⟩
          · show request_bit (request_line (gpio_apply s.level _)) = s.tx.index % 2
            rw [hreq]; exact e3
          · intro hpc; exact absurd hpc (by show ¬ ((2 : Nat) = _); decide)
        · have hpc2 : s.tx.pc = 2 := by omega
          rw [sys_step_sender fs w h s _ _ (sender_step_pc2 w h _ _ _ c hcall hpc2)]
          obtain ⟨hreq, hpind⟩ := request_write_lines s.tx.request s.level
          refine ⟨⟨hq, Or.inr ⟨c, ⟨hv, hcall, hack⟩, Or.inr ?_⟩⟩, rfl, Or.inl ⟨rfl, rfl, rfl⟩⟩
          refine ⟨?_, ?_, ?_, ?_, Or.inl e4⟩
          · show 3 ≤ (if c.2 = true then 3 else 4)
            split_ifs <;> decide
          · show request_bit (!s.tx.request) = s.tx.index % 2
            rw [request_bit_not, e2]; omega
          · show request_bit (request_line (gpio_apply s.level _)) = (s.tx.index + 1) % 2
            rw [hreq]; exact e2
          · show pind_of_level (gpio_apply s.level _) = wire c
            rw [hpind]; exact e6 hpc2
    · by_cases hpc3 : s.tx.pc = 3
      · rw [sys_step_sender fs w h s _ _ (sender_step_pc3 w h _ _ _ c hcall hpc3)]
        refine ⟨⟨hq, Or.inr ⟨c, ⟨hv, hcall, hack⟩, Or.inr ?_⟩⟩, rfl, Or.inl ⟨rfl, rfl, rfl⟩⟩
        exact ⟨by show 3 ≤ 4; decide, l2, l3, l4, l5⟩
      · have hpc4 : 4 ≤ s.tx.pc := by omega
        by_cases hackeq : s.mcu.acknowledge = s.tx.acknowledge
        · rw [sys_step_sender fs w h s _ _ (sender_step_pass w h _ _ _ c hcall hpc4 hackeq)]
          have hbit : request_bit s.mcu.acknowledge = (s.tx.index + 1) % 2 := by
            rw [hackeq]; exact hack
          have hnext : RecvAt fs (s.tx.index + 1) s.mcu := by
            rcases l5 with l5 | l5 | ⟨l5, _, l7⟩
            · have := recvAt_parity fs _ _ he l5
              omega
            · exact l5
            · rw [l7, l5] at hbit
              exact absurd hbit (by decide)
          refine ⟨⟨hq, ?_⟩, rfl, Or.inr (Or.inl ⟨rfl, rfl, rfl, hidx, hnext⟩)⟩
          by_cases hlast : s.tx.index + 1 = fs + 2
          · left
            rcases hnext with ⟨n1, _, _⟩ | ⟨_, n1, _⟩ | ⟨n1, _, _⟩ | ⟨_, n2, n3⟩
            · omega
            · omega
            · omega
            · refine ⟨?_, ?_, n2, n3⟩
              · show s.tx.calls.length ≤ s.tx.index + 1
                rw [hv.1]; omega
              · have : request_bit (request_line s.level) = 0 := by omega
                cases hrl : request_line s.level
                · rfl
                · rw [hrl] at this; exact absurd this (by decide)
          · right
            have hlen : s.tx.index + 1 < s.tx.calls.length := by rw [hv.1]; omega
            refine ⟨s.tx.calls[s.tx.index + 1], ⟨hv, List.getElem?_eq_getElem hlen, ?_⟩, Or.inl ?_⟩
            · show request_bit (!s.tx.acknowledge) = (s.tx.index + 1 + 1) % 2
              rw [request_bit_not, hack]; omega
            · refine ⟨Nat.zero_le _, ?_, ?_, hnext, ?_, ?_⟩
              · show request_bit s.tx.request = (s.tx.index + 1 + 1) % 2
                rw [l2]; omega
              · exact l3
              · intro hpc; exact absurd hpc (by show ¬ ((0 : Nat) = _); decide)
              · intro hpc; exact absurd hpc (by show ¬ ((0 : Nat) = _); decide)
        · rw [sys_step_sender fs w h s _ _ (sender_step_wait w h _ _ _ c hcall hpc4 hackeq)]
          exact ⟨⟨hq, Or.inr ⟨c, ⟨hv, hcall, hack⟩, Or.inr ⟨l1, l2, l3, l4, l5⟩⟩⟩, rfl,
            Or.inl ⟨rfl, rfl, rfl⟩⟩

theorem sys_step_receiver (fs w h : Nat) (s : Sys) :
    sys_step fs w h s Action.receiver
      = { s with mcu := loop_iteration fs (request_line s.level) (pind_of_level s.level) s.mcu } :=
  rfl

/-- A receiver iteration under the handshake invariant, no timeout firing: the invariant is
kept and the iteration (A) changes nothing, or (B) finds the ring full and moves to state
1, or (C) accepts the byte of the current call, storing what the data port shows at the
index of the call in the slot `write`, or (D) ends the frame on the closing dummy byte. -/
theorem ctl_receiver (fs w h : Nat) (he : fs % 2 = 0) (h1 : 1 ≤ fs) (h2 : fs < 65536)
    (s : Sys) (hc : Ctl fs s) (hno : times_out (request_line s.level) s.mcu = false) :
    Ctl fs (sys_step fs w h s Action.receiver) ∧
    (sys_step fs w h s Action.receiver).tx = s.tx ∧
    (sys_step fs w h s Action.receiver).level = s.level ∧
    ((sys_step fs w h s Action.receiver).mcu = s.mcu ∨
      (s.mcu.read_state = 0 ∧ s.tx.index = 0 ∧
        (sys_step fs w h s Action.receiver).mcu = { s.mcu with read_state := 1 }) ∨
      (∃ c, s.tx.calls[s.tx.index]? = some c ∧ s.tx.index ≤ fs ∧
        (RecvAt fs s.tx.index s.mcu ∨ (s.tx.index = 0 ∧ s.mcu.read_state = 1)) ∧
        RecvAt fs (s.tx.index + 1) (sys_step fs w h s Action.receiver).mcu ∧
        (sys_step fs w h s Action.receiver).mcu.frame_buffer
          = store s.mcu.frame_buffer s.mcu.write s.tx.index (wire c) ∧
        (sys_step fs w h s Action.receiver).mcu.write
          = (if s.tx.index = fs then (s.mcu.write + 1) % 8 else s.mcu.write) ∧
        (sys_step fs w h s Action.receiver).mcu.read = s.mcu.read ∧
        (sys_step fs w h s Action.receiver).mcu.stores
          = s.mcu.stores ++ [(s.mcu.write, s.tx.index, wire c)]) ∨
      (s.tx.index = fs + 1 ∧ RecvAt fs (fs + 1) s.mcu ∧
        RecvAt fs (fs + 2) (sys_step fs w h s Action.receiver).mcu ∧
        (sys_step fs w h s Action.receiver).mcu.frame_buffer = s.mcu.frame_buffer ∧
        (sys_step fs w h s Action.receiver).mcu.write = s.mcu.write ∧
        (sys_step fs w h s Action.receiver).mcu.read = s.mcu.read ∧
        (sys_step fs w h s Action.receiver).mcu.stores = s.mcu.stores)) := by
  rw [sys_step_receiver]
  obtain ⟨hq, hc⟩ := hc
  have same : ∀ m' : Mcu, m' = s.mcu → ({ s with mcu := m' } : Sys) = s := by
    intro m' hm; rw [hm]
  rcases hc with ⟨q1, q2, q3, q4⟩ | ⟨c, ⟨hv, hcall, hack⟩, hc⟩
  · have hm := loop_idle_low fs (request_line s.level) (pind_of_level s.level) s.mcu q3
      (by rw [q2]; rfl)
    rw [same _ hm]
    exact ⟨⟨hq, Or.inl ⟨q1, q2, q3, q4⟩⟩, rfl, rfl, Or.inl rfl⟩
  · have hidx : s.tx.index < fs + 2 := by
      have := (List.getElem?_eq_some.1 hcall).1
      rw [hv.1] at this
      exact this
    rcases hc with ⟨e1, e2, e3, e4, e5, e6⟩ | ⟨l1, l2, l3, l4, l5⟩
    · have hm := recv_stays fs _ s.mcu (request_line s.level) (pind_of_level s.level) he e4 e3 hno
      rw [same _ hm]
      exact ⟨⟨hq, Or.inr ⟨c, ⟨hv, hcall, hack⟩, Or.inl ⟨e1, e2, e3, e4, e5, e6⟩⟩⟩, rfl, rfl,
        Or.inl rfl⟩
    · rcases l5 with l5 | l5 | ⟨l5, l6, l7⟩
      · by_cases hle : s.tx.index ≤ fs
        · rcases recv_accepts fs _ s.mcu (request_line s.level) (pind_of_level s.level)
            he h1 h2 hle l5 l3 with ⟨a1, a2, a3⟩ | ⟨a1, a2, a3, a4, a5⟩
          · -- ring full: state 1
            rw [a3]
            refine ⟨⟨hq, Or.inr ⟨c, ⟨hv, hcall, hack⟩, Or.inr ⟨l1, l2, l3, l4, ?_⟩⟩⟩, rfl, rfl,
              Or.inr (Or.inl ⟨?_, a1, rfl⟩)⟩
            · rcases l5 with ⟨_, _, b3⟩ | ⟨b1, _⟩ | ⟨b1, _⟩ | ⟨b1, _⟩
              · exact Or.inr (Or.inr ⟨a1, rfl, b3⟩)
              · omega
              · omega
              · omega
            · rcases l5 with ⟨_, b2, _⟩ | ⟨b1, _⟩ | ⟨b1, _⟩ | ⟨b1, _⟩
              · exact b2
              · omega
              · omega
              · omega
          · -- byte accepted
            have a2 := a2.trans (congrArg (store s.mcu.frame_buffer s.mcu.write s.tx.index) l4)
            have a5 := a5.trans
              (congrArg (fun v => s.mcu.stores ++ [(s.mcu.write, s.tx.index, v)]) l4)
            exact ⟨⟨hq, Or.inr ⟨c, ⟨hv, hcall, hack⟩, Or.inr ⟨l1, l2, l3, l4, Or.inr (Or.inl a1)⟩⟩⟩,
              rfl, rfl, Or.inr (Or.inr (Or.inl ⟨c, hcall, hle, Or.inl l5, a1, a2, a3, a4, a5⟩))⟩
        · have hlast : s.tx.index = fs + 1 := by omega
          rw [hlast] at l5 l3
          obtain ⟨f1, f2, f3, f4, f5⟩ := recv_finishes fs s.mcu (request_line s.level)
            (pind_of_level s.level) he l5 (by omega)
          refine ⟨⟨hq, Or.inr ⟨c, ⟨hv, hcall, hack⟩, Or.inr ⟨l1, l2, ?_, l4, Or.inr (Or.inl ?_)⟩⟩⟩,
            rfl, rfl, Or.inr (Or.inr (Or.inr ⟨hlast, l5, f1, f2, f3, f4, f5⟩))⟩
          · rw [hlast]; exact l3
          · rw [hlast]; exact f1
      · have hm := recv_stays fs _ s.mcu (request_line s.level) (pind_of_level s.level) he l5 l3 hno
        rw [same _ hm]
        exact ⟨⟨hq, Or.inr ⟨c, ⟨hv, hcall, hack⟩, Or.inr ⟨l1, l2, l3, l4, Or.inr (Or.inl l5)⟩⟩⟩,
          rfl, rfl, Or.inl rfl⟩
      · rcases recv_waits_for_space fs s.mcu (request_line s.level) (pind_of_level s.level)
          h1 l6 with ⟨_, a2⟩ | ⟨a1, a2, a3, a4, a5⟩
        · rw [same _ a2]
          exact ⟨⟨hq, Or.inr ⟨c, ⟨hv, hcall, hack⟩,
            Or.inr ⟨l1, l2, l3, l4, Or.inr (Or.inr ⟨l5, l6, l7⟩)⟩⟩⟩, rfl, rfl, Or.inl rfl⟩
        · have a2 := a2.trans (congrArg (store s.mcu.frame_buffer s.mcu.write 0) l4)
          have a5 := a5.trans (congrArg (fun v => s.mcu.stores ++ [(s.mcu.write, 0, v)]) l4)
          refine ⟨⟨hq, Or.inr ⟨c, ⟨hv, hcall, hack⟩, Or.inr ⟨l1, l2, l3, l4, Or.inr (Or.inl ?_)⟩⟩⟩,
            rfl, rfl,
            Or.inr (Or.inr (Or.inl ⟨c, hcall, by omega, Or.inr ⟨l5, l6⟩, ?_, ?_, ?_, a4, ?_⟩))⟩
          · rw [l5]; exact a1
          · rw [l5]; exact a1
          · rw [l5]; exact a2
          · rw [l5, if_neg (by omega)]; exact a3
          · rw [l5]; exact a5

/-! ### What the ring slot holds -/

theorem byte_at_store (fs : Nat) (fb : List (List Nat)) (slot index value slot' index' : Nat)
    (hlen : fb.length = 8) (hslots : ∀ sl ∈ fb, sl.length = fs + 1)
    (hslot : slot < 8) (hindex : index ≤ fs) :
    byte_at (store fb slot index value) slot' index'
      = if slot' = slot ∧ index' = index then value else byte_at fb slot' index' := by
  have hsl : (fb.getD slot []).length = fs + 1 := by
    apply hslots
    rw [List.getD_eq_getElem?_getD, List.getElem?_eq_getElem (by omega)]
    exact List.getElem_mem _
  unfold byte_at store
  simp only [List.getD_eq_getElem?_getD]
  by_cases hs : slot' = slot
  · subst hs
    rw [List.getElem?_set_self (by omega)]
    simp only [Option.getD_some, true_and]
    by_cases hi : index' = index
    · subst hi
      rw [if_pos rfl, List.getElem?_set_self (by simp only [List.getD_eq_getElem?_getD] at hsl; omega)]
      rfl
    · rw [if_neg hi, List.getElem?_set_ne (fun h => hi h.symm)]
  · rw [if_neg (fun h => hs h.1), List.getElem?_set_ne (fun h => hs h.symm)]

theorem getD_of_getElem? {α : Type} (l : List α) (i : Nat) (c d : α) (h : l[i]? = some c) :
    l.getD i d = c := by
  rw [List.getD_eq_getElem?_getD, h]; rfl

theorem frameData_tick (fs w h : Nat) (F : List Nat) (w0 : Nat) (s : Sys)
    (hd : FrameData fs w h F w0 s) : FrameData fs w h F w0 (sys_step fs w h s Action.tick) := by
  obtain ⟨hshape, hw0, hd⟩ := hd
  refine ⟨bufferShape_step fs s.mcu McuAction.tick hshape, hw0, ?_⟩
  simp only [sys_step, Accepted, Committed, isr_frame_buffer, isr_write, isr_read_state,
    isr_read_index]
  exact hd

theorem frameData_sender (fs w h : Nat) (hw : 1 ≤ w) (hwh : w * h ≤ 255) (hfs : fs = 64 * w * h)
    (F : List Nat) (w0 : Nat) (s : Sys) (hc : Ctl fs s) (hd : FrameData fs w h F w0 s) :
    FrameData fs w h F w0 (sys_step fs w h s Action.sender) := by
  obtain ⟨_, hmcu, hcases⟩ := ctl_sender fs w h hw hwh hfs s hc
  obtain ⟨hshape, hw0, hd⟩ := hd
  refine ⟨by rw [hmcu]; exact hshape, hw0, ?_⟩
  simp only [Accepted, Committed, hmcu] at hd ⊢
  rcases hcases with ⟨i1, i2, i3⟩ | ⟨i1, i2, i3, i4, i5⟩ | ⟨frame, rest, _, i2, i3, i4, i5⟩
  · rw [i1, i2, i3]; exact hd
  · rw [i1, i2, i3]
    rcases hd with ⟨d1, _⟩ | ⟨d1, d2, d3, d4, d5, d6⟩
    · -- no call in progress: nothing to complete
      exfalso
      obtain ⟨_, hc2⟩ := hc
      rcases hc2 with ⟨q1, _, q3, q4⟩ | ⟨c, ⟨hv, _, _⟩, _⟩
      · rcases i5 with ⟨n1, _⟩ | ⟨_, _, n1, _⟩ | ⟨_, n1, _⟩ | ⟨n1, _⟩ <;> omega
      · rw [d1] at hv
        have := hv.1
        simp at this
    · right
      refine ⟨d1, d2, ?_, ?_, ?_, ?_⟩
      · intro i hi hle
        by_cases hlt : i < s.tx.index
        · exact d3 i hlt hle
        · have hieq : i = s.tx.index := by omega
          rw [hieq] at hle ⊢
          apply d4 _ hle
          rcases i5 with ⟨n1, _⟩ | ⟨_, _, n1, n2, _⟩ | ⟨n1, n2, _⟩ | ⟨n1, _⟩
          · omega
          · exact Or.inl ⟨n1, n2⟩
          · exact Or.inr ⟨n2, by omega⟩
          · omega
      · intro hacc hle
        exfalso
        rcases i5 with ⟨n1, _⟩ | ⟨_, _, n1, n2, _⟩ | ⟨n1, n2, _⟩ | ⟨n1, n2, _⟩
        · omega
        · rcases hacc with ⟨a1, a2⟩ | ⟨a1, a2⟩ <;> omega
        · rcases hacc with ⟨a1, a2⟩ | ⟨a1, a2⟩ <;> omega
        · rcases hacc with ⟨a1, a2⟩ | ⟨a1, a2⟩ <;> omega
      · intro hcom
        apply d5
        rcases hcom with h3 | h3
        · exact Or.inl h3
        · rcases i5 with ⟨n1, _⟩ | ⟨_, n0, n1, n2, _⟩ | ⟨n1, n2, _⟩ | ⟨n1, n2, _⟩
          · omega
          · omega
          · exact Or.inl n2
          · exact Or.inr (by omega)
      · intro hcom
        apply d6
        intro hcom'
        apply hcom
        rcases hcom' with h3 | h3
        · exact Or.inl h3
        · exact Or.inr (by omega)
  · rw [i3, i4, i5]
    rcases hd with ⟨d1, d2, d3, d4⟩ | ⟨d1, d2, _⟩
    · right
      rw [d2] at i2
      obtain ⟨rfl, rfl⟩ := List.cons.inj i2
      obtain ⟨_, hc2⟩ := hc
      have hst : s.mcu.read_state = 0 := by
        rcases hc2 with ⟨_, _, q3, _⟩ | ⟨c, ⟨hv, _, _⟩, _⟩
        · exact q3
        · rw [d1] at hv
          have := hv.1
          simp at this
      refine ⟨rfl, rfl, ?_, ?_, ?_, ?_⟩
      · intro i hi; omega
      · intro hacc
        rcases hacc with ⟨a1, _⟩ | ⟨a1, _⟩ <;> omega
      · intro hcom
        rcases hcom with h3 | h3 <;> omega
      · intro _; exact d4
    · rw [d2] at i2
      exact absurd i2 (by simp)

theorem frameData_receiver (fs w h : Nat) (he : fs % 2 = 0) (h1 : 1 ≤ fs) (h2 : fs < 65536)
    (F : List Nat) (w0 : Nat) (s : Sys) (hc : Ctl fs s) (hd : FrameData fs w h F w0 s)
    (hno : times_out (request_line s.level) s.mcu = false) :
    FrameData fs w h F w0 (sys_step fs w h s Action.receiver) := by
  obtain ⟨_, htx, _, hcases⟩ := ctl_receiver fs w h he h1 h2 s hc hno
  have hshape' : BufferShape fs (sys_step fs w h s Action.receiver).mcu :=
    bufferShape_step fs s.mcu (McuAction.iteration _ _) hd.1
  obtain ⟨hshape, hw0, hd⟩ := hd
  refine ⟨hshape', hw0, ?_⟩
  simp only [Accepted, Committed, htx] at hd ⊢
  rcases hcases with hA | ⟨b1, b2, b3⟩ | ⟨c, c1, c2, c3, c4, c5, c6, _⟩ | ⟨f1, f2, f3, f4, f5, _⟩
  · rw [hA]; exact hd
  · rw [b3]
    rcases hd with ⟨d1, d2, d3, d4⟩ | ⟨d1, d2, d3, d4, d5, d6⟩
    · exact Or.inl ⟨d1, d2, d3, d4⟩
    · right
      refine ⟨d1, d2, d3, ?_, ?_, ?_⟩
      · intro hacc
        rcases hacc with ⟨a1, _⟩ | ⟨a1, _⟩
        · exact absurd a1 (by show ¬ ((1 : Nat) = 2); decide)
        · exact absurd a1 (by show ¬ ((1 : Nat) = 3); decide)
      · intro hcom
        apply d5
        rcases hcom with h3 | h3
        · exact absurd h3 (by show ¬ ((1 : Nat) = 3); decide)
        · exact Or.inr h3
      · intro hcom
        apply d6
        intro hcom'
        rcases hcom' with h3 | h3
        · omega
        · exact hcom (Or.inr h3)
  · rcases hd with ⟨d1, _⟩ | ⟨d1, d2, d3, d4, d5, d6⟩
    · rw [d1] at c1
      simp at c1
    · right
      have hpre : ¬ (s.mcu.read_state = 3 ∨ fs + 1 ≤ s.tx.index) := by
        rintro (h3 | h3)
        · rcases c3 with c3 | ⟨_, c3⟩
          · rcases c3 with ⟨_, n1, _⟩ | ⟨_, _, n1, _⟩ | ⟨n1, _⟩ | ⟨n1, _⟩ <;> omega
          · omega
        · omega
      have hw : s.mcu.write = w0 := d6 hpre
      have hcget : (calls_of w h F).getD s.tx.index (0, false) = c := by
        rw [← d1]; exact getD_of_getElem? _ _ _ _ c1
      rw [c5, c6, hw]
      refine ⟨d1, d2, ?_, ?_, ?_, ?_⟩
      · intro i hi hle
        rw [byte_at_store fs _ _ _ _ _ _ hshape.1 hshape.2.1 hw0 c2, if_neg (by omega)]
        exact d3 i hi hle
      · intro _ _
        rw [byte_at_store fs _ _ _ _ _ _ hshape.1 hshape.2.1 hw0 c2, if_pos ⟨rfl, rfl⟩, hcget]
      · intro hcom
        have hfs : s.tx.index = fs := by
          rcases hcom with h3 | h3
          · rcases c4 with ⟨n1, _⟩ | ⟨_, _, n1, _⟩ | ⟨n1, _⟩ | ⟨_, n1, _⟩ <;> omega
          · omega
        rw [if_pos hfs]
      · intro hcom
        have hfs : s.tx.index ≠ fs := by
          intro hfs
          apply hcom
          left
          rcases c4 with ⟨n1, _⟩ | ⟨_, n0, _⟩ | ⟨_, n1, _⟩ | ⟨n1, _⟩
          · omega
          · omega
          · exact n1
          · omega
        rw [if_neg hfs]
  · rw [f4, f5]
    rcases hd with ⟨d1, d2, d3, d4⟩ | ⟨d1, d2, d3, d4, d5, d6⟩
    · omega
    · right
      refine ⟨d1, d2, d3, ?_, ?_, ?_⟩
      · intro _ hle; omega
      · intro _; exact d5 (Or.inr (by omega))
      · intro hcom; exact absurd (Or.inr (by omega)) hcom

/-- The composed system keeps the handshake invariant and the slot contents along every run
in which no receiver timeout fires. -/
theorem sync_run (fs w h : Nat) (hw : 1 ≤ w) (hh : 1 ≤ h) (hwh : w * h ≤ 255)
    (hfs : fs = 64 * w * h) (F : List Nat) (w0 : Nat) (acts : List Action) :
    ∀ s, Ctl fs s → FrameData fs w h F w0 s → no_timeout fs w h s acts = true →
      Ctl fs (sys_run fs w h s acts) ∧ FrameData fs w h F w0 (sys_run fs w h s acts) := by
  have he : fs % 2 = 0 := by
    have : 64 * w * h = 2 * (32 * w * h) := by ring
    omega
  have h1 : 1 ≤ fs := by
    have : 1 * 1 ≤ w * h := Nat.mul_le_mul hw hh
    have : 64 * w * h = 64 * (w * h) := by ring
    omega
  have h2 : fs < 65536 := by
    have : 64 * w * h = 64 * (w * h) := by ring
    omega
  induction acts with
  | nil => intro s hc hd _; exact ⟨hc, hd⟩
  | cons act acts ih =>
    intro s hc hd hno
    simp only [no_timeout, Bool.and_eq_true, Bool.or_eq_true, Bool.not_eq_true',
      decide_eq_false_iff_not] at hno
    simp only [sys_run, List.foldl_cons]
    cases act with
    | sender =>
      exact ih _ (ctl_sender fs w h hw hwh hfs s hc).1
        (frameData_sender fs w h hw hwh hfs F w0 s hc hd) hno.2
    | tick =>
      exact ih _ (ctl_tick fs w h s hc) (frameData_tick fs w h F w0 s hd) hno.2
    | receiver =>
      have hno1 : times_out (request_line s.level) s.mcu = false := by
        rcases hno.1 with h3 | h3
        · exact absurd rfl h3
        · exact h3
      exact ih _ (ctl_receiver fs w h he h1 h2 s hc hno1).1
        (frameData_receiver fs w h he h1 h2 F w0 s hc hd hno1) hno.2

/-! ## Runs of timer interrupts -/

theorem sys_run_append (fs w h : Nat) (s : Sys) (acts acts' : List Action) :
    sys_run fs w h s (acts ++ acts') = sys_run fs w h (sys_run fs w h s acts) acts' := by
  simp [sys_run, List.foldl_append]

theorem sys_run_ticks (fs w h : Nat) (n : Nat) :
    ∀ s : Sys, sys_run fs w h s (List.replicate n Action.tick)
      = { s with mcu := (isr fs)^[n] s.mcu } := by
  induction n with
  | zero => intro s; rfl
  | succ n ih =>
    intro s
    rw [List.replicate_succ, sys_run, List.foldl_cons, ← sys_run, ih, Function.iterate_succ]
    rfl

/-- The fields the handler never writes, after `n` interrupts. -/
theorem iterate_isr_fields (fs n : Nat) (m : Mcu) :
    ((isr fs)^[n] m).frame_buffer = m.frame_buffer ∧
    ((isr fs)^[n] m).write = m.write ∧
    ((isr fs)^[n] m).acknowledge = m.acknowledge ∧
    ((isr fs)^[n] m).read_state = m.read_state ∧
    ((isr fs)^[n] m).read_index = m.read_index ∧
    ((isr fs)^[n] m).previous_frame_tick = m.previous_frame_tick ∧
    ((isr fs)^[n] m).stores = m.stores := by
  induction n generalizing m with
  | zero => exact ⟨rfl, rfl, rfl, rfl, rfl, rfl, rfl⟩
  | succ n ih =>
    rw [Function.iterate_succ, Function.comp_apply]
    obtain ⟨h1, h2, h3, h4, h5, h6, h7⟩ := ih (isr fs m)
    rw [h1, h2, h3, h4, h5, h6, h7, isr_frame_buffer, isr_write, isr_acknowledge,
      isr_read_state, isr_read_index, isr_previous_frame_tick, isr_stores]
    exact ⟨rfl, rfl, rfl, rfl, rfl, rfl, rfl⟩

/-- One interrupt advances the phase by one; the refresh tick counter and the read index
move exactly at phase 1023. -/
theorem isr_phase (fs : Nat) (hq : fs / 4 + 2 ≤ 255) (m : Mcu) (hc : m.count < 256)
    (hab : m.ab < 4) :
    (isr fs m).count < 256 ∧ (isr fs m).ab < 4 ∧
    phase fs (isr fs m) = (phase fs m + 1) % 1024 ∧
    (isr fs m).frame_tick
      = (if phase fs m = 1023 then (m.frame_tick + 1) % 256 else m.frame_tick) ∧
    (isr fs m).read
      = (if phase fs m = 1023 ∧ (m.read + 1) % 8 ≠ m.write then (m.read + 1) % 8
         else m.read) := by
  unfold phase
  rw [isr_count_eq, isr_ab, isr_frame_tick, isr_read]
  refine ⟨by omega, by split_ifs <;> omega, by split_ifs <;> omega, ?_, ?_⟩
  · split_ifs <;> first | rfl | omega
  · split_ifs <;> first | rfl | omega

/-- The refresh tick counter after `n` interrupts. -/
theorem iterate_isr_frame_tick (fs : Nat) (hq : fs / 4 + 2 ≤ 255) (n : Nat) :
    ∀ m : Mcu, m.count < 256 → m.ab < 4 →
      ((isr fs)^[n] m).frame_tick % 256 = (m.frame_tick + (phase fs m + n) / 1024) % 256 := by
  induction n with
  | zero =>
    intro m hc hab
    have : phase fs m < 1024 := by unfold phase; omega
    simp only [Function.iterate_zero, id_eq, Nat.add_zero]
    omega
  | succ n ih =>
    intro m hc hab
    obtain ⟨h1, h2, h3, h4, _⟩ := isr_phase fs hq m hc hab
    have hp : phase fs m < 1024 := by unfold phase; omega
    rw [Function.iterate_succ, Function.comp_apply, ih (isr fs m) h1 h2, h3, h4]
    split_ifs <;> omega

/-- The number of pending frames after `n` interrupts: one less for each passage of the
phase through 1023, down to zero. -/
theorem iterate_isr_pending (fs : Nat) (hq : fs / 4 + 2 ≤ 255) (n : Nat) :
    ∀ m : Mcu, m.count < 256 → m.ab < 4 → m.read < 8 → m.write < 8 →
      ((isr fs)^[n] m).read < 8 ∧
      pending ((isr fs)^[n] m) = pending m - (phase fs m + n) / 1024 := by
  induction n with
  | zero =>
    intro m hc hab hr hw
    have : phase fs m < 1024 := by unfold phase; omega
    simp only [Function.iterate_zero, id_eq, Nat.add_zero]
    exact ⟨hr, by omega⟩
  | succ n ih =>
    intro m hc hab hr hw
    obtain ⟨h1, h2, h3, _, h5⟩ := isr_phase fs hq m hc hab
    have hp : phase fs m < 1024 := by unfold phase; omega
    have hr' : (isr fs m).read < 8 := by rw [h5]; split_ifs <;> omega
    have hw' : (isr fs m).write = m.write := isr_write fs m
    obtain ⟨i1, i2⟩ := ih (isr fs m) h1 h2 hr' (by rw [hw']; exact hw)
    rw [Function.iterate_succ, Function.comp_apply]
    refine ⟨i1, ?_⟩
    rw [i2, h3]
    unfold pending
    rw [hw', h5]
    split_ifs <;> omega

/-! ## The receiver loop does not see the scan engine -/

theorem scan_reset_loop_iteration (fs : Nat) (r : Bool) (p : Nat) (m : Mcu) :
    scan_reset (loop_iteration fs r p m) = loop_iteration fs r p (scan_reset m) := by
  simp only [loop_iteration, scan_reset, accept_duty]
  split_ifs <;> rfl

theorem sys_reset_step (fs w h : Nat) (s : Sys) (act : Action) (hact : act ≠ Action.tick) :
    sys_reset (sys_step fs w h s act) = sys_step fs w h (sys_reset s) act := by
  cases act with
  | sender => rfl
  | receiver =>
    show ({ s with mcu := scan_reset (loop_iteration fs _ _ s.mcu) } : Sys) = _
    rw [scan_reset_loop_iteration]
    rfl
  | tick => exact absurd rfl hact

theorem sys_reset_run (fs w h : Nat) (acts : List Action) (hacts : ∀ a ∈ acts, a ≠ Action.tick) :
    ∀ s : Sys, sys_reset (sys_run fs w h s acts) = sys_run fs w h (sys_reset s) acts := by
  induction acts with
  | nil => intro s; rfl
  | cons a acts ih =>
    intro s
    rw [sys_run, List.foldl_cons, ← sys_run, ih (fun b hb => hacts b (List.mem_cons_of_mem _ hb)),
      sys_reset_step fs w h s a (hacts a (List.mem_cons_self _ _))]
    rfl

theorem lockstep_tick_free (n : Nat) : ∀ a ∈ lockstep n, a ≠ Action.tick := by
  intro a ha
  simp only [lockstep, List.mem_flatten, List.mem_replicate] at ha
  obtain ⟨l, ⟨_, hl⟩, hal⟩ := ha
  rw [hl] at hal
  simp only [List.mem_cons, List.mem_singleton, List.not_mem_nil, or_false] at hal
  rcases hal with rfl | rfl <;> decide

/-- The refresh tick counter after `n` interrupts, exactly. -/
theorem iterate_isr_frame_tick_lt (fs : Nat) (n : Nat) :
    ∀ m : Mcu, m.frame_tick < 256 → ((isr fs)^[n] m).frame_tick < 256 := by
  induction n with
  | zero => intro m hm; exact hm
  | succ n ih =>
    intro m hm
    rw [Function.iterate_succ, Function.comp_apply]
    apply ih
    rw [isr_frame_tick]
    split_ifs <;> omega

/-- With no frame pending, `n` interrupts leave the microcontroller as it was up to the
variables of the scan engine and the refresh tick counter. -/
theorem scan_reset_ticks (fs : Nat) (hq : fs / 4 + 2 ≤ 255) (n : Nat) (m : Mcu)
    (hc : m.count < 256) (hab : m.ab < 4) (hr : m.read < 8) (hw : m.write < 8)
    (hft : m.frame_tick < 256) (hp : pending m = 0) :
    scan_reset ((isr fs)^[n] m)
      = { scan_reset m with frame_tick := (m.frame_tick + (phase fs m + n) / 1024) % 256 } := by
  obtain ⟨f1, f2, f3, f4, f5, f6, f7⟩ := iterate_isr_fields fs n m
  have g1 := iterate_isr_frame_tick fs hq n m hc hab
  have g2 := iterate_isr_frame_tick_lt fs n m hft
  obtain ⟨g3, g4⟩ := iterate_isr_pending fs hq n m hc hab hr hw
  have hread : ((isr fs)^[n] m).read = m.read := by
    unfold pending at g4 hp
    rw [f2] at g4
    omega
  have hftk : ((isr fs)^[n] m).frame_tick = (m.frame_tick + (phase fs m + n) / 1024) % 256 := by
    omega
  generalize (isr fs)^[n] m = M at *
  cases M
  cases m
  simp only [scan_reset] at *
  simp only [Mcu.mk.injEq]
  simp only [and_true, true_and]
  exact ⟨f1, hread, f2, hftk, f3, f4, f5, f6, f7⟩

theorem sys_reset_ticks (fs : Nat) (hq : fs / 4 + 2 ≤ 255) (n ft : Nat) (s : Sys)
    (hc : s.mcu.count < 256) (hab : s.mcu.ab < 4) (hr : s.mcu.read < 8) (hw : s.mcu.write < 8)
    (hft : s.mcu.frame_tick < 256) (hp : pending s.mcu = 0)
    (hn : (s.mcu.frame_tick + (phase fs s.mcu + n) / 1024) % 256 = ft) :
    sys_reset { s with mcu := (isr fs)^[n] s.mcu }
      = { sys_reset s with mcu := { scan_reset s.mcu with frame_tick := ft } } := by
  show ({ s with mcu := scan_reset ((isr fs)^[n] s.mcu) } : Sys) = _
  rw [scan_reset_ticks fs hq n _ hc hab hr hw hft hp, hn]
  rfl

theorem sys_reset_tx (s : Sys) : (sys_reset s).tx = s.tx := rfl

theorem sys_reset_read_state (s : Sys) :
    (sys_reset s).mcu.read_state = s.mcu.read_state := rfl

theorem sys_reset_stores (s : Sys) : (sys_reset s).mcu.stores = s.mcu.stores := rfl

theorem sys_reset_write (s : Sys) : (sys_reset s).mcu.write = s.mcu.write := rfl

theorem sys_reset_frame_buffer (s : Sys) :
    (sys_reset s).mcu.frame_buffer = s.mcu.frame_buffer := rfl

set_option maxRecDepth 100000 in
theorem stall_before_ticks :
    (sys_run 64 1 1 scenario_start (lockstep 12)).mcu.count < 256 ∧
    (sys_run 64 1 1 scenario_start (lockstep 12)).mcu.ab < 4 ∧
    (sys_run 64 1 1 scenario_start (lockstep 12)).mcu.read < 8 ∧
    (sys_run 64 1 1 scenario_start (lockstep 12)).mcu.write < 8 ∧
    (sys_run 64 1 1 scenario_start (lockstep 12)).mcu.frame_tick < 256 ∧
    pending (sys_run 64 1 1 scenario_start (lockstep 12)).mcu = 0 ∧
    ((sys_run 64 1 1 scenario_start (lockstep 12)).mcu.frame_tick
      + (phase 64 (sys_run 64 1 1 scenario_start (lockstep 12)).mcu + 8978) / 1024) % 256 = 9 := by
  decide

/-- The stall schedule, up to the variables of the scan engine: the run resumes from
`stall_resume` with a receiver iteration and the rest of the transfer. -/
theorem stall_run :
    sys_reset (sys_run 64 1 1 scenario_start stall_schedule)
      = sys_run 64 1 1 stall_resume ([Action.receiver] ++ lockstep 330) := by
  have htail : ∀ a ∈ [Action.receiver] ++ lockstep 330, a ≠ Action.tick := by
    intro a ha
    rcases List.mem_append.1 ha with ha | ha
    · rw [List.mem_singleton.1 ha]; decide
    · exact lockstep_tick_free 330 a ha
  obtain ⟨h1, h2, h3, h4, h5, h6, h7⟩ := stall_before_ticks
  unfold stall_schedule
  rw [List.append_assoc, sys_run_append, sys_reset_run 64 1 1 _ htail,
    sys_run_append 64 1 1 scenario_start (lockstep 12), sys_run_ticks]
  exact congrArg (fun s => sys_run 64 1 1 s ([Action.receiver] ++ lockstep 330))
    (sys_reset_ticks 64 (by decide) 8978 9 _ h1 h2 h3 h4 h5 h6 h7)

set_option maxRecDepth 1000000 in
theorem stall_tail :
    stays_in_range 64 1 1 stall_resume ([Action.receiver] ++ lockstep 330) = true ∧
    sender_done (sys_run 64 1 1 stall_resume ([Action.receiver] ++ lockstep 330)).tx = true ∧
    (sys_run 64 1 1 stall_resume ([Action.receiver] ++ lockstep 330)).mcu.write = 1 ∧
    byte_at (sys_run 64 1 1 stall_resume ([Action.receiver] ++ lockstep 330)).mcu.frame_buffer
      1 0 = 223 ∧
    times_out (request_line stall_resume.level) stall_resume.mcu = true ∧
    (sys_run 64 1 1 stall_resume ([Action.receiver] ++ lockstep 330)).mcu.read_state = 2 ∧
    (sys_run 64 1 1 stall_resume ([Action.receiver] ++ lockstep 330)).mcu.read_index = 64 := by
  decide

/-! ## End to end: one frame from the transmitter into the ring -/

theorem wire_calls (w h : Nat) (F : List Nat) (hw : 1 ≤ w) (hwh : w * h ≤ 255)
    (hlen : F.length = 64 * w * h + 1) :
    ((calls_of w h F).take (64 * w * h + 1)).map wire
      = F.getD 0 0 :: (transmission_order w h).map
          (fun t => 255 - F.getD (frame_index_of w h t) 0) := by
  rw [(calls_of_eq w h F hw hwh hlen).2, List.take_succ_cons]
  have hl : ((transmission_order w h).map
      (fun t => (F.getD (frame_index_of w h t) 0, false))).length = 64 * w * h := by
    rw [List.length_map, length_transmission_order]
  rw [List.take_append_of_le_length (by omega), List.take_of_length_le (by omega)]
  simp [wire, Function.comp_def]

/-- A slot whose bytes are those of the calls is the list of the wire values. -/
theorem slot_eq_of_bytes (fs : Nat) (fb : List (List Nat)) (w0 : Nat) (cs : List (Nat × Bool))
    (hlen : fb.length = 8) (hslots : ∀ sl ∈ fb, sl.length = fs + 1) (hw0 : w0 < 8)
    (hcs : cs.length = fs + 2)
    (hbytes : ∀ i, i ≤ fs → byte_at fb w0 i = wire (cs.getD i (0, false))) :
    fb.getD w0 [] = (cs.take (fs + 1)).map wire := by
  have hsl : (fb.getD w0 []).length = fs + 1 := by
    apply hslots
    rw [List.getD_eq_getElem?_getD, List.getElem?_eq_getElem (by omega)]
    exact List.getElem_mem _
  apply List.ext_getElem
  · rw [hsl, List.length_map, List.length_take, hcs]; omega
  · intro i hi1 hi2
    have hi : i ≤ fs := by omega
    have hb := hbytes i hi
    unfold byte_at at hb
    rw [List.getD_eq_getElem?_getD (fb.getD w0 []), List.getElem?_eq_getElem hi1,
      Option.getD_some] at hb
    rw [hb, List.getElem_map, List.getElem_take,
      List.getD_eq_getElem?_getD, List.getElem?_eq_getElem (by omega), Option.getD_some]

/-- C8, as amended: for a grid with `width, height ≥ 1`, `width * height ≤ 255` and a
receiver compiled with `frame_size = 64 * width * height`, data line `i` carrying bit `i`
of the receiver's data port: from any state at rest (request low, receiver idle with
acknowledge low), after any run in which `send` of the frame `F` has returned and no
receiver timeout has fired, the ring slot at the old write index holds `F[0]` at index 0
and, at index `1 + k`, the bitwise complement `255 - F[1 + m]` of the frame byte that
`send` transmitted `k`-th (`m` the mapped index of the `k`-th quadruple); `write` has
advanced by one and the receiver is idle again with acknowledge low. -/
theorem end_to_end_complemented (fs w h : Nat) (hw : 1 ≤ w) (hh : 1 ≤ h) (hwh : w * h ≤ 255)
    (hfs : fs = 64 * w * h) (F : List Nat) (hlen : F.length = fs + 1)
    (hbytes : ∀ b ∈ F, b < 256) (level0 : Nat) (m0 : Mcu)
    (hreq : request_line level0 = false) (hidle : m0.read_state = 0)
    (hack : m0.acknowledge = false) (hshape : BufferShape fs m0) (acts : List Action)
    (hno : no_timeout fs w h { tx := sender_start [F], level := level0, mcu := m0 } acts = true)
    (hdone : sender_done
      (sys_run fs w h { tx := sender_start [F], level := level0, mcu := m0 } acts).tx = true) :
    (sys_run fs w h { tx := sender_start [F], level := level0, mcu := m0 } acts).mcu.frame_buffer.getD
        m0.write []
      = F.getD 0 0 :: (transmission_order w h).map
          (fun t => 255 - F.getD (frame_index_of w h t) 0) ∧
    (sys_run fs w h { tx := sender_start [F], level := level0, mcu := m0 } acts).mcu.write
      = (m0.write + 1) % 8 ∧
    (sys_run fs w h { tx := sender_start [F], level := level0, mcu := m0 } acts).mcu.read_state
      = 0 ∧
    (sys_run fs w h { tx := sender_start [F], level := level0, mcu := m0 } acts).mcu.acknowledge
      = false := by
  have hlenF : F.length = 64 * w * h + 1 := by rw [hlen, hfs]
  have hctl0 : Ctl fs { tx := sender_start [F], level := level0, mcu := m0 } := by
    refine ⟨?_, Or.inl ⟨Nat.zero_le _, hreq, hidle, hack⟩⟩
    intro f hf
    simp only [sender_start, List.mem_singleton] at hf
    rw [hf]; exact ⟨hlen, hbytes⟩
  have hdata0 : FrameData fs w h F m0.write
      { tx := sender_start [F], level := level0, mcu := m0 } :=
    ⟨hshape, hshape.2.2.1, Or.inl ⟨rfl, rfl, rfl, rfl⟩⟩
  obtain ⟨hctl, hdata⟩ := sync_run fs w h hw hh hwh hfs F m0.write acts _ hctl0 hdata0 hno
  generalize sys_run fs w h { tx := sender_start [F], level := level0, mcu := m0 } acts = s
    at hctl hdata hdone
  simp only [sender_done, Bool.and_eq_true, decide_eq_true_eq] at hdone
  obtain ⟨hshapeS, hw0, hcases⟩ := hdata
  have hvalid := calls_of_valid w h F hw hwh hlenF hbytes
  rw [← hfs] at hvalid
  rcases hcases with ⟨_, d2, _⟩ | ⟨d1, _, d3, _, d5, _⟩
  · rw [hdone.2] at d2
    exact absurd d2 (by simp)
  · have hidx : fs + 2 ≤ s.tx.index := by
      have := hdone.1
      rw [d1, hvalid.1] at this
      exact this
    have hquiet : s.mcu.read_state = 0 ∧ s.mcu.acknowledge = false := by
      rcases hctl.2 with ⟨_, _, q3, q4⟩ | ⟨c, ⟨_, hcall, _⟩, _⟩
      · exact ⟨q3, q4⟩
      · have := (List.getElem?_eq_some.1 hcall).1
        omega
    refine ⟨?_, d5 (Or.inr (by omega)), hquiet.1, hquiet.2⟩
    rw [slot_eq_of_bytes fs s.mcu.frame_buffer m0.write (calls_of w h F) hshapeS.1
      hshapeS.2.1 hw0 hvalid.1 (fun i hi => d3 i (by omega) hi), hfs]
    exact wire_calls w h F hw hwh hlenF

set_option maxRecDepth 1000000 in
/-- The lockstep schedule carries the scenario frame across without a timeout. -/
theorem scenario_run_completes :
    no_timeout 64 1 1 scenario_start (lockstep 332) = true ∧
    sender_done (sys_run 64 1 1 scenario_start (lockstep 332)).tx = true := by
  decide

set_option maxRecDepth 100000 in
/-- Witness for C8 as amended: the scenario of the specification on a 1 by 1 grid. -/
theorem end_to_end_complemented_witness :
    (sys_run 64 1 1 scenario_start (lockstep 332)).mcu.frame_buffer.getD (power_up 64).write []
      = scenario_frame.getD 0 0 :: (transmission_order 1 1).map
          (fun t => 255 - scenario_frame.getD (frame_index_of 1 1 t) 0) ∧
    (sys_run 64 1 1 scenario_start (lockstep 332)).mcu.write = ((power_up 64).write + 1) % 8 ∧
    (sys_run 64 1 1 scenario_start (lockstep 332)).mcu.read_state = 0 ∧
    (sys_run 64 1 1 scenario_start (lockstep 332)).mcu.acknowledge = false :=
  end_to_end_complemented 64 1 1 (by decide) (by decide) (by decide) (by decide)
    scenario_frame (by decide) (by decide) 0 (power_up 64) (by decide) (by decide) (by decide)
    (bufferShape_power_up 64) (lockstep 332) scenario_run_completes.1 scenario_run_completes.2

set_option maxRecDepth 1000000 in
/-- C8 as stated fails in the scenario of the specification (1 by 1 grid, duty 255, payload
0..63, receiver at power-up).  In the schedule without any stall the send completes and the
slot holds 207, the complement of the transmitted byte 48, at index 1.  In the schedule
with a stall of nine refresh ticks inside the third `send_byte` the receiver times out,
the send still completes, and `write` has not advanced while the slot's index 0 holds 223
instead of the duty byte 255. -/
theorem end_to_end_identical_fails :
    (no_timeout 64 1 1 scenario_start (lockstep 332) = true ∧
      sender_done (sys_run 64 1 1 scenario_start (lockstep 332)).tx = true ∧
      byte_at (sys_run 64 1 1 scenario_start (lockstep 332)).mcu.frame_buffer
        scenario_start.mcu.write 1 = 207 ∧
      scenario_frame.getD (frame_index_of 1 1 (0, 0, 0, 0)) 0 = 48) ∧
    (sender_done (sys_run 64 1 1 scenario_start stall_schedule).tx = true ∧
      (sys_run 64 1 1 scenario_start stall_schedule).mcu.write = scenario_start.mcu.write ∧
      byte_at (sys_run 64 1 1 scenario_start stall_schedule).mcu.frame_buffer
        scenario_start.mcu.write 0 = 223 ∧
      scenario_frame.getD 0 0 = 255) := by
  refine ⟨by decide, ?_⟩
  have e := stall_tail
  rw [← stall_run, sys_reset_tx, sys_reset_write, sys_reset_frame_buffer] at e
  exact ⟨e.2.1, e.2.2.1, e.2.2.2.1, rfl⟩

/-! ## Warm-up: all-zero frames from power-up -/

theorem power_up_duty (fs slot : Nat) : byte_at (power_up fs).frame_buffer slot 0 = 0 := by
  simp only [byte_at, power_up, List.getD_eq_getElem?_getD, List.getElem?_replicate]
  split_ifs <;> simp

theorem set_same {α : Type} (l : List α) (i : Nat) (v : α) (h : ∀ hi : i < l.length, l[i] = v) :
    l.set i v = l := by
  apply List.ext_getElem
  · rw [List.length_set]
  · intro j h1 h2
    rw [List.getElem_set]
    split_ifs with hij
    · subst hij; exact (h h2).symm
    · rfl

/-- Storing the wire value of a byte of an all-zero frame leaves the power-up contents. -/
theorem store_power_up (fs slot index : Nat) (hi : index ≤ fs) :
    store (power_up fs).frame_buffer slot index (if index = 0 then 0 else 255)
      = (power_up fs).frame_buffer := by
  unfold store
  apply set_same
  intro hslot
  have hlt : slot < 8 := by simpa [power_up] using hslot
  have hrow : (power_up fs).frame_buffer.getD slot [] = 0 :: List.replicate fs 255 := by
    simp only [power_up, List.getD_eq_getElem?_getD, List.getElem?_replicate, if_pos hlt]
    rfl
  have hrow2 : (power_up fs).frame_buffer[slot] = 0 :: List.replicate fs 255 := by
    simp only [power_up, List.getElem_replicate]
  rw [hrow, hrow2]
  symm
  apply set_same
  intro hindex
  cases index with
  | zero => rfl
  | succ k =>
    simp only [List.getElem_cons_succ, List.getElem_replicate]
    rfl

theorem zero_frame_getD (w h i : Nat) : (zero_frame w h).getD i 0 = 0 := by
  simp only [zero_frame, List.getD_eq_getElem?_getD, List.getElem?_replicate]
  split_ifs <;> rfl

theorem zero_frame_valid (fs w h : Nat) (hfs : fs = 64 * w * h) :
    (zero_frame w h).length = fs + 1 ∧ ∀ b ∈ zero_frame w h, b < 256 := by
  refine ⟨by rw [hfs]; simp [zero_frame], ?_⟩
  intro b hb
  simp only [zero_frame, List.mem_replicate] at hb
  omega

/-- What the data port shows for the calls of `send` of an all-zero frame: 0 for the duty
byte, 255 for every other byte. -/
theorem wire_zero_frame (w h : Nat) (hw : 1 ≤ w) (hwh : w * h ≤ 255) (i : Nat) (c : Nat × Bool)
    (hc : (calls_of w h (zero_frame w h))[i]? = some c) :
    wire c = if i = 0 then 0 else 255 := by
  rw [(calls_of_eq w h (zero_frame w h) hw hwh (by simp [zero_frame])).2] at hc
  cases i with
  | zero =>
    simp only [List.getElem?_cons_zero, Option.some.injEq] at hc
    rw [← hc, zero_frame_getD]
    rfl
  | succ i =>
    simp only [List.getElem?_cons_succ] at hc
    have hmem := List.getElem?_mem hc
    simp only [List.mem_append, List.mem_map, List.mem_singleton, zero_frame_getD] at hmem
    rcases hmem with ⟨_, _, hm⟩ | hm
    · rw [← hm]; rfl
    · rw [hm]; rfl

theorem warmInv_tick (fs w h : Nat) (s : Sys) (hi : WarmInv fs w h s) :
    WarmInv fs w h (sys_step fs w h s Action.tick) := by
  obtain ⟨i1, i2, i3, i4, i5, i6, i7⟩ := hi
  refine ⟨bufferShape_step fs s.mcu McuAction.tick i1, ?_, ?_, ?_, ?_, i6, i7⟩
  · show (isr fs s.mcu).frame_buffer = _
    rw [isr_frame_buffer]; exact i2
  · show (isr fs s.mcu).count < 256
    rw [isr_count_eq]; omega
  · show (isr fs s.mcu).ab < 4
    rw [isr_ab]; split_ifs <;> omega
  · show (isr fs s.mcu).oe = false
    rw [isr_oe, i5, i2, power_up_duty]
    split_ifs <;> first | rfl | omega

theorem warmInv_sender (fs w h : Nat) (hw : 1 ≤ w) (hwh : w * h ≤ 255) (hfs : fs = 64 * w * h)
    (s : Sys) (hc : Ctl fs s) (hi : WarmInv fs w h s) :
    WarmInv fs w h (sys_step fs w h s Action.sender) := by
  obtain ⟨_, hm, hcases⟩ := ctl_sender fs w h hw hwh hfs s hc
  obtain ⟨i1, i2, i3, i4, i5, i6, i7⟩ := hi
  rw [← hm] at i1 i2 i3 i4 i5
  refine ⟨i1, i2, i3, i4, i5, ?_⟩
  rcases hcases with ⟨_, a2, a3⟩ | ⟨_, a2, a3, _⟩ | ⟨frame, rest, _, a2, _, a4, a5⟩
  · rw [a2, a3]; exact ⟨i6, i7⟩
  · rw [a2, a3]; exact ⟨i6, i7⟩
  · rw [a4, a5]
    rw [a2] at i6
    refine ⟨fun f hf => i6 f (List.mem_cons_of_mem _ hf), Or.inr ?_⟩
    rw [i6 frame (List.mem_cons_self _ _)]

theorem warmInv_receiver (fs w h : Nat) (hw : 1 ≤ w) (hwh : w * h ≤ 255) (he : fs % 2 = 0)
    (h1 : 1 ≤ fs) (h2 : fs < 65536)
    (s : Sys) (hc : Ctl fs s) (hi : WarmInv fs w h s)
    (hno : times_out (request_line s.level) s.mcu = false) :
    WarmInv fs w h (sys_step fs w h s Action.receiver) := by
  obtain ⟨_, htx, _, hcases⟩ := ctl_receiver fs w h he h1 h2 s hc hno
  obtain ⟨i1, i2, i3, i4, i5, i6, i7⟩ := hi
  have hshape : BufferShape fs (sys_step fs w h s Action.receiver).mcu :=
    bufferShape_step fs s.mcu (McuAction.iteration _ _) i1
  have hcount : (sys_step fs w h s Action.receiver).mcu.count = s.mcu.count :=
    loop_iteration_count fs _ _ s.mcu
  have hab : (sys_step fs w h s Action.receiver).mcu.ab = s.mcu.ab :=
    loop_iteration_ab fs _ _ s.mcu
  have hoe : (sys_step fs w h s Action.receiver).mcu.oe = s.mcu.oe :=
    loop_iteration_oe fs _ _ s.mcu
  rw [← hcount] at i3
  rw [← hab] at i4
  rw [← hoe] at i5
  rw [← htx] at i6 i7
  refine ⟨hshape, ?_, i3, i4, i5, i6, i7⟩
  rcases hcases with hA | ⟨_, _, b3⟩ | ⟨c, c1, c2, _, _, c5, _⟩ | ⟨_, _, _, f4, _⟩
  · rw [hA]; exact i2
  · rw [b3]; exact i2
  · rw [c5, i2]
    rw [htx] at i7
    rcases i7 with i7 | i7
    · rw [i7] at c1
      simp at c1
    · rw [i7] at c1
      rw [wire_zero_frame w h hw hwh _ c c1]
      exact store_power_up fs _ _ c2
  · rw [f4]; exact i2

/-- The handshake invariant and the warm-up invariant hold along every run in which no
receiver timeout fires. -/
theorem warm_run (fs w h : Nat) (hw : 1 ≤ w) (hh : 1 ≤ h) (hwh : w * h ≤ 255)
    (hfs : fs = 64 * w * h) (acts : List Action) :
    ∀ s, Ctl fs s → WarmInv fs w h s → no_timeout fs w h s acts = true →
      Ctl fs (sys_run fs w h s acts) ∧ WarmInv fs w h (sys_run fs w h s acts) := by
  have he : fs % 2 = 0 := by
    have : 64 * w * h = 2 * (32 * w * h) := by ring
    omega
  have h1 : 1 ≤ fs := by
    have : 1 * 1 ≤ w * h := Nat.mul_le_mul hw hh
    have : 64 * w * h = 64 * (w * h) := by ring
    omega
  have h2 : fs < 65536 := by
    have : 64 * w * h = 64 * (w * h) := by ring
    omega
  induction acts with
  | nil => intro s hc hd _; exact ⟨hc, hd⟩
  | cons act acts ih =>
    intro s hc hd hno
    simp only [no_timeout, Bool.and_eq_true, Bool.or_eq_true, Bool.not_eq_true',
      decide_eq_false_iff_not] at hno
    simp only [sys_run, List.foldl_cons]
    cases act with
    | sender =>
      exact ih _ (ctl_sender fs w h hw hwh hfs s hc).1
        (warmInv_sender fs w h hw hwh hfs s hc hd) hno.2
    | tick =>
      exact ih _ (ctl_tick fs w h s hc) (warmInv_tick fs w h s hd) hno.2
    | receiver =>
      have hno1 : times_out (request_line s.level) s.mcu = false := by
        rcases hno.1 with h3 | h3
        · exact absurd rfl h3
        · exact h3
      exact ih _ (ctl_receiver fs w h he h1 h2 s hc hno1).1
        (warmInv_receiver fs w h hw hwh he h1 h2 s hc hd hno1) hno.2

theorem no_timeout_take (fs w h : Nat) (acts : List Action) :
    ∀ (k : Nat) (s : Sys), no_timeout fs w h s acts = true →
      no_timeout fs w h s (acts.take k) = true := by
  induction acts with
  | nil => intro k s _; rw [List.take_nil]; rfl
  | cons act acts ih =>
    intro k s hno
    cases k with
    | zero => rfl
    | succ k =>
      simp only [List.take_succ_cons, no_timeout, Bool.and_eq_true] at hno ⊢
      exact ⟨hno.1, ih k _ hno.2⟩

theorem warm_up_start_inv (fs w h : Nat) (hfs : fs = 64 * w * h) (n : Nat) :
    Ctl fs (warm_up_start fs w h n) ∧ WarmInv fs w h (warm_up_start fs w h n) := by
  constructor
  · refine ⟨?_, Or.inl ⟨Nat.le_refl _, by show request_line 0 = false; decide, rfl, rfl⟩⟩
    intro f hf
    simp only [warm_up_start, sender_start, List.mem_replicate] at hf
    rw [hf.2]
    exact zero_frame_valid fs w h hfs
  · refine ⟨bufferShape_power_up fs, rfl, by show 0 < 256; decide, by show 0 < 4; decide, rfl,
      ?_, Or.inl rfl⟩
    intro f hf
    simp only [warm_up_start, sender_start, List.mem_replicate] at hf
    exact hf.2

/-- Output stays blanked under timer interrupts while the ring has its power-up contents. -/
theorem iterate_isr_blanked (fs n : Nat) :
    ∀ m : Mcu, m.frame_buffer = (power_up fs).frame_buffer → m.count < 256 → m.oe = false →
      ((isr fs)^[n] m).oe = false := by
  induction n with
  | zero => intro m _ _ h; exact h
  | succ n ih =>
    intro m hfb hc hoe
    rw [Function.iterate_succ, Function.comp_apply]
    apply ih
    · rw [isr_frame_buffer]; exact hfb
    · rw [isr_count_eq]; omega
    · rw [isr_oe, hoe, hfb, power_up_duty]
      split_ifs <;> first | rfl | omega

/-- After seven refresh cycles of the scan engine the consumer has caught up. -/
theorem iterate_isr_caught_up (fs : Nat) (hq : fs / 4 + 2 ≤ 255) (n : Nat) (hn : 7168 ≤ n)
    (m : Mcu) (hc : m.count < 256) (hab : m.ab < 4) (hr : m.read < 8) (hw : m.write < 8) :
    (((isr fs)^[n] m).read + 1) % 8 = ((isr fs)^[n] m).write := by
  obtain ⟨g1, g2⟩ := iterate_isr_pending fs hq n m hc hab hr hw
  have hwr := (iterate_isr_fields fs n m).2.1
  unfold pending at g2
  rw [hwr] at g2 ⊢
  have : 7 ≤ (phase fs m + n) / 1024 := by
    have : (7168 : Nat) / 1024 ≤ (phase fs m + n) / 1024 := Nat.div_le_div_right (by omega)
    omega
  omega

/-- C10, as amended: for every number `N` of all-zero frames (in particular `N ≥ 1`), a
grid with `width, height ≥ 1`, `width * height ≤ 255` and a receiver compiled with
`frame_size = 64 * width * height` at power-up: after any run in which the transmitter has
returned from the `N` calls of `send` and no receiver timeout has fired, the receiver is in
state 0 with acknowledge low; the ring has the contents it had at power-up; the duty byte
of every slot is 0; output enable is low in every state of the run and stays low under any
number of further timer interrupts; and, when the scan engine reaches its tick
`frame_size / 4 + 2` (that is `frame_size / 4 + 2 ≤ 255`), after 7 * 1024 or more further
timer interrupts the ring is empty, `(read + 1) mod 8 = write`. -/
theorem warm_up_idempotent (fs w h : Nat) (hw : 1 ≤ w) (hh : 1 ≤ h) (hwh : w * h ≤ 255)
    (hfs : fs = 64 * w * h) (N : Nat) (acts : List Action)
    (hno : no_timeout fs w h (warm_up_start fs w h N) acts = true)
    (hdone : sender_done (sys_run fs w h (warm_up_start fs w h N) acts).tx = true) :
    (sys_run fs w h (warm_up_start fs w h N) acts).mcu.read_state = 0 ∧
    (sys_run fs w h (warm_up_start fs w h N) acts).mcu.acknowledge = false ∧
    (sys_run fs w h (warm_up_start fs w h N) acts).mcu.frame_buffer
      = (power_up fs).frame_buffer ∧
    (∀ slot, byte_at (sys_run fs w h (warm_up_start fs w h N) acts).mcu.frame_buffer slot 0 = 0) ∧
    (∀ k, (sys_run fs w h (warm_up_start fs w h N) (acts.take k)).mcu.oe = false) ∧
    (∀ n, ((isr fs)^[n] (sys_run fs w h (warm_up_start fs w h N) acts).mcu).oe = false) ∧
    (fs / 4 + 2 ≤ 255 → ∀ n, 7168 ≤ n →
      (((isr fs)^[n] (sys_run fs w h (warm_up_start fs w h N) acts).mcu).read + 1) % 8
        = ((isr fs)^[n] (sys_run fs w h (warm_up_start fs w h N) acts).mcu).write) := by
  obtain ⟨hc0, hi0⟩ := warm_up_start_inv fs w h hfs N
  have hoe : ∀ k, (sys_run fs w h (warm_up_start fs w h N) (acts.take k)).mcu.oe = false := by
    intro k
    exact (warm_run fs w h hw hh hwh hfs (acts.take k) _ hc0 hi0
      (no_timeout_take fs w h acts k _ hno)).2.2.2.2.2.1
  obtain ⟨hctl, hshape, hfb, hcount, hab, hoe', _, _⟩ :=
    warm_run fs w h hw hh hwh hfs acts _ hc0 hi0 hno
  generalize sys_run fs w h (warm_up_start fs w h N) acts = s
    at hctl hshape hfb hcount hab hoe' hdone
  simp only [sender_done, Bool.and_eq_true, decide_eq_true_eq] at hdone
  have hquiet : s.mcu.read_state = 0 ∧ s.mcu.acknowledge = false := by
    rcases hctl.2 with ⟨_, _, q3, q4⟩ | ⟨c, ⟨_, hcall, _⟩, _⟩
    · exact ⟨q3, q4⟩
    · have := (List.getElem?_eq_some.1 hcall).1
      omega
  refine ⟨hquiet.1, hquiet.2, hfb, ?_, hoe, ?_, ?_⟩
  · intro slot
    rw [hfb]
    exact power_up_duty fs slot
  · intro n
    exact iterate_isr_blanked fs n s.mcu hfb hcount hoe'
  · intro hq n hn
    exact iterate_isr_caught_up fs hq n hn s.mcu hcount hab hshape.2.2.2 hshape.2.2.1

set_option maxRecDepth 1000000 in
/-- Two all-zero frames cross in lockstep without a timeout (1 by 1 grid). -/
theorem warm_up_run_completes :
    no_timeout 64 1 1 (warm_up_start 64 1 1 2) (lockstep 664) = true ∧
    sender_done (sys_run 64 1 1 (warm_up_start 64 1 1 2) (lockstep 664)).tx = true ∧
    (sys_run 64 1 1 (warm_up_start 64 1 1 2) (lockstep 664)).mcu.write = 3 := by
  decide

/-- Witness for C10 as amended: two all-zero frames on a 1 by 1 grid, sent in lockstep. -/
theorem warm_up_idempotent_witness :
    (sys_run 64 1 1 (warm_up_start 64 1 1 2) (lockstep 664)).mcu.read_state = 0 ∧
    (sys_run 64 1 1 (warm_up_start 64 1 1 2) (lockstep 664)).mcu.acknowledge = false ∧
    (sys_run 64 1 1 (warm_up_start 64 1 1 2) (lockstep 664)).mcu.frame_buffer
      = (power_up 64).frame_buffer ∧
    (((isr 64)^[7168] (sys_run 64 1 1 (warm_up_start 64 1 1 2) (lockstep 664)).mcu).read + 1) % 8
      = ((isr 64)^[7168] (sys_run 64 1 1 (warm_up_start 64 1 1 2) (lockstep 664)).mcu).write :=
  have r := warm_up_idempotent 64 1 1 (Nat.le_refl 1) (Nat.le_refl 1) (by decide) (by decide) 2
    (lockstep 664) warm_up_run_completes.1 warm_up_run_completes.2.1
  ⟨r.1, r.2.1, r.2.2.1, r.2.2.2.2.2.2 (by decide) 7168 (Nat.le_refl _)⟩

/-! ## The loops of `send` on any grid -/

/-- For any grid with `width ≥ 1` the mapped index of an in-range tuple exists and lies
inside the payload of a frame of the right size, whether or not the 16-bit result wraps. -/
theorem display_coordinates_in_frame (width height ab panel row column : Nat)
    (hw : 1 ≤ width) (hab : ab < 4) (hp : panel < width * height) (hr : row < 4)
    (hc : column < 4) :
    ∃ index, display_coordinates_to_frame_index width height ab panel row column = some index ∧
      index < 64 * width * height := by
  have hX : panel % width < width := Nat.mod_lt _ hw
  have hY : panel / width < height := by
    rw [Nat.div_lt_iff_lt_mul hw]; rw [Nat.mul_comm]; exact hp
  have hbound : column + (panel % width) * 4
      + ((3 - row) * 4 + ab + (panel / width) * 16) * width * 4 < 64 * width * height := by
    have h1 : (3 - row) * 4 + ab + (panel / width) * 16 + 1 ≤ 16 * height := by omega
    have h2 := Nat.mul_le_mul_right (width * 4) h1
    have h3 : ((3 - row) * 4 + ab + (panel / width) * 16 + 1) * (width * 4)
        = ((3 - row) * 4 + ab + (panel / width) * 16) * width * 4 + width * 4 := by ring
    have h4 : 16 * height * (width * 4) = 64 * width * height := by ring
    omega
  have hw0 : width ≠ 0 := by omega
  have hrow : (3 - (row : Int)) = ((3 - row : Nat) : Int) := by omega
  have hcast : ((column : Int) + ((panel : Int) % (width : Int)) * 4
      + ((3 - (row : Int)) * 4 + (ab : Int) + ((panel : Int) / (width : Int)) * 16)
          * (width : Int) * 4)
      = ((column + (panel % width) * 4
            + ((3 - row) * 4 + ab + (panel / width) * 16) * width * 4 : Nat) : Int) := by
    rw [hrow]; push_cast; ring
  refine ⟨_, by unfold display_coordinates_to_frame_index; rw [if_neg hw0], ?_⟩
  rw [hcast]
  have hmod : ((column + (panel % width) * 4
      + ((3 - row) * 4 + ab + (panel / width) * 16) * width * 4 : Nat) : Int) % 65536
      = (((column + (panel % width) * 4
      + ((3 - row) * 4 + ab + (panel / width) * 16) * width * 4) % 65536 : Nat) : Int) := by
    norm_cast
  rw [hmod, Int.toNat_natCast]
  exact lt_of_le_of_lt (Nat.mod_le _ _) hbound

/-- A fold in `Except Outcome` whose steps all succeed and keep an invariant succeeds. -/
theorem foldlM_succeeds {σ α : Type} (f : σ → α → Except Outcome σ) (I : σ → Prop)
    (l : List α) (hstep : ∀ s a, a ∈ l → I s → ∃ s1, f s a = .ok s1 ∧ I s1)
    (s : σ) (hs : I s) : ∃ s1, l.foldlM f s = .ok s1 ∧ I s1 := by
  induction l generalizing s with
  | nil => exact ⟨s, rfl, hs⟩
  | cons a l ih =>
    obtain ⟨s1, h1, h2⟩ := hstep s a (List.mem_cons_self _ _) hs
    rw [List.foldlM_cons, h1]
    simp only [bind, Except.bind]
    exact ih (fun s b hb hI => hstep s b (List.mem_cons_of_mem _ hb) hI) _ h2

theorem send_body_succeeds (frame : List Nat) (w h ab panel column row : Nat) (st : SendState)
    (hsw : st.panel._width = w) (hsh : st.panel._height = h)
    (hw : 1 ≤ w) (hlen : frame.length = 64 * w * h + 1)
    (hab : ab < 4) (hp : panel < w * h) (hr : row < 4) (hc : column < 4) :
    ∃ st1, send_body frame ab panel column row st = .ok st1 ∧
      st1.panel._width = w ∧ st1.panel._height = h := by
  obtain ⟨index, h1, h2⟩ := display_coordinates_in_frame w h ab panel row column hw hab hp hr hc
  have hlt : index + 1 < frame.length := by omega
  unfold send_body
  rw [hsw, hsh]
  simp only [h1, List.getElem?_eq_getElem hlt]
  exact ⟨_, rfl, hsw, hsh⟩

theorem column_loop_succeeds (frame : List Nat) (w h ab panel : Nat) (st : SendState)
    (hsw : st.panel._width = w) (hsh : st.panel._height = h)
    (hw : 1 ≤ w) (hlen : frame.length = 64 * w * h + 1) (hab : ab < 4) (hp : panel < w * h) :
    ∃ st1, column_loop frame ab panel st = .ok st1 ∧
      st1.panel._width = w ∧ st1.panel._height = h := by
  have small : ∀ c : Nat, c ∈ [0, 1, 2, 3] → c < 4 := by
    intro c hc
    simp only [List.mem_cons, List.mem_singleton, List.not_mem_nil, or_false] at hc; omega
  unfold column_loop
  apply foldlM_succeeds _ (fun s => s.panel._width = w ∧ s.panel._height = h) _ _ st ⟨hsw, hsh⟩
  intro s column hcol hI
  unfold row_loop
  apply foldlM_succeeds _ (fun s => s.panel._width = w ∧ s.panel._height = h) _ _ s hI
  intro s1 row hrow hI1
  exact send_body_succeeds frame w h ab panel column row s1 hI1.1 hI1.2 hw hlen hab hp
    (small row hrow) (small column hcol)

/-- With 256 panels or more the condition of the panel loop never fails: whatever the
fuel, the loop is still running when it is used up. -/
theorem panel_loop_never_exits (frame : List Nat) (w h ab : Nat)
    (hwh : 256 ≤ w * h) (hlen : frame.length = 64 * w * h + 1) (hab : ab < 4) (fuel : Nat) :
    ∀ (panel : Nat) (st : SendState), st.panel._width = w → st.panel._height = h →
      panel < 256 → panel_loop frame ab fuel panel st = .error .out_of_fuel := by
  have hw : 1 ≤ w := by
    rcases Nat.eq_zero_or_pos w with h0 | h0
    · rw [h0, Nat.zero_mul] at hwh; omega
    · exact h0
  induction fuel with
  | zero => intro panel st _ _ _; rfl
  | succ fuel ih =>
    intro panel st hsw hsh hp
    obtain ⟨st1, h1, h2, h3⟩ := column_loop_succeeds frame w h ab panel st hsw hsh hw hlen hab
      (by omega)
    unfold panel_loop
    rw [if_pos (by rw [hsw, hsh]; omega), h1]
    exact ih _ st1 h2 h3 (Nat.mod_lt _ (by decide))

/-- With no panel at all the loops of `send` do nothing. -/
theorem ab_loop_empty (fuel : Nat) (frame : List Nat) (st : SendState) (hfuel : 0 < fuel)
    (hz : st.panel._width * st.panel._height = 0) : ab_loop fuel frame st = .ok st := by
  obtain ⟨fuel, rfl⟩ : ∃ k, fuel = k + 1 := ⟨fuel - 1, by omega⟩
  have hstep : panel_loop frame 0 (fuel + 1) 0 st = .ok st ∧
      panel_loop frame 1 (fuel + 1) 0 st = .ok st ∧
      panel_loop frame 2 (fuel + 1) 0 st = .ok st ∧
      panel_loop frame 3 (fuel + 1) 0 st = .ok st := by
    refine ⟨?_, ?_, ?_, ?_⟩ <;>
    · unfold panel_loop
      rw [if_neg (by omega)]
  unfold ab_loop
  simp only [List.foldlM_cons, List.foldlM_nil, hstep.1, hstep.2.1, hstep.2.2.1, hstep.2.2.2,
    bind, Except.bind, pure, Except.pure]

/-- With 256 panels or more `send` of a frame of the right size is still inside the panel
loop of the first row group whatever the fuel. -/
theorem send_never_returns (fuel now : Nat) (frame : List Nat) (p : led_panel)
    (hlen : frame.length = 64 * p._width * p._height + 1) (hwh : 256 ≤ p._width * p._height) :
    send fuel now frame p
      = ((send_byte (frame.getD 0 0) true
          { panel := { p with frame_reads := p.frame_reads ++ [0] },
            request := true, acknowledge := true }).panel, Outcome.out_of_fuel) := by
  have h0 : frame[0]? = some (frame.getD 0 0) := by
    rw [List.getD_eq_getElem?_getD, List.getElem?_eq_getElem (by omega)]; rfl
  have hpl := panel_loop_never_exits frame p._width p._height 0 hwh hlen (by decide) fuel 0
    (send_byte (frame.getD 0 0) true
      { panel := { p with frame_reads := p.frame_reads ++ [0] },
        request := true, acknowledge := true }) rfl rfl (by decide)
  unfold send
  rw [if_neg (by omega)]
  simp only [h0, ab_loop, List.foldlM_cons, hpl, bind, Except.bind]

/-- With no panel at all `send` of a one-byte frame sends the duty byte and the closing
byte and returns. -/
theorem send_empty_grid (fuel now : Nat) (frame : List Nat) (p : led_panel)
    (hlen : frame.length = 64 * p._width * p._height + 1) (hfuel : 0 < fuel)
    (hz : p._width * p._height = 0) :
    (send fuel now frame p).2 = Outcome.returned := by
  have h0 : frame[0]? = some (frame.getD 0 0) := by
    rw [List.getD_eq_getElem?_getD, List.getElem?_eq_getElem (by omega)]; rfl
  have hab := ab_loop_empty fuel frame
    (send_byte (frame.getD 0 0) true
      { panel := { p with frame_reads := p.frame_reads ++ [0] },
        request := true, acknowledge := true }) hfuel hz
  unfold send
  rw [if_neg (by omega)]
  simp only [h0, hab]

/-! ## The constructor -/

set_option maxRecDepth 100000 in
/-- C12 as stated fails: on a 1 by 1 grid the combinations of `ab`, `row` and `column`
give 64 distinct offsets, not 16. -/
theorem unit_grid_offsets_not_sixteen :
    unit_grid_offsets.dedup.length = 64 ∧ ¬ (unit_grid_offsets.dedup.length = 16) := by
  decide

set_option maxRecDepth 100000 in
/-- C12, as amended: on a 1 by 1 grid (`panel = 0`) the 64 combinations of `ab`, `row` and
`column` in `[0, 4)` give 64 distinct offsets, and these are exactly the offsets of the
64-byte range `[0, 64)`. -/
theorem unit_grid_offsets_cover :
    unit_grid_offsets.length = 64 ∧ unit_grid_offsets.Nodup ∧
    (∀ k, k < 64 → some k ∈ unit_grid_offsets) ∧
    (∀ o ∈ unit_grid_offsets, ∃ k, k < 64 ∧ o = some k) := by
  refine ⟨by decide, by decide, by decide, ?_⟩
  have h : ∀ o ∈ unit_grid_offsets, o ∈ (List.range 64).map some := by decide
  intro o ho
  obtain ⟨k, hk, e⟩ := List.mem_map.1 (h o ho)
  exact ⟨k, List.mem_range.1 hk, e.symm⟩

/-! ## The data lines after the two data register writes of `send_byte` -/

theorem data_line_cases (p : Nat) (h : (byte_to_mask 255).testBit p = true) :
    ∃ i, i < 8 ∧ p = data_pin i := by
  have hp : p < 32 := by
    by_contra hge
    have hlt : byte_to_mask 255 < 2 ^ p :=
      lt_of_lt_of_le (by decide : byte_to_mask 255 < 2 ^ 32)
        (Nat.pow_le_pow_right (by decide) (by omega))
    rw [Nat.testBit_eq_false_of_lt hlt] at h
    exact absurd h (by decide)
  have key : ∀ q < 32, (byte_to_mask 255).testBit q = true → ∃ i, i < 8 ∧ q = data_pin i := by
    decide
  exact key p hp h

/-- The level of a data line after the two data register writes. -/
theorem after_data_writes_line (level b : Nat) (first : Bool) (hb : b < 256) (i : Nat)
    (hi : i < 8) :
    (after_data_writes level b first).testBit (data_pin i)
      = (if first then b.testBit i else !b.testBit i) := by
  obtain ⟨h1, h2, _, _, h5⟩ := table_bits b hb
  have hpin := (pin_facts.2.2 i hi).1
  cases first
  · simp only [after_data_writes, data_write_1, data_write_2, Bool.false_eq_true, if_false]
    rw [testBit_gpio_set, testBit_gpio_clear _ _ _ h1 hpin, (h5 i hi).1, (h5 i hi).2]
    cases b.testBit i <;> simp
  · simp only [after_data_writes, data_write_1, data_write_2, if_true]
    rw [testBit_gpio_clear _ _ _ h2 hpin, testBit_gpio_set, (h5 i hi).1, (h5 i hi).2]
    cases b.testBit i <;> simp

/-- C13 as stated fails for `first = false`: after the two data register writes for the
byte 1 from all lines low, line 20 (the line of `_byte_to_mask[1]`) is low and line 21 (a
line of `_byte_to_mask[255]` outside `_byte_to_mask[1]`) is high. -/
theorem data_lines_not_mask_when_not_first :
    (byte_to_mask 1).testBit 20 = true ∧ (after_data_writes 0 1 false).testBit 20 = false ∧
    (byte_to_mask 255).testBit 21 = true ∧ (byte_to_mask 1).testBit 21 = false ∧
    (after_data_writes 0 1 false).testBit 21 = true ∧
    after_data_writes 0 1 false &&& byte_to_mask 255 ≠ byte_to_mask 1 := by
  decide

/-- C13, as amended: for every byte value `b` and every previous level of the lines, after
the two data register writes of `send_byte` with `first = true` exactly the lines of
`_byte_to_mask[b]` are high among the lines of `_byte_to_mask[255]`; with `first = false`
exactly the lines of `_byte_to_mask[b]` are low among them (the lines carry the bitwise
complement of the byte). -/
theorem data_lines_after_writes (level b : Nat) (hb : b < 256) :
    (∀ p, (byte_to_mask 255).testBit p = true →
      (after_data_writes level b true).testBit p = (byte_to_mask b).testBit p) ∧
    (∀ p, (byte_to_mask 255).testBit p = true →
      (after_data_writes level b false).testBit p = !(byte_to_mask b).testBit p) := by
  obtain ⟨_, _, _, _, h5⟩ := table_bits b hb
  constructor
  · intro p hp
    obtain ⟨i, hi, rfl⟩ := data_line_cases p hp
    rw [after_data_writes_line level b true hb i hi, (h5 i hi).1]
    rfl
  · intro p hp
    obtain ⟨i, hi, rfl⟩ := data_line_cases p hp
    rw [after_data_writes_line level b false hb i hi, (h5 i hi).1]
    rfl

/-- Witness for C13 as amended: the byte 5 from all lines low, on line 20. -/
theorem data_lines_after_writes_witness :
    (5 < 256) ∧ (byte_to_mask 255).testBit 20 = true ∧
    (after_data_writes 0 5 true).testBit 20 = (byte_to_mask 5).testBit 20 ∧
    (after_data_writes 0 5 false).testBit 20 = !(byte_to_mask 5).testBit 20 :=
  ⟨by decide, by decide, (data_lines_after_writes 0 5 (by decide)).1 20 (by decide),
    (data_lines_after_writes 0 5 (by decide)).2 20 (by decide)⟩

/-! ## The transmitter on its own -/

set_option maxRecDepth 100000 in
theorem request_pin_masks (b : Nat) :
    byte_to_mask b < 2 ^ 32 ∧ clear_mask b < 2 ^ 32 ∧
    (byte_to_mask b).testBit request_pin = false ∧
    (clear_mask b).testBit request_pin = false := by
  by_cases hb : b < 256
  · obtain ⟨h1, h2, h3, h4, _⟩ := table_bits b hb
    exact ⟨h1, h2, h3, h4⟩
  · have h0 : byte_to_mask b = 0 := by
      unfold byte_to_mask
      rw [List.getD_eq_getElem?_getD, List.getElem?_eq_none (by
        have : _byte_to_mask.length = 256 := by decide
        omega)]
      rfl
    unfold clear_mask
    rw [h0]
    decide

/-- The data register writes of `send_byte` leave the request line alone. -/
theorem data_writes_request_line (level b : Nat) (first : Bool) :
    request_line (gpio_apply level (data_write_1 b first)) = request_line level ∧
    request_line (gpio_apply level (data_write_2 b first)) = request_line level := by
  obtain ⟨h1, h2, h3, h4⟩ := request_pin_masks b
  cases first
  · simp only [data_write_1, data_write_2, Bool.false_eq_true, if_false, request_line]
    rw [testBit_gpio_clear _ _ _ h1 (by decide), testBit_gpio_set, h3, h4]
    simp
  · simp only [data_write_1, data_write_2, if_true, request_line]
    rw [testBit_gpio_clear _ _ _ h2 (by decide), testBit_gpio_set, h3, h4]
    simp

/-- On any grid with at most 255 panels `send` of a frame of the right size returns and
makes `64 * w * h + 2` calls of `send_byte`. -/
theorem calls_of_length (w h : Nat) (F : List Nat) (hwh : w * h ≤ 255)
    (hlen : F.length = 64 * w * h + 1) :
    (send 256 0 F (new_panel w h)).2 = Outcome.returned ∧
    (calls_of w h F).length = 64 * w * h + 2 := by
  rcases Nat.eq_zero_or_pos w with hz | hpos
  · subst hz
    have h0 : F[0]? = some (F.getD 0 0) := by
      rw [List.getD_eq_getElem?_getD, List.getElem?_eq_getElem (by omega)]; rfl
    have hab := ab_loop_empty 256 F
      (send_byte (F.getD 0 0) true
        { panel := { new_panel 0 h with frame_reads := (new_panel 0 h).frame_reads ++ [0] },
          request := true, acknowledge := true }) (by decide)
      (by show 0 * h = 0; exact Nat.zero_mul h)
    have hsend : send 256 0 F (new_panel 0 h)
        = ({ (send_byte 0 false (send_byte (F.getD 0 0) true
              { panel := { new_panel 0 h with
                  frame_reads := (new_panel 0 h).frame_reads ++ [0] },
                request := true, acknowledge := true })).panel with _previous_write := 0 },
            Outcome.returned) := by
      unfold send
      rw [if_neg (by show ¬ F.length ≠ 64 * 0 * h + 1; omega)]
      simp only [h0, hab]
    unfold calls_of
    rw [hsend]
    exact ⟨rfl, by simp [send_byte, new_panel]⟩
  · obtain ⟨h1, h2⟩ := calls_of_eq w h F hpos hwh hlen
    refine ⟨h1, ?_⟩
    rw [h2]
    simp [length_transmission_order]

theorem senderInv_other (fs w h : Nat) (F : List Nat) (s : Sys) (act : Action)
    (hact : act ≠ Action.sender) (hi : SenderInv w h F s) :
    SenderInv w h F (sys_step fs w h s act) := by
  cases act with
  | sender => exact absurd rfl hact
  | receiver => exact hi
  | tick => exact hi

theorem senderInv_sender (fs w h : Nat) (F : List Nat) (hwh : w * h ≤ 255)
    (hlen : F.length = 64 * w * h + 1) (s : Sys) (hi : SenderInv w h F s) :
    SenderInv w h F (sys_step fs w h s Action.sender) := by
  obtain ⟨hret, hcl⟩ := calls_of_length w h F hwh hlen
  rcases hi with ⟨i1, i2, i3⟩ | ⟨i1, i2, i3, i4, i5, i6, i7⟩
  · have hnone : s.tx.calls[s.tx.index]? = none := by rw [i1]; rfl
    rw [sys_step_sender fs w h s _ _ (sender_step_load w h _ _ _ F [] hnone i2 hret)]
    right
    refine ⟨rfl, rfl, Nat.zero_le _, rfl, fun _ => rfl, fun _ => ⟨rfl, ?_⟩, ?_⟩
    · intro hc; exact absurd hc (by show ¬ (1 ≤ 0); decide)
    · intro hc; exact absurd hc (by show ¬ (3 ≤ 0); decide)
  · cases hcall : s.tx.calls[s.tx.index]? with
    | none =>
      rw [sys_step_sender fs w h s _ _ (sender_step_finished w h _ _ _ hcall i2)]
      exact Or.inr ⟨i1, i2, i3, i4, i5, i6, i7⟩
    | some c =>
      have hidx : s.tx.index < 64 * w * h + 2 := by
        have := (List.getElem?_eq_some.1 hcall).1
        rw [i1, hcl] at this
        exact this
      by_cases hpc0 : s.tx.pc = 0
      · rw [sys_step_sender fs w h s _ _ (sender_step_pc0 w h _ _ _ c hcall hpc0)]
        right
        refine ⟨i1, i2, i3, i4, fun hc => by have hc2 : s.tx.index = 64 * w * h + 2 := hc; omega, fun _ => ⟨(i6 (by omega)).1, ?_⟩, ?_⟩
        · intro h1
          show request_bit (request_line (gpio_apply s.level _)) = _
          rw [(data_writes_request_line s.level c.1 c.2).1]
          exact (i6 (by omega)).2 h1
        · intro hc; exact absurd hc (by show ¬ (3 ≤ 1); decide)
      · by_cases hpc1 : s.tx.pc = 1
        · rw [sys_step_sender fs w h s _ _ (sender_step_pc1 w h _ _ _ c hcall hpc1)]
          right
          refine ⟨i1, i2, i3, i4, fun hc => by have hc2 : s.tx.index = 64 * w * h + 2 := hc; omega, fun _ => ⟨(i6 (by omega)).1, ?_⟩, ?_⟩
          · intro h1
            show request_bit (request_line (gpio_apply s.level _)) = _
            rw [(data_writes_request_line s.level c.1 c.2).2]
            exact (i6 (by omega)).2 h1
          · intro hc; exact absurd hc (by show ¬ (3 ≤ 2); decide)
        · by_cases hpc2 : s.tx.pc = 2
          · rw [sys_step_sender fs w h s _ _ (sender_step_pc2 w h _ _ _ c hcall hpc2)]
            right
            refine ⟨i1, i2, i3, i4, fun hc => by have hc2 : s.tx.index = 64 * w * h + 2 := hc; omega, ?_, fun _ => ⟨?_, ?_⟩⟩
            · intro hc
              exfalso
              have : (if c.2 = true then 3 else 4) ≤ 2 := hc
              split_ifs at this <;> omega
            · show request_bit (!s.tx.request) = s.tx.index % 2
              rw [request_bit_not, (i6 (by omega)).1]; omega
            · show request_bit (request_line (gpio_apply s.level _)) = (s.tx.index + 1) % 2
              rw [(request_write_lines s.tx.request s.level).1]
              exact (i6 (by omega)).1
          · by_cases hpc3 : s.tx.pc = 3
            · rw [sys_step_sender fs w h s _ _ (sender_step_pc3 w h _ _ _ c hcall hpc3)]
              right
              refine ⟨i1, i2, i3, i4, fun hc => by have hc2 : s.tx.index = 64 * w * h + 2 := hc; omega, ?_, fun _ => i7 (by omega)⟩
              intro hc; exact absurd hc (by show ¬ (4 ≤ 2); decide)
            · have hpc4 : 4 ≤ s.tx.pc := by omega
              by_cases hackeq : s.mcu.acknowledge = s.tx.acknowledge
              · rw [sys_step_sender fs w h s _ _
                  (sender_step_pass w h _ _ _ c hcall hpc4 hackeq)]
                right
                obtain ⟨j1, j2⟩ := i7 (by omega)
                refine ⟨i1, i2, hidx, ?_, fun _ => rfl, fun _ => ⟨?_, fun _ => j2⟩, ?_⟩
                · show request_bit (!s.tx.acknowledge) = (s.tx.index + 1 + 1) % 2
                  rw [request_bit_not, i4]; omega
                · show request_bit s.tx.request = (s.tx.index + 1 + 1) % 2
                  rw [j1]; omega
                · intro hc; exact absurd hc (by show ¬ (3 ≤ 0); decide)
              · rw [sys_step_sender fs w h s _ _
                  (sender_step_wait w h _ _ _ c hcall hpc4 hackeq)]
                exact Or.inr ⟨i1, i2, i3, i4, i5, i6, i7⟩

/-- The transmitter's own invariant along every run of the composed system. -/
theorem senderInv_run (fs w h : Nat) (F : List Nat) (hwh : w * h ≤ 255)
    (hlen : F.length = 64 * w * h + 1) (acts : List Action) :
    ∀ s, SenderInv w h F s → SenderInv w h F (sys_run fs w h s acts) := by
  induction acts with
  | nil => intro s hi; exact hi
  | cons act acts ih =>
    intro s hi
    simp only [sys_run, List.foldl_cons]
    apply ih
    by_cases hact : act = Action.sender
    · rw [hact]; exact senderInv_sender fs w h F hwh hlen s hi
    · exact senderInv_other fs w h F s act hact hi

/-- When `send` has returned, the two flags are back at `true` and the request line is low. -/
theorem senderInv_done (w h : Nat) (F : List Nat) (hwh : w * h ≤ 255)
    (hlen : F.length = 64 * w * h + 1) (s : Sys) (hi : SenderInv w h F s)
    (hdone : sender_done s.tx = true) :
    s.tx.request = true ∧ s.tx.acknowledge = true ∧ request_line s.level = false := by
  obtain ⟨_, hcl⟩ := calls_of_length w h F hwh hlen
  simp only [sender_done, Bool.and_eq_true, decide_eq_true_eq] at hdone
  rcases hi with ⟨_, i2, _⟩ | ⟨i1, i2, i3, i4, i5, i6, i7⟩
  · rw [hdone.2] at i2
    exact absurd i2 (by simp)
  · have hidx : s.tx.index = 64 * w * h + 2 := by
      have := hdone.1
      rw [i1, hcl] at this
      omega
    have hpc := i5 hidx
    obtain ⟨j1, j2⟩ := i6 (by omega)
    have j2 := j2 (by omega)
    have hpar : (64 * w * h + 2) % 2 = 0 := by
      have : 64 * w * h = 2 * (32 * w * h) := by ring
      omega
    rw [hidx] at i4 j1 j2
    refine ⟨?_, ?_, ?_⟩
    · cases hr : s.tx.request
      · rw [hr] at j1; simp only [request_bit, Bool.false_eq_true, if_false] at j1; omega
      · rfl
    · cases hr : s.tx.acknowledge
      · rw [hr] at i4; simp only [request_bit, Bool.false_eq_true, if_false] at i4; omega
      · rfl
    · cases hr : request_line s.level
      · rfl
      · rw [hr] at j2; simp only [request_bit, if_true] at j2; omega

/-! ## One frame from rest: start and end of the transfer -/

theorem rest_start (fs w h : Nat) (F : List Nat) (hlen : F.length = fs + 1)
    (hbytes : ∀ b ∈ F, b < 256) (level0 : Nat) (m0 : Mcu)
    (hreq : request_line level0 = false) (hidle : m0.read_state = 0)
    (hack : m0.acknowledge = false) (hshape : BufferShape fs m0) :
    Ctl fs { tx := sender_start [F], level := level0, mcu := m0 } ∧
    FrameData fs w h F m0.write { tx := sender_start [F], level := level0, mcu := m0 } := by
  constructor
  · refine ⟨?_, Or.inl ⟨Nat.zero_le _, hreq, hidle, hack⟩⟩
    intro f hf
    simp only [sender_start, List.mem_singleton] at hf
    rw [hf]; exact ⟨hlen, hbytes⟩
  · exact ⟨hshape, hshape.2.2.1, Or.inl ⟨rfl, rfl, rfl, rfl⟩⟩

/-- When `send` has returned in sync, the receiver is idle with acknowledge low and the
frame is committed. -/
theorem rest_end (fs w h : Nat) (hw : 1 ≤ w) (hwh : w * h ≤ 255) (hfs : fs = 64 * w * h)
    (F : List Nat) (hlen : F.length = fs + 1) (hbytes : ∀ b ∈ F, b < 256) (w0 : Nat) (s : Sys)
    (hctl : Ctl fs s) (hdata : FrameData fs w h F w0 s) (hdone : sender_done s.tx = true) :
    s.mcu.read_state = 0 ∧ s.mcu.acknowledge = false ∧ s.mcu.write = (w0 + 1) % 8 := by
  have hlenF : F.length = 64 * w * h + 1 := by rw [hlen, hfs]
  simp only [sender_done, Bool.and_eq_true, decide_eq_true_eq] at hdone
  obtain ⟨_, _, hcases⟩ := hdata
  have hvalid := calls_of_valid w h F hw hwh hlenF hbytes
  rw [← hfs] at hvalid
  rcases hcases with ⟨_, d2, _⟩ | ⟨d1, _, _, _, d5, _⟩
  · rw [hdone.2] at d2
    exact absurd d2 (by simp)
  · have hidx : fs + 2 ≤ s.tx.index := by
      have := hdone.1
      rw [d1, hvalid.1] at this
      exact this
    have hquiet : s.mcu.read_state = 0 ∧ s.mcu.acknowledge = false := by
      rcases hctl.2 with ⟨_, _, q3, q4⟩ | ⟨c, ⟨_, hcall, _⟩, _⟩
      · exact ⟨q3, q4⟩
      · have := (List.getElem?_eq_some.1 hcall).1
        omega
    exact ⟨hquiet.1, hquiet.2, d5 (Or.inr (by omega))⟩

/-- In sync, while the transmitter is in the call of the closing byte: before its request
write the receiver is in state 3 with request and acknowledge high; after it the request
line is low and the receiver is in state 3 or back in state 0 with acknowledge low. -/
theorem ctl_closing_byte (fs : Nat) (he : fs % 2 = 0) (s : Sys) (hctl : Ctl fs s)
    (hidx : s.tx.index = fs + 1) (hlen : s.tx.calls.length = fs + 2) :
    (s.tx.pc ≤ 2 → s.mcu.read_state = 3 ∧ s.mcu.acknowledge = true ∧
      request_line s.level = true) ∧
    (3 ≤ s.tx.pc → request_line s.level = false ∧
      (s.mcu.read_state = 3 ∨ (s.mcu.read_state = 0 ∧ s.mcu.acknowledge = false))) := by
  have line_high : request_bit (request_line s.level) = 1 → request_line s.level = true := by
    intro hb
    cases hr : request_line s.level
    · rw [hr] at hb; exact absurd hb (by decide)
    · rfl
  have line_low : request_bit (request_line s.level) = 0 → request_line s.level = false := by
    intro hb
    cases hr : request_line s.level
    · rfl
    · rw [hr] at hb; exact absurd hb (by decide)
  rcases hctl.2 with ⟨q1, _⟩ | ⟨c, _, hc⟩
  · omega
  · rcases hc with ⟨e1, _, e3, e4, _⟩ | ⟨l1, _, l3, _, l5⟩
    · refine ⟨fun _ => ?_, fun hpc => by omega⟩
      rw [hidx] at e3 e4
      rcases e4 with ⟨n1, _⟩ | ⟨_, n1, _⟩ | ⟨_, n2, n3⟩ | ⟨n1, _⟩
      · omega
      · omega
      · exact ⟨n2, n3, line_high (by omega)⟩
      · omega
    · refine ⟨fun hpc => by omega, fun _ => ⟨line_low (by rw [hidx] at l3; omega), ?_⟩⟩
      rw [hidx] at l5
      rcases l5 with l5 | l5 | ⟨l5, _⟩
      · rcases l5 with ⟨n1, _⟩ | ⟨_, n1, _⟩ | ⟨_, n2, _⟩ | ⟨n1, _⟩
        · omega
        · omega
        · exact Or.inl n2
        · omega
      · rcases l5 with ⟨n1, _⟩ | ⟨n1, _⟩ | ⟨n1, _⟩ | ⟨_, n2, n3⟩
        · omega
        · omega
        · omega
        · exact Or.inr ⟨n2, n3⟩
      · omega

/-- A run with a block of timer interrupts, up to the variables of the scan engine: with no
frame pending the block only moves the refresh tick counter. -/
theorem run_through_ticks (fs w h : Nat) (hq : fs / 4 + 2 ≤ 255) (s1 : Sys) (n ft : Nat)
    (tail : List Action) (htail : ∀ a ∈ tail, a ≠ Action.tick)
    (hc : s1.mcu.count < 256) (hab : s1.mcu.ab < 4) (hr : s1.mcu.read < 8)
    (hw : s1.mcu.write < 8) (hft : s1.mcu.frame_tick < 256) (hp : pending s1.mcu = 0)
    (hn : (s1.mcu.frame_tick + (phase fs s1.mcu + n) / 1024) % 256 = ft) :
    sys_reset (sys_run fs w h s1 (List.replicate n Action.tick ++ tail))
      = sys_run fs w h
          { sys_reset s1 with mcu := { scan_reset s1.mcu with frame_tick := ft } } tail := by
  rw [sys_run_append, sys_reset_run fs w h _ htail, sys_run_ticks]
  exact congrArg (fun s => sys_run fs w h s tail)
    (sys_reset_ticks fs hq n ft s1 hc hab hr hw hft hp hn)

/-! ## The receiver's stores during a transfer -/

theorem storeLog_tick (fs w h : Nat) (F : List Nat) (m0 : Mcu) (s : Sys)
    (hl : StoreLog fs w h F m0 s) : StoreLog fs w h F m0 (sys_step fs w h s Action.tick) := by
  obtain ⟨j, h1, h2, h3, h4, h5, h6, h7⟩ := hl
  refine ⟨j, ?_, h2, ?_, ?_, ?_, h6, h7⟩
  · show (isr fs s.mcu).stores = _
    rw [isr_stores]; exact h1
  · show (isr fs s.mcu).read_state = 2 → j = (isr fs s.mcu).read_index
    rw [isr_read_state, isr_read_index]; exact h3
  · show (isr fs s.mcu).read_state = 3 → _
    rw [isr_read_state]; exact h4
  · show (isr fs s.mcu).read_state ≤ 1 → _
    rw [isr_read_state]; exact h5

theorem storeLog_sender (fs w h : Nat) (hw : 1 ≤ w) (hwh : w * h ≤ 255) (hfs : fs = 64 * w * h)
    (F : List Nat) (m0 : Mcu) (s : Sys) (hc : Ctl fs s) (hd : FrameData fs w h F m0.write s)
    (hl : StoreLog fs w h F m0 s) :
    StoreLog fs w h F m0 (sys_step fs w h s Action.sender) := by
  obtain ⟨_, hm, hcases⟩ := ctl_sender fs w h hw hwh hfs s hc
  obtain ⟨j, h1, h2, h3, h4, h5, h6, h7⟩ := hl
  rw [← hm] at h1 h3 h4 h5
  rcases hcases with ⟨a1, a2, _⟩ | ⟨a1, a2, _, a4, a5⟩ | ⟨frame, rest, _, a2, a3, a4, _⟩
  · refine ⟨j, h1, h2, h3, h4, ?_, ?_, ?_⟩
    · rw [a1]; exact h5
    · rw [a2]; exact h6
    · rw [a1]; exact h7
  · rw [← hm] at a5
    refine ⟨j, h1, h2, h3, h4, ?_, ?_, ?_⟩
    · intro hst
      rcases h5 hst with h5 | h5
      · left; exact h5
      · right; rw [a1]; exact ⟨h5.1, by omega⟩
    · rw [a2]; exact h6
    · rw [a1]
      rcases a5 with ⟨n1, _⟩ | ⟨_, n2, n3, n4, _⟩ | ⟨n1, n2, _⟩ | ⟨n1, n2, _⟩
      · omega
      · left; rw [h3 n3, n4]
      · right; exact h4 n2
      · right
        rcases h7 with h7 | h7
        · rcases h5 (by omega) with h5 | h5
          · omega
          · exact h5.1
        · exact h7
  · obtain ⟨_, _, hcs⟩ := hd
    have hj : j = 0 := by
      rcases hcs with ⟨d1, _⟩ | ⟨_, d2, _⟩
      · exact h6 d1
      · rw [d2] at a2; exact absurd a2 (by simp)
    refine ⟨j, h1, h2, h3, h4, fun _ => Or.inl hj, fun _ => hj, ?_⟩
    rw [a3]; left; exact Nat.zero_le _

theorem storeLog_receiver (fs w h : Nat) (he : fs % 2 = 0) (h1 : 1 ≤ fs) (h2 : fs < 65536)
    (F : List Nat) (m0 : Mcu) (s : Sys) (hc : Ctl fs s) (hd : FrameData fs w h F m0.write s)
    (hl : StoreLog fs w h F m0 s) (hno : times_out (request_line s.level) s.mcu = false) :
    StoreLog fs w h F m0 (sys_step fs w h s Action.receiver) := by
  obtain ⟨_, htx, _, hcases⟩ := ctl_receiver fs w h he h1 h2 s hc hno
  obtain ⟨j, g1, g2, g3, g4, g5, g6, g7⟩ := hl
  rw [← htx] at g5 g6 g7
  rcases hcases with hA | ⟨b1, _, b3⟩ | ⟨c, c1, c2, c3, c4, _, _, _, c8⟩ | ⟨f1, f2, f3, _, _, _, f7⟩
  · rw [← hA] at g1 g3 g4 g5
    exact ⟨j, g1, g2, g3, g4, g5, g6, g7⟩
  · refine ⟨j, ?_, g2, ?_, ?_, ?_, g6, g7⟩
    · rw [b3]; exact g1
    · rw [b3]; intro hst; exact absurd hst (by show ¬ ((1 : Nat) = 2); decide)
    · rw [b3]; intro hst; exact absurd hst (by show ¬ ((1 : Nat) = 3); decide)
    · intro _; exact g5 (by omega)
  · obtain ⟨_, _, hcs⟩ := hd
    have hjx : j = s.tx.index := by
      rcases c3 with c3 | ⟨c3, c3'⟩
      · rcases c3 with ⟨n1, n2, _⟩ | ⟨_, _, n3, n4, _⟩ | ⟨n1, _⟩ | ⟨n1, _⟩
        · rcases g5 (by rw [n2]; exact Nat.zero_le _) with g5 | g5
          · omega
          · rw [htx] at g5; omega
        · rw [g3 n3, n4]
        · omega
        · omega
      · rcases g5 (by omega) with g5 | g5
        · omega
        · rw [htx] at g5; omega
    have hcalls : s.tx.calls = calls_of w h F ∧ s.mcu.write = m0.write := by
      rcases hcs with ⟨d1, _⟩ | ⟨d1, _, _, _, _, d6⟩
      · rw [d1] at c1; simp at c1
      · refine ⟨d1, d6 ?_⟩
        rintro (h3 | h3)
        · rcases c3 with c3 | ⟨_, c3⟩
          · rcases c3 with ⟨_, n1, _⟩ | ⟨_, _, n1, _⟩ | ⟨n1, _⟩ | ⟨n1, _⟩ <;> omega
          · omega
        · omega
    have hcv : (calls_of w h F).getD s.tx.index (0, false) = c := by
      rw [← hcalls.1]; exact getD_of_getElem? _ _ _ _ c1
    refine ⟨s.tx.index + 1, ?_, by omega, ?_, ?_, ?_, ?_, Or.inl ?_⟩
    · rw [c8, g1, hjx, List.range_succ, List.map_append, List.append_assoc, hcalls.2]
      simp only [List.map_cons, List.map_nil, hcv]
    · intro hst
      rcases c4 with ⟨n1, _⟩ | ⟨_, _, _, n4, _⟩ | ⟨_, n2, _⟩ | ⟨n1, _⟩
      · omega
      · exact n4.symm
      · omega
      · omega
    · intro hst
      rcases c4 with ⟨n1, _⟩ | ⟨_, _, n3, _⟩ | ⟨n1, _⟩ | ⟨n1, _⟩
      · omega
      · omega
      · exact n1
      · omega
    · intro hst
      rcases c4 with ⟨n1, _⟩ | ⟨_, _, n3, _⟩ | ⟨_, n2, _⟩ | ⟨n1, _⟩
      · omega
      · omega
      · omega
      · omega
    · intro hcl
      rw [htx] at hcl
      rw [hcl] at c1
      simp at c1
    · rw [htx]; exact Nat.le_succ _
  · have hj : j = fs + 1 := by
      rcases f2 with ⟨n1, _⟩ | ⟨n1, _⟩ | ⟨_, n2, _⟩ | ⟨n1, _⟩
      · omega
      · omega
      · exact g4 n2
      · omega
    refine ⟨j, ?_, g2, ?_, ?_, ?_, g6, g7⟩
    · rw [f7]; exact g1
    · intro hst
      rcases f3 with ⟨n1, _⟩ | ⟨n1, _⟩ | ⟨n1, _⟩ | ⟨_, n2, _⟩ <;> omega
    · intro _; exact hj
    · intro _; right; rw [htx]; exact ⟨hj, by omega⟩

/-- Handshake, slot contents and store history along every run without receiver timeout. -/
theorem store_run (fs w h : Nat) (hw : 1 ≤ w) (hh : 1 ≤ h) (hwh : w * h ≤ 255)
    (hfs : fs = 64 * w * h) (F : List Nat) (m0 : Mcu) (acts : List Action) :
    ∀ s, Ctl fs s → FrameData fs w h F m0.write s → StoreLog fs w h F m0 s →
      no_timeout fs w h s acts = true →
      Ctl fs (sys_run fs w h s acts) ∧ FrameData fs w h F m0.write (sys_run fs w h s acts) ∧
      StoreLog fs w h F m0 (sys_run fs w h s acts) := by
  have he : fs % 2 = 0 := by
    have : 64 * w * h = 2 * (32 * w * h) := by ring
    omega
  have h1 : 1 ≤ fs := by
    have : 1 * 1 ≤ w * h := Nat.mul_le_mul hw hh
    have : 64 * w * h = 64 * (w * h) := by ring
    omega
  have h2 : fs < 65536 := by
    have : 64 * w * h = 64 * (w * h) := by ring
    omega
  induction acts with
  | nil => intro s hc hd hl _; exact ⟨hc, hd, hl⟩
  | cons act acts ih =>
    intro s hc hd hl hno
    simp only [no_timeout, Bool.and_eq_true, Bool.or_eq_true, Bool.not_eq_true',
      decide_eq_false_iff_not] at hno
    simp only [sys_run, List.foldl_cons]
    cases act with
    | sender =>
      exact ih _ (ctl_sender fs w h hw hwh hfs s hc).1
        (frameData_sender fs w h hw hwh hfs F m0.write s hc hd)
        (storeLog_sender fs w h hw hwh hfs F m0 s hc hd hl) hno.2
    | tick =>
      exact ih _ (ctl_tick fs w h s hc) (frameData_tick fs w h F m0.write s hd)
        (storeLog_tick fs w h F m0 s hl) hno.2
    | receiver =>
      have hno1 : times_out (request_line s.level) s.mcu = false := by
        rcases hno.1 with h3 | h3
        · exact absurd rfl h3
        · exact h3
      exact ih _ (ctl_receiver fs w h he h1 h2 s hc hno1).1
        (frameData_receiver fs w h he h1 h2 F m0.write s hc hd hno1)
        (storeLog_receiver fs w h he h1 h2 F m0 s hc hd hl hno1) hno.2

/-! ## Toggle parity: who waits for whom -/

theorem times_out_stores (fs : Nat) (r : Bool) (p : Nat) (m : Mcu)
    (h : times_out r m = true) : (loop_iteration fs r p m).stores = m.stores := by
  simp only [times_out, Bool.or_eq_true, Bool.and_eq_true, decide_eq_true_eq] at h
  rw [loop_iteration_stores]
  rcases h with ⟨⟨h1, h2⟩, _⟩ | ⟨⟨h1, _⟩, _⟩
  · rw [if_neg (by omega), if_neg (by omega)]
  · rw [if_neg (by omega), if_neg (by omega)]

theorem bool_of_parity (b : Bool) (k : Nat) (h : request_bit b = (k + 1) % 2) :
    b = true ↔ k % 2 = 0 := by
  cases b
  · simp only [request_bit, Bool.false_eq_true, if_false] at h
    constructor
    · intro hb; exact absurd hb (by decide)
    · intro hk; omega
  · simp only [request_bit, if_true] at h
    constructor
    · intro _; omega
    · intro _; rfl

theorem not_self_append {α : Type} (l : List α) (x : α) : l ≠ l ++ [x] := by
  intro h
  have := congrArg List.length h
  simp at this

set_option maxRecDepth 100000 in
theorem early_release_before_ticks :
    (sys_run 64 1 1 scenario_start (lockstep 8)).mcu.count < 256 ∧
    (sys_run 64 1 1 scenario_start (lockstep 8)).mcu.ab < 4 ∧
    (sys_run 64 1 1 scenario_start (lockstep 8)).mcu.read < 8 ∧
    (sys_run 64 1 1 scenario_start (lockstep 8)).mcu.write < 8 ∧
    (sys_run 64 1 1 scenario_start (lockstep 8)).mcu.frame_tick < 256 ∧
    pending (sys_run 64 1 1 scenario_start (lockstep 8)).mcu = 0 ∧
    ((sys_run 64 1 1 scenario_start (lockstep 8)).mcu.frame_tick
      + (phase 64 (sys_run 64 1 1 scenario_start (lockstep 8)).mcu + 8978) / 1024) % 256 = 9 ∧
    (sys_run 64 1 1 scenario_start (lockstep 8)).tx.index = 1 ∧
    (sys_run 64 1 1 scenario_start (lockstep 8)).tx.pc = 2 ∧
    (sys_run 64 1 1 scenario_start (lockstep 8)).mcu.stores = [(1, 0, 255)] := by
  decide

set_option maxRecDepth 100000 in
theorem early_release_tail :
    (sys_run 64 1 1 early_release_resume
      [Action.receiver, Action.sender, Action.sender]).tx.index = 2 ∧
    (sys_run 64 1 1 early_release_resume
      [Action.receiver, Action.sender, Action.sender]).mcu.stores = [(1, 0, 255)] ∧
    (sys_run 64 1 1 early_release_resume
      [Action.receiver, Action.sender, Action.sender]).mcu.read_state = 0 ∧
    times_out (request_line early_release_resume.level) early_release_resume.mcu = true := by
  decide

/-- C14 as stated fails when a receiver timeout fires: on a 1 by 1 grid from rest, the
transmitter stalls for nine refresh ticks inside its second `send_byte` (byte position 1)
before the request register write; the receiver times out and lowers acknowledge; the
transmitter then lowers request and finds acknowledge low, as it expects for byte 1, so
its wait is released and it moves to byte 2, while the receiver has stored the duty byte
only. -/
theorem early_release :
    (sys_run 64 1 1 scenario_start (lockstep 8)).tx.index = 1 ∧
    (sys_run 64 1 1 scenario_start (lockstep 8)).mcu.stores = [(1, 0, 255)] ∧
    (sys_run 64 1 1 scenario_start early_release_schedule).tx.index = 2 ∧
    (sys_run 64 1 1 scenario_start early_release_schedule).mcu.stores = [(1, 0, 255)] ∧
    (sys_run 64 1 1 scenario_start early_release_schedule).mcu.read_state = 0 := by
  obtain ⟨h1, h2, h3, h4, h5, h6, h7, h8, _, h10⟩ := early_release_before_ticks
  have htail : ∀ a ∈ [Action.receiver, Action.sender, Action.sender], a ≠ Action.tick := by
    decide
  have e := early_release_tail
  have hrun : sys_reset (sys_run 64 1 1 scenario_start early_release_schedule)
      = sys_run 64 1 1 early_release_resume
          [Action.receiver, Action.sender, Action.sender] := by
    unfold early_release_schedule
    rw [sys_run_append]
    exact run_through_ticks 64 1 1 (by decide) (sys_run 64 1 1 scenario_start (lockstep 8))
      8978 9 _ htail h1 h2 h3 h4 h5 h6 h7
  rw [← hrun, sys_reset_tx, sys_reset_stores, sys_reset_read_state] at e
  exact ⟨h8, h10, e.1, e.2.1, e.2.2.1⟩

/-- C14, as amended: in the composed system started in sync (receiver idle, request and
acknowledge low) and as long as no receiver timeout fires, for every byte position `k` of
the frame (`k = 0` the duty byte): the request register write of `send_byte` drives the
request line high iff `k` is even; the transmitter's wait for byte `k` is released only
when acknowledge is high iff `k` is even, and for `k ≤ frame_size` only after the receiver
has stored byte `k` (its wire value, at index `k` of the write slot); and the receiver
accepts position `k` (in state 0 or 1 for `k = 0`, in state 2 with `read_index = k` for
`1 ≤ k ≤ frame_size`) only when the request line is high iff `k` is even, and then drives
acknowledge high iff `k` is even. -/
theorem toggle_parity_agreement (fs w h : Nat) (hw : 1 ≤ w) (hh : 1 ≤ h) (hwh : w * h ≤ 255)
    (hfs : fs = 64 * w * h) (F : List Nat) (hlen : F.length = fs + 1)
    (hbytes : ∀ b ∈ F, b < 256) (level0 : Nat) (m0 : Mcu)
    (hreq : request_line level0 = false) (hidle : m0.read_state = 0)
    (hack : m0.acknowledge = false) (hshape : BufferShape fs m0) (acts : List Action)
    (hno : no_timeout fs w h { tx := sender_start [F], level := level0, mcu := m0 } acts = true)
    (s : Sys)
    (hs : s = sys_run fs w h { tx := sender_start [F], level := level0, mcu := m0 } acts) :
    (∀ c, s.tx.calls[s.tx.index]? = some c → s.tx.pc = 2 →
      (request_line (sys_step fs w h s Action.sender).level = true ↔ s.tx.index % 2 = 0)) ∧
    ((sys_step fs w h s Action.sender).tx.index = s.tx.index + 1 →
      (s.mcu.acknowledge = true ↔ s.tx.index % 2 = 0) ∧
      (s.tx.index ≤ fs → ∃ c, s.tx.calls[s.tx.index]? = some c ∧
        (s.mcu.stores.drop m0.stores.length)[s.tx.index]?
          = some (m0.write, s.tx.index, wire c))) ∧
    (∀ slot k v, (sys_step fs w h s Action.receiver).mcu.stores = s.mcu.stores ++ [(slot, k, v)] →
      (request_line s.level = true ↔ k % 2 = 0) ∧
      ((sys_step fs w h s Action.receiver).mcu.acknowledge = true ↔ k % 2 = 0) ∧
      k = s.tx.index ∧ slot = m0.write ∧ s.tx.calls[k]? = some ((calls_of w h F).getD k (0, false)) ∧
      v = wire ((calls_of w h F).getD k (0, false)) ∧
      ((k = 0 ∧ s.mcu.read_state ≤ 1) ∨
        (1 ≤ k ∧ k ≤ fs ∧ s.mcu.read_state = 2 ∧ s.mcu.read_index = k))) := by
  have he : fs % 2 = 0 := by
    have : 64 * w * h = 2 * (32 * w * h) := by ring
    omega
  have h1 : 1 ≤ fs := by
    have : 1 * 1 ≤ w * h := Nat.mul_le_mul hw hh
    have : 64 * w * h = 64 * (w * h) := by ring
    omega
  have h2 : fs < 65536 := by
    have : 64 * w * h = 64 * (w * h) := by ring
    omega
  have hlenF : F.length = 64 * w * h + 1 := by rw [hlen, hfs]
  obtain ⟨hc0, hd0⟩ := rest_start fs w h F hlen hbytes level0 m0 hreq hidle hack hshape
  have hl0 : StoreLog fs w h F m0 { tx := sender_start [F], level := level0, mcu := m0 } :=
    ⟨0, by simp, Nat.zero_le _, fun hst => by rw [hidle] at hst; exact absurd hst (by decide),
      fun hst => by rw [hidle] at hst; exact absurd hst (by decide), fun _ => Or.inl rfl,
      fun _ => rfl, Or.inl (Nat.le_refl _)⟩
  obtain ⟨hctl, hdata, hlog⟩ := store_run fs w h hw hh hwh hfs F m0 acts _ hc0 hd0 hl0 hno
  have hsi := senderInv_run fs w h F hwh hlenF acts
    { tx := sender_start [F], level := level0, mcu := m0 } (Or.inl ⟨rfl, rfl, rfl⟩)
  rw [← hs] at hctl hdata hlog hsi
  clear hs hno hc0 hd0 hl0
  refine ⟨?_, ?_, ?_⟩
  · -- the request register write
    intro c hcall hpc
    rw [sys_step_sender fs w h s _ _ (sender_step_pc2 w h _ _ _ c hcall hpc)]
    show request_line (gpio_apply s.level (request_write s.tx.request)) = true ↔ _
    rw [(request_write_lines s.tx.request s.level).1]
    rcases hsi with ⟨i1, _⟩ | ⟨_, _, _, _, _, i6, _⟩
    · rw [i1] at hcall; simp at hcall
    · exact bool_of_parity _ _ (i6 (by omega)).1
  · -- the release of the wait
    intro hstep
    obtain ⟨_, _, hcases⟩ := ctl_sender fs w h hw hwh hfs s hctl
    rcases hcases with ⟨a1, _⟩ | ⟨_, _, _, a4, a5⟩ | ⟨_, _, _, _, a3, _⟩
    · omega
    · refine ⟨bool_of_parity _ _ (recvAt_parity fs _ _ he a5), ?_⟩
      intro hle
      obtain ⟨j, g1, _, g3, g4, _, _, _⟩ := hlog
      have hj : j = s.tx.index + 1 := by
        rcases a5 with ⟨n1, _⟩ | ⟨_, _, n3, n4, _⟩ | ⟨n1, n2, _⟩ | ⟨n1, _⟩
        · omega
        · rw [g3 n3, n4]
        · rw [g4 n2, n1]
        · omega
      obtain ⟨_, _, hcs⟩ := hdata
      have hvalid := calls_of_valid w h F hw hwh hlenF hbytes
      rw [← hfs] at hvalid
      have hcalls : s.tx.calls = calls_of w h F := by
        rcases hcs with ⟨d1, _, d3, _⟩ | ⟨d1, _⟩
        · exfalso
          obtain ⟨_, hq⟩ := hctl
          rcases hq with ⟨_, _, q3, _⟩ | ⟨c, ⟨_, hcall, _⟩, _⟩
          · rcases a5 with ⟨n1, _⟩ | ⟨_, _, n3, _⟩ | ⟨n1, _⟩ | ⟨n1, _⟩ <;> omega
          · rw [d1] at hcall; simp at hcall
        · exact d1
      have hlt : s.tx.index < (calls_of w h F).length := by rw [hvalid.1]; omega
      refine ⟨(calls_of w h F)[s.tx.index], by rw [hcalls]; exact List.getElem?_eq_getElem hlt, ?_⟩
      rw [g1, List.drop_left, hj, List.getElem?_map,
        List.getElem?_range (Nat.lt_succ_self _)]
      simp only [Option.map_some']
      rw [List.getD_eq_getElem?_getD, List.getElem?_eq_getElem hlt, Option.getD_some]
    · omega
  · -- the receiver accepts a byte
    intro slot k v hst
    by_cases hto : times_out (request_line s.level) s.mcu = true
    · have := times_out_stores fs (request_line s.level) (pind_of_level s.level) s.mcu hto
      rw [sys_step_receiver] at hst
      exact absurd (this.symm.trans hst) (not_self_append _ _)
    · have hno1 : times_out (request_line s.level) s.mcu = false := by
        cases hb : times_out (request_line s.level) s.mcu
        · rfl
        · exact absurd hb hto
      obtain ⟨_, _, _, hcases⟩ := ctl_receiver fs w h he h1 h2 s hctl hno1
      rcases hcases with hA | ⟨_, _, b3⟩ | ⟨c, c1, c2, c3, c4, _, _, _, c8⟩ | ⟨_, _, _, _, _, _, f7⟩
      · rw [hA] at hst; exact absurd hst (not_self_append _ _)
      · rw [b3] at hst; exact absurd hst (not_self_append _ _)
      · rw [c8] at hst
        have hinj := List.append_cancel_left hst
        simp only [List.cons.injEq, Prod.mk.injEq, and_true] at hinj
        obtain ⟨e1, e2, e3⟩ := hinj
        obtain ⟨_, _, hcs⟩ := hdata
        have hcalls : s.tx.calls = calls_of w h F ∧ s.mcu.write = m0.write := by
          rcases hcs with ⟨d1, _⟩ | ⟨d1, _, _, _, _, d6⟩
          · rw [d1] at c1; simp at c1
          · refine ⟨d1, d6 ?_⟩
            rintro (h3 | h3)
            · rcases c3 with c3 | ⟨_, c3⟩
              · rcases c3 with ⟨_, n1, _⟩ | ⟨_, _, n1, _⟩ | ⟨n1, _⟩ | ⟨n1, _⟩ <;> omega
              · omega
            · omega
        have hcv : (calls_of w h F).getD s.tx.index (0, false) = c := by
          rw [← hcalls.1]; exact getD_of_getElem? _ _ _ _ c1
        have hline : request_line s.level = true ↔ s.tx.index % 2 = 0 := by
          obtain ⟨_, hq⟩ := hctl
          rcases hq with ⟨q1, _⟩ | ⟨c', ⟨_, hcall', _⟩, hq⟩
          · have := (List.getElem?_eq_some.1 c1).1
            omega
          · rcases hq with ⟨_, _, e3', e4', _⟩ | ⟨_, _, l3, _⟩
            · exfalso
              have hstay := recv_stays fs _ s.mcu (request_line s.level) (pind_of_level s.level)
                he e4' e3' hno1
              have hst2 : (sys_step fs w h s Action.receiver).mcu.stores = s.mcu.stores := by
                rw [sys_step_receiver]; exact congrArg Mcu.stores hstay
              rw [c8] at hst2
              exact not_self_append _ _ hst2.symm
            · exact bool_of_parity _ _ l3
        rw [← e2]
        refine ⟨hline, bool_of_parity _ _ (recvAt_parity fs _ _ he c4), rfl,
          by rw [← e1]; exact hcalls.2, by rw [hcv]; exact c1, by rw [hcv]; exact e3.symm, ?_⟩
        rcases c3 with c3 | ⟨c3, c3'⟩
        · rcases c3 with ⟨n1, n2, _⟩ | ⟨n1, n2, n3, n4, _⟩ | ⟨n1, _⟩ | ⟨n1, _⟩
          · left; exact ⟨n1, by rw [n2]; exact Nat.zero_le _⟩
          · right; exact ⟨n1, n2, n3, n4⟩
          · omega
          · omega
        · left; exact ⟨c3, by omega⟩
      · rw [f7] at hst; exact absurd hst (not_self_append _ _)

set_option maxRecDepth 100000 in
/-- Witness for C14 as amended: the scenario frame on a 1 by 1 grid after five rounds of
lockstep, when the transmitter's wait for the duty byte is about to be released. -/
theorem toggle_parity_agreement_witness :
    ((sys_run 64 1 1 { tx := sender_start [scenario_frame], level := 0, mcu := power_up 64 }
        (lockstep 5)).mcu.acknowledge = true ↔
      (sys_run 64 1 1 { tx := sender_start [scenario_frame], level := 0, mcu := power_up 64 }
        (lockstep 5)).tx.index % 2 = 0) ∧
    ∃ c,
      (sys_run 64 1 1 { tx := sender_start [scenario_frame], level := 0, mcu := power_up 64 }
        (lockstep 5)).tx.calls[(sys_run 64 1 1
          { tx := sender_start [scenario_frame], level := 0, mcu := power_up 64 }
          (lockstep 5)).tx.index]? = some c ∧
      ((sys_run 64 1 1 { tx := sender_start [scenario_frame], level := 0, mcu := power_up 64 }
        (lockstep 5)).mcu.stores.drop (power_up 64).stores.length)[(sys_run 64 1 1
          { tx := sender_start [scenario_frame], level := 0, mcu := power_up 64 }
          (lockstep 5)).tx.index]?
        = some ((power_up 64).write,
            (sys_run 64 1 1 { tx := sender_start [scenario_frame], level := 0, mcu := power_up 64 }
              (lockstep 5)).tx.index, wire c) := by
  have r := (toggle_parity_agreement 64 1 1 (by decide) (by decide) (by decide) (by decide)
    scenario_frame (by decide) (by decide) 0 (power_up 64) (by decide) (by decide) (by decide)
    (bufferShape_power_up 64) (lockstep 5) (by decide) _ rfl).2.1 (by decide)
  exact ⟨r.1, r.2 (by decide)⟩

/-! ## The closing byte of `send` -/

set_option maxRecDepth 1000000 in
/-- C15 as stated fails in two ways.  In the schedule with a stall of nine refresh ticks
inside the third `send_byte` (1 by 1 grid, receiver idle at power-up) `send` completes
while the receiver is left in state 2 and `write` has not advanced.  On a grid without
panels (`width = 0`, receiver with `frame_size = 0`) the receiver takes the closing byte in
state 2 as a payload byte, storing it at index 1 of a slot of one byte, and not as the
request de-assertion of state 3. -/
theorem closing_byte_fails :
    (sender_done (sys_run 64 1 1 scenario_start stall_schedule).tx = true ∧
      (sys_run 64 1 1 scenario_start stall_schedule).mcu.read_state = 2 ∧
      (sys_run 64 1 1 scenario_start stall_schedule).mcu.write = scenario_start.mcu.write) ∧
    (no_timeout 0 0 1 empty_grid_start (lockstep 12) = true ∧
      sender_done (sys_run 0 0 1 empty_grid_start (lockstep 12)).tx = true ∧
      (sys_run 0 0 1 empty_grid_start (lockstep 12)).mcu.stores = [(1, 0, 7), (1, 1, 255)] ∧
      (empty_grid_start.mcu.frame_buffer.getD 1 []).length = 1) := by
  refine ⟨?_, by decide⟩
  have e := stall_tail
  rw [← stall_run, sys_reset_tx, sys_reset_write, sys_reset_read_state] at e
  exact ⟨e.2.1, e.2.2.2.2.2.1, e.2.2.1⟩

/-- C15, as amended: for every `width`, `height` with `width * height ≤ 255` the number
`64 * width * height + 2` of bytes of a `send` is even, and when `send` has returned the
two local flags are back at `true` and the request line is low, whatever the receiver
did.  For `width, height ≥ 1`, a receiver with `frame_size = 64 * width * height` at rest
at the start (idle, request and acknowledge low) and no receiver timeout during the send:
while the transmitter is in the call of the closing byte the receiver is in state 3 until
the request line has gone low, and after the send the receiver is in state 0 with
acknowledge low and `write` advanced by one. -/
theorem closing_byte (fs w h : Nat) (hwh : w * h ≤ 255) (F : List Nat)
    (hlen : F.length = 64 * w * h + 1) (level0 : Nat) (m0 : Mcu) (acts : List Action)
    (hdone : sender_done
      (sys_run fs w h { tx := sender_start [F], level := level0, mcu := m0 } acts).tx = true) :
    (64 * w * h + 2) % 2 = 0 ∧ (calls_of w h F).length = 64 * w * h + 2 ∧
    (sys_run fs w h { tx := sender_start [F], level := level0, mcu := m0 } acts).tx.request
      = true ∧
    (sys_run fs w h { tx := sender_start [F], level := level0, mcu := m0 } acts).tx.acknowledge
      = true ∧
    request_line (sys_run fs w h { tx := sender_start [F], level := level0, mcu := m0 } acts).level
      = false ∧
    (1 ≤ w → 1 ≤ h → fs = 64 * w * h → (∀ b ∈ F, b < 256) → request_line level0 = false →
      m0.read_state = 0 → m0.acknowledge = false → BufferShape fs m0 →
      no_timeout fs w h { tx := sender_start [F], level := level0, mcu := m0 } acts = true →
      (∀ k,
        (sys_run fs w h { tx := sender_start [F], level := level0, mcu := m0 }
          (acts.take k)).tx.index = fs + 1 →
        (sys_run fs w h { tx := sender_start [F], level := level0, mcu := m0 }
          (acts.take k)).tx.calls = calls_of w h F →
        ((sys_run fs w h { tx := sender_start [F], level := level0, mcu := m0 }
            (acts.take k)).tx.pc ≤ 2 →
          (sys_run fs w h { tx := sender_start [F], level := level0, mcu := m0 }
            (acts.take k)).mcu.read_state = 3 ∧
          (sys_run fs w h { tx := sender_start [F], level := level0, mcu := m0 }
            (acts.take k)).mcu.acknowledge = true ∧
          request_line (sys_run fs w h { tx := sender_start [F], level := level0, mcu := m0 }
            (acts.take k)).level = true) ∧
        (3 ≤ (sys_run fs w h { tx := sender_start [F], level := level0, mcu := m0 }
            (acts.take k)).tx.pc →
          request_line (sys_run fs w h { tx := sender_start [F], level := level0, mcu := m0 }
            (acts.take k)).level = false ∧
          ((sys_run fs w h { tx := sender_start [F], level := level0, mcu := m0 }
              (acts.take k)).mcu.read_state = 3 ∨
            ((sys_run fs w h { tx := sender_start [F], level := level0, mcu := m0 }
                (acts.take k)).mcu.read_state = 0 ∧
              (sys_run fs w h { tx := sender_start [F], level := level0, mcu := m0 }
                (acts.take k)).mcu.acknowledge = false)))) ∧
      (sys_run fs w h { tx := sender_start [F], level := level0, mcu := m0 } acts).mcu.read_state
        = 0 ∧
      (sys_run fs w h { tx := sender_start [F], level := level0, mcu := m0 } acts).mcu.acknowledge
        = false ∧
      (sys_run fs w h { tx := sender_start [F], level := level0, mcu := m0 } acts).mcu.write
        = (m0.write + 1) % 8) := by
  have hpar : (64 * w * h + 2) % 2 = 0 := by
    have : 64 * w * h = 2 * (32 * w * h) := by ring
    omega
  have hsi := senderInv_run fs w h F hwh hlen acts
    { tx := sender_start [F], level := level0, mcu := m0 } (Or.inl ⟨rfl, rfl, rfl⟩)
  obtain ⟨f1, f2, f3⟩ := senderInv_done w h F hwh hlen _ hsi hdone
  refine ⟨hpar, (calls_of_length w h F hwh hlen).2, f1, f2, f3, ?_⟩
  intro hw hh hfs hbytes hreq hidle hack hshape hno
  have he : fs % 2 = 0 := by
    have : 64 * w * h = 2 * (32 * w * h) := by ring
    omega
  have hlen' : F.length = fs + 1 := by rw [hlen, hfs]
  obtain ⟨hc0, hd0⟩ := rest_start fs w h F hlen' hbytes level0 m0 hreq hidle hack hshape
  obtain ⟨hctl, hdata⟩ := sync_run fs w h hw hh hwh hfs F m0.write acts _ hc0 hd0 hno
  refine ⟨?_, rest_end fs w h hw hwh hfs F hlen' hbytes m0.write _ hctl hdata hdone⟩
  intro k hidx hcalls
  have hk := (sync_run fs w h hw hh hwh hfs F m0.write (acts.take k) _ hc0 hd0
    (no_timeout_take fs w h acts k _ hno)).1
  exact ctl_closing_byte fs he _ hk hidx
    (by rw [hcalls, (calls_of_length w h F hwh hlen).2, hfs])

set_option maxRecDepth 100000 in
/-- Witness for C15 as amended: the scenario frame on a 1 by 1 grid, sent in lockstep. -/
theorem closing_byte_witness :
    (sys_run 64 1 1 scenario_start (lockstep 332)).tx.request = true ∧
    (sys_run 64 1 1 scenario_start (lockstep 332)).tx.acknowledge = true ∧
    request_line (sys_run 64 1 1 scenario_start (lockstep 332)).level = false ∧
    (sys_run 64 1 1 scenario_start (lockstep 332)).mcu.read_state = 0 ∧
    (sys_run 64 1 1 scenario_start (lockstep 332)).mcu.acknowledge = false ∧
    (sys_run 64 1 1 scenario_start (lockstep 332)).mcu.write = ((power_up 64).write + 1) % 8 := by
  have hrun := scenario_run_completes
  unfold scenario_start at hrun ⊢
  have r := closing_byte 64 1 1 (by decide) scenario_frame (by decide) 0 (power_up 64)
    (lockstep 332) hrun.2
  have r2 := r.2.2.2.2.2 (by decide) (by decide) (by decide) (by decide) (by decide)
    (by decide) (by decide) (bufferShape_power_up 64) hrun.1
  exact ⟨r.2.2.1, r.2.2.2.1, r.2.2.2.2.1, r2.2⟩

/-! ## One row-group sweep of the scan engine -/

/-- The output-enable pin along a sweep: with the duty byte `d` of the read slot at the
tick `fs / 4 + 2`, the pin is high after the invocations `1, ..., min d 254` of the sweep
and low after the others (for `d = 0` it is left as it was). -/
theorem sweep_oe (fs : Nat) (hq : fs / 4 + 2 ≤ 255) (m : Mcu) (hcount : m.count = fs / 4 + 2)
    (hd : byte_at m.frame_buffer m.read 0 < 256) (i : Nat) (h1 : 1 ≤ i) (h2 : i ≤ 256) :
    ((isr fs)^[i] m).count = (fs / 4 + 2 + i) % 256 ∧
    ((isr fs)^[i] m).oe_count = (byte_at m.frame_buffer m.read 0 + fs / 4 + 2) % 256 ∧
    ((isr fs)^[i] m).oe
      = (if byte_at m.frame_buffer m.read 0 = 0 then m.oe
         else decide (i ≤ min (byte_at m.frame_buffer m.read 0) 254)) := by
  induction i with
  | zero => omega
  | succ j ih =>
    rcases Nat.eq_zero_or_pos j with hj | hj
    · subst hj
      rw [Function.iterate_one, isr_count_eq, isr_oe_count, isr_oe, hcount]
      refine ⟨rfl, by rw [if_pos rfl], ?_⟩
      rw [if_neg (by omega), if_neg (by omega), if_neg (by omega), if_pos rfl]
      by_cases hz : byte_at m.frame_buffer m.read 0 = 0
      · rw [hz, if_pos rfl, if_neg (by omega)]
      · rw [if_neg hz, if_pos (by omega)]
        symm
        rw [decide_eq_true_eq, Nat.min_def]
        split_ifs <;> omega
    · obtain ⟨c1, c2, c3⟩ := ih hj (by omega)
      rw [Function.iterate_succ_apply', isr_count_eq, isr_oe_count, isr_oe, c1, c2, c3]
      refine ⟨by omega, by rw [if_neg (by omega)], ?_⟩
      by_cases hz : byte_at m.frame_buffer m.read 0 = 0
      · simp only [hz, if_true]
        split_ifs <;> first | rfl | omega
      · simp only [hz, if_false, Nat.min_def]
        split_ifs <;> first | rfl | (exfalso; omega) | (rw [decide_eq_decide]; omega) | (symm; rw [decide_eq_false_iff_not]; omega)

/-- The blanked invocations among the invocations `j + 1, ..., j + n` of a sweep. -/
theorem sweep_blanked_count (fs : Nat) (hq : fs / 4 + 2 ≤ 255) (m : Mcu)
    (hcount : m.count = fs / 4 + 2) (hd : byte_at m.frame_buffer m.read 0 < 256)
    (hoe : byte_at m.frame_buffer m.read 0 = 0 → m.oe = false) (n : Nat) :
    ∀ j, j + n ≤ 256 →
      sweep_blanked fs n ((isr fs)^[j] m)
        = j + n - max j (min (byte_at m.frame_buffer m.read 0) 254) := by
  induction n with
  | zero => intro j _; simp only [sweep_blanked, Nat.add_zero]; omega
  | succ n ih =>
    intro j hj
    have hstep := (sweep_oe fs hq m hcount hd (j + 1) (by omega) (by omega)).2.2
    have hnext := ih (j + 1) (by omega)
    rw [Function.iterate_succ_apply'] at hstep hnext
    rw [sweep_blanked, hnext, hstep]
    by_cases hz : byte_at m.frame_buffer m.read 0 = 0
    · rw [if_pos hz, hoe hz, hz]
      simp only [Bool.false_eq_true, if_false, Nat.zero_min]
      omega
    · rw [if_neg hz]
      by_cases hle : j + 1 ≤ min (byte_at m.frame_buffer m.read 0) 254
      · rw [decide_eq_true hle]
        simp only [if_true]
        omega
      · rw [decide_eq_false hle]
        simp only [Bool.false_eq_true, if_false]
        omega

/-- The blanked ticks of a sweep: all 256 but the `min d 254` during which the pin is high. -/
theorem blanked_ticks_eq (fs : Nat) (hq : fs / 4 + 2 ≤ 255) (m : Mcu)
    (hcount : m.count = fs / 4 + 2) (hd : byte_at m.frame_buffer m.read 0 < 256)
    (hoe : byte_at m.frame_buffer m.read 0 = 0 → m.oe = false) :
    blanked_ticks fs m = 256 - min (byte_at m.frame_buffer m.read 0) 254 := by
  have h := sweep_blanked_count fs hq m hcount hd hoe 256 0 (by omega)
  rw [Function.iterate_zero, id_eq] at h
  unfold blanked_ticks
  rw [h]
  omega

/-! ## The blanking window as a function of the duty byte -/

set_option maxRecDepth 1000000 in
/-- C16 as stated fails for the duty bytes 254 and 255 on the shipped receiver: from a state
on entry to tick `frame_size / 4 + 2` with output enable low, both leave the display
blanked during 2 of the 256 ticks of the sweep. -/
theorem blanking_window_not_strict :
    (sweep_start frame_size 254).count = frame_size / 4 + 2 ∧
    (sweep_start frame_size 254).oe = false ∧
    byte_at (sweep_start frame_size 254).frame_buffer (sweep_start frame_size 254).read 0 = 254 ∧
    byte_at (sweep_start frame_size 255).frame_buffer (sweep_start frame_size 255).read 0 = 255 ∧
    blanked_ticks frame_size (sweep_start frame_size 254) = 2 ∧
    blanked_ticks frame_size (sweep_start frame_size 255) = 2 := by
  decide

/-- C16, as amended: writing blanked for output-enable low, in a 256-tick sweep that starts
at tick `frame_size / 4 + 2` with the pin low, the display is blanked during
`256 - min d 254` ticks for the duty byte `d` of the read slot.  For two duty bytes
`d1 < d2` the number is strictly larger for `d1` when `d1 < 254`, and the duty bytes 254
and 255 give the same window: the 256 duty values give 255 distinct blanking windows. -/
theorem blanking_window (fs : Nat) (hq : fs / 4 + 2 ≤ 255) (m1 m2 : Mcu) (d1 d2 : Nat)
    (hc1 : m1.count = fs / 4 + 2) (hc2 : m2.count = fs / 4 + 2)
    (hoe1 : m1.oe = false) (hoe2 : m2.oe = false)
    (hd1 : byte_at m1.frame_buffer m1.read 0 = d1) (hd2 : byte_at m2.frame_buffer m2.read 0 = d2)
    (hlt : d1 < d2) (hbyte : d2 < 256) :
    blanked_ticks fs m1 = 256 - min d1 254 ∧ blanked_ticks fs m2 = 256 - min d2 254 ∧
    (d1 < 254 → blanked_ticks fs m2 < blanked_ticks fs m1) ∧
    (254 ≤ d1 → blanked_ticks fs m2 = blanked_ticks fs m1) := by
  have e1 := blanked_ticks_eq fs hq m1 hc1 (by omega) (fun _ => hoe1)
  have e2 := blanked_ticks_eq fs hq m2 hc2 (by omega) (fun _ => hoe2)
  rw [hd1] at e1
  rw [hd2] at e2
  rw [e1, e2]
  refine ⟨rfl, rfl, ?_, ?_⟩ <;> intro h <;> omega

/-- Witness for C16 as amended: the duty bytes 3 and 10 on the shipped receiver. -/
theorem blanking_window_witness :
    blanked_ticks frame_size (sweep_start frame_size 3) = 256 - min 3 254 ∧
    blanked_ticks frame_size (sweep_start frame_size 10)
      < blanked_ticks frame_size (sweep_start frame_size 3) :=
  have h := blanking_window frame_size (by decide) (sweep_start frame_size 3)
    (sweep_start frame_size 10) 3 10 rfl rfl rfl rfl (by decide) (by decide) (by decide)
    (by decide)
  ⟨h.1, h.2.2.1 (by decide)⟩

/-! ## The threshold tick -/

/-- C17: at tick `frame_size / 4 + 2`, with the duty byte `d` of the read slot, the handler
sets the threshold to `(d + frame_size / 4 + 2) mod 256` and drives output enable high
exactly when `d ≠ 0` (for `d = 0` the pin is left as it is); for `d ≠ 0` the pin is high
after the invocations `1, ..., min d 254` of the sweep, counted from this one, and low
after the invocations `min d 254 + 1, ..., 256`, so that the duty bytes 254 and 255 give
the same window; and in every state reachable from power-up the pin is low on entry to
tick `frame_size / 4 + 2`. -/
theorem threshold_and_window (fs : Nat) (hq : fs / 4 + 2 ≤ 255) (m : Mcu)
    (hcount : m.count = fs / 4 + 2) (hd : byte_at m.frame_buffer m.read 0 < 256) :
    (isr fs m).oe_count = (byte_at m.frame_buffer m.read 0 + fs / 4 + 2) % 256 ∧
    (byte_at m.frame_buffer m.read 0 ≠ 0 → (isr fs m).oe = true) ∧
    (byte_at m.frame_buffer m.read 0 = 0 → (isr fs m).oe = m.oe) ∧
    (byte_at m.frame_buffer m.read 0 ≠ 0 → ∀ i, 1 ≤ i → i ≤ 256 →
      ((isr fs)^[i] m).oe = decide (i ≤ min (byte_at m.frame_buffer m.read 0) 254)) ∧
    (∀ acts : List McuAction, (mcu_run fs (power_up fs) acts).count = fs / 4 + 2 →
      (mcu_run fs (power_up fs) acts).oe = false) := by
  have h1 := sweep_oe fs hq m hcount hd 1 (le_refl _) (by decide)
  rw [Function.iterate_one] at h1
  refine ⟨h1.2.1, ?_, ?_, ?_, ?_⟩
  · intro hz
    rw [h1.2.2, if_neg hz, decide_eq_true_eq]
    omega
  · intro hz
    rw [h1.2.2, if_pos hz]
  · intro hz i hi1 hi2
    rw [(sweep_oe fs hq m hcount hd i hi1 hi2).2.2, if_neg hz]
  · intro acts hc
    have hinv : OeInv fs (mcu_run fs (power_up fs) acts) :=
      run_invariant fs (OeInv fs) (fun s act h => oeInv_step fs hq s act h) acts (power_up fs)
        (oeInv_power_up fs)
    cases hoe : (mcu_run fs (power_up fs) acts).oe
    · rfl
    · exact absurd hc (hinv.2.2 hoe).2.1

set_option maxRecDepth 100000 in
/-- Witness for C17: the duty byte 3 on the shipped receiver; the pin is high after the
third invocation of the sweep and low after the fourth. -/
theorem threshold_and_window_witness :
    (isr frame_size (sweep_start frame_size 3)).oe_count = 37 ∧
    (isr frame_size (sweep_start frame_size 3)).oe = true ∧
    ((isr frame_size)^[3] (sweep_start frame_size 3)).oe = true ∧
    ((isr frame_size)^[4] (sweep_start frame_size 3)).oe = false :=
  have h := threshold_and_window frame_size (by decide) (sweep_start frame_size 3) rfl
    (by decide)
  ⟨h.1, h.2.1 (by decide), h.2.2.2.1 (by decide) 3 (by decide) (by decide),
    h.2.2.2.1 (by decide) 4 (by decide) (by decide)⟩

/-! ## The period of the scan engine -/

/-- The phase after `n` interrupts. -/
theorem iterate_isr_phase (fs : Nat) (hq : fs / 4 + 2 ≤ 255) (n : Nat) :
    ∀ m : Mcu, m.count < 256 → m.ab < 4 →
      ((isr fs)^[n] m).count < 256 ∧ ((isr fs)^[n] m).ab < 4 ∧
      phase fs ((isr fs)^[n] m) = (phase fs m + n) % 1024 := by
  induction n with
  | zero =>
    intro m hc hab
    have : phase fs m < 1024 := by unfold phase; omega
    exact ⟨hc, hab, by simp only [Function.iterate_zero, id_eq, Nat.add_zero]; omega⟩
  | succ n ih =>
    intro m hc hab
    obtain ⟨h1, h2, h3, _, _⟩ := isr_phase fs hq m hc hab
    obtain ⟨i1, i2, i3⟩ := ih (isr fs m) h1 h2
    rw [Function.iterate_succ, Function.comp_apply]
    refine ⟨i1, i2, ?_⟩
    rw [i3, h3]
    omega

theorem ab_of_phase (fs : Nat) (m : Mcu) : m.ab = phase fs m / 256 := by
  unfold phase
  omega

theorem scan_timing :
    OCR0A + 1 = 156 ∧ tick_period = 975 / 100000000 ∧ display_period = 9984 / 1000000 ∧
    (10015 : ℚ) / 100 ≤ 1 / display_period ∧ 1 / display_period < (10025 : ℚ) / 100 ∧
    (256 * 4 * (1255 + 1) : ℚ) / (clock_hz : ℚ) ≠ display_period := by
  refine ⟨rfl, ?_, ?_, ?_, ?_, ?_⟩ <;>
    norm_num [display_period, tick_period, OCR0A, clock_hz]

/-- C18: the row-group selector steps 0, 1, 2, 3, 0 at tick `frame_size / 4 + 1`, once per
256 handler invocations; `frame_tick` is incremented modulo 256 exactly when the selector
wraps from 3 to 0, once per 1024 invocations; and with the handler running every
`OCR0A + 1 = 156` cycles of the 16 MHz clock (9.75 microseconds) the display period is
`256 * 4 * 156 / 16e6 = 0.009984` seconds, a rate of 100.2 Hz to one decimal, which the
header comment's `(1255 + 1)` for the tick count would not give. -/
theorem scan_period (fs : Nat) (hq : fs / 4 + 2 ≤ 255) (m : Mcu) (hc : m.count < 256)
    (hab : m.ab < 4) (hft : m.frame_tick < 256) :
    (isr fs m).ab = (if m.count = fs / 4 + 1 then (m.ab + 1) % 4 else m.ab) ∧
    (∀ n, ((isr fs)^[n] m).ab = (phase fs m + n) % 1024 / 256) ∧
    ((isr fs)^[256] m).ab = (m.ab + 1) % 4 ∧
    (isr fs m).frame_tick
      = (if m.count = fs / 4 + 1 ∧ m.ab = 3 then (m.frame_tick + 1) % 256 else m.frame_tick) ∧
    (∀ n, ((isr fs)^[n] m).frame_tick = (m.frame_tick + (phase fs m + n) / 1024) % 256) ∧
    ((isr fs)^[1024] m).frame_tick = (m.frame_tick + 1) % 256 ∧
    (OCR0A + 1 = 156 ∧ tick_period = 975 / 100000000 ∧ display_period = 9984 / 1000000 ∧
      (10015 : ℚ) / 100 ≤ 1 / display_period ∧ 1 / display_period < (10025 : ℚ) / 100 ∧
      (256 * 4 * (1255 + 1) : ℚ) / (clock_hz : ℚ) ≠ display_period) := by
  have hp : phase fs m < 1024 := by unfold phase; omega
  have hab_n : ∀ n, ((isr fs)^[n] m).ab = (phase fs m + n) % 1024 / 256 := by
    intro n
    rw [ab_of_phase fs ((isr fs)^[n] m), (iterate_isr_phase fs hq n m hc hab).2.2]
  have hft_n : ∀ n, ((isr fs)^[n] m).frame_tick
      = (m.frame_tick + (phase fs m + n) / 1024) % 256 := by
    intro n
    have h1 := iterate_isr_frame_tick fs hq n m hc hab
    have h2 := iterate_isr_frame_tick_lt fs n m hft
    omega
  refine ⟨isr_ab fs m, hab_n, ?_, ?_, hft_n, ?_, scan_timing⟩
  · rw [hab_n 256]
    have := ab_of_phase fs m
    omega
  · rw [isr_frame_tick]
    split_ifs <;> first | rfl | omega
  · rw [hft_n 1024]
    omega

/-- Witness for C18: the shipped receiver from power-up. -/
theorem scan_period_witness :
    ((isr frame_size)^[256] (power_up frame_size)).ab = 1 ∧
    ((isr frame_size)^[1024] (power_up frame_size)).frame_tick = 1 ∧
    display_period = 9984 / 1000000 :=
  have h := scan_period frame_size (by decide) (power_up frame_size) (by decide) (by decide)
    (by decide)
  ⟨h.2.2.1, h.2.2.2.2.2.1, h.2.2.2.2.2.2.2.2.1⟩

/-! ## The acknowledge line in the resting states of the receiver -/

theorem ackLow_step (fs : Nat) (s : Mcu) (act : McuAction) (h : AckLow s) :
    AckLow (mcu_step fs s act) := by
  cases act with
  | tick =>
    unfold AckLow at h ⊢
    show ((isr fs s).read_state = 0 ∨ (isr fs s).read_state = 1 ∨ (isr fs s).read_state = 4) →
      (isr fs s).acknowledge = false
    rw [isr_read_state, isr_acknowledge]
    exact h
  | iteration r p =>
    unfold AckLow at h ⊢
    show ((loop_iteration fs r p s).read_state = 0 ∨ (loop_iteration fs r p s).read_state = 1 ∨
      (loop_iteration fs r p s).read_state = 4) → (loop_iteration fs r p s).acknowledge = false
    have hcases : s.read_state = 0 ∨ s.read_state = 1 ∨ s.read_state = 2 ∨ s.read_state = 3 ∨
        s.read_state = 4 ∨ 5 ≤ s.read_state := by omega
    have hbit := request_bit_cases r
    rcases hcases with h0 | h0 | h0 | h0 | h0 | h0
    · rcases hbit with ⟨_, hr⟩ | ⟨_, hr⟩
      · rw [loop_idle_low fs r p s h0 hr]; exact h
      · by_cases hf : s.write = s.read
        · rw [loop_idle_full fs r p s h0 hr hf]
          intro _; exact h (Or.inl h0)
        · rw [loop_idle_accept fs r p s h0 hr hf]
          intro hst; simp only [accept_duty] at hst; omega
    · by_cases hf : s.write = s.read
      · rw [loop_wait_full fs r p s h0 hf]; exact h
      · rw [loop_wait_accept fs r p s h0 hf]
        intro hst; simp only [accept_duty] at hst; omega
    · by_cases hflip : request_bit r = s.read_index % 2
      · by_cases ht : (s.frame_tick + 256 - s.previous_frame_tick) % 256 > 8
        · rw [loop_read_timeout fs r p s h0 hflip ht]
          intro _; rfl
        · rw [loop_read_wait fs r p s h0 hflip ht]; exact h
      · by_cases hlt : s.read_index < fs
        · rw [loop_read_next fs r p s h0 hflip hlt]
          intro hst; simp only at hst; omega
        · rw [loop_read_commit fs r p s h0 hflip hlt]
          intro hst; simp only at hst; omega
    · rcases hbit with ⟨_, hr⟩ | ⟨_, hr⟩
      · rw [loop_post_done fs r p s h0 hr]
        intro _; rfl
      · by_cases ht : (s.frame_tick + 256 - s.previous_frame_tick) % 256 > 8
        · rw [loop_post_timeout fs r p s h0 hr ht]
          intro _; rfl
        · rw [loop_post_wait fs r p s h0 hr ht]; exact h
    · rcases hbit with ⟨_, hr⟩ | ⟨_, hr⟩
      · rw [loop_recover_done fs r p s h0 hr]
        intro _; exact h (Or.inr (Or.inr h0))
      · rw [loop_recover_wait fs r p s h0 hr]; exact h
    · rw [loop_other fs r p s h0]; exact h

/-- C19: in every state reachable from power-up (by timer interrupts and iterations of the
receiver loop with arbitrary pin readings) the acknowledge line is low whenever the
receiver is in state 0, 1 or 4; an iteration that ends in state 0 or 4 leaves acknowledge
low; and an iteration that raises acknowledge is one that accepts a byte (it stores the
data port in the write slot). -/
theorem acknowledge_low_when_idle (fs : Nat) (acts : List McuAction) :
    AckLow (mcu_run fs (power_up fs) acts) ∧
    ∀ (request : Bool) (pind : Nat),
      (((loop_iteration fs request pind (mcu_run fs (power_up fs) acts)).read_state = 0 ∨
        (loop_iteration fs request pind (mcu_run fs (power_up fs) acts)).read_state = 4) →
        (loop_iteration fs request pind (mcu_run fs (power_up fs) acts)).acknowledge = false) ∧
      ((mcu_run fs (power_up fs) acts).acknowledge = false →
        (loop_iteration fs request pind (mcu_run fs (power_up fs) acts)).acknowledge = true →
        ∃ index, (loop_iteration fs request pind (mcu_run fs (power_up fs) acts)).stores
          = (mcu_run fs (power_up fs) acts).stores
            ++ [((mcu_run fs (power_up fs) acts).write, index, pind)]) := by
  have hinv : AckLow (mcu_run fs (power_up fs) acts) :=
    run_invariant fs AckLow (ackLow_step fs) acts (power_up fs) (fun _ => rfl)
  refine ⟨hinv, ?_⟩
  intro request pind
  generalize mcu_run fs (power_up fs) acts = s at hinv
  constructor
  · intro hst
    exact ackLow_step fs s (McuAction.iteration request pind) hinv
      (by rcases hst with h | h
          · exact Or.inl h
          · exact Or.inr (Or.inr h))
  · intro hlow hhigh
    rw [loop_iteration_acknowledge] at hhigh
    rw [loop_iteration_stores]
    split_ifs at hhigh ⊢ with h1 h2 h3 h4 h5
    · exact ⟨0, rfl⟩
    · exact ⟨s.read_index, rfl⟩
    all_goals first | exact ⟨s.read_index, rfl⟩ | (rw [hlow] at hhigh; exact absurd hhigh (by decide))

/-! ## Termination of `send` -/

/-- C20: for a frame of the right size, `send` returns (every `send_byte` taken to return)
if and only if `width * height ≤ 255`.  When `width * height ≤ 255` it returns for every
fuel above `width * height`; when `width * height ≥ 256` it is still inside the panel loop
of the first row group whatever the fuel, the 8-bit panel counter never reaching
`width * height`. -/
theorem send_terminates_iff (now : Nat) (frame : List Nat) (p : led_panel)
    (hlen : frame.length = 64 * p._width * p._height + 1) :
    ((∃ fuel, (send fuel now frame p).2 ≠ Outcome.out_of_fuel) ↔ p._width * p._height ≤ 255) ∧
    (p._width * p._height ≤ 255 →
      ∀ fuel, p._width * p._height < fuel → (send fuel now frame p).2 = Outcome.returned) ∧
    (256 ≤ p._width * p._height →
      ∀ fuel, (send fuel now frame p).2 = Outcome.out_of_fuel ∧
        ∀ panel st, st.panel._width = p._width → st.panel._height = p._height → panel < 256 →
          panel_loop frame 0 fuel panel st = .error .out_of_fuel) := by
  have hsmall : p._width * p._height ≤ 255 →
      ∀ fuel, p._width * p._height < fuel → (send fuel now frame p).2 = Outcome.returned := by
    intro hwh fuel hfuel
    rcases Nat.eq_zero_or_pos p._width with hz | hpos
    · exact send_empty_grid fuel now frame p hlen (by omega) (by rw [hz, Nat.zero_mul])
    · exact (send_result_calls fuel now frame p hpos hwh hlen hfuel).1
  have hbig : 256 ≤ p._width * p._height →
      ∀ fuel, (send fuel now frame p).2 = Outcome.out_of_fuel := by
    intro hwh fuel
    rw [send_never_returns fuel now frame p hlen hwh]
  refine ⟨⟨?_, ?_⟩, hsmall, ?_⟩
  · rintro ⟨fuel, hf⟩
    by_contra hnot
    exact hf (hbig (by omega) fuel)
  · intro hwh
    refine ⟨p._width * p._height + 1, ?_⟩
    rw [hsmall hwh _ (Nat.lt_succ_self _)]
    decide
  · intro hwh fuel
    exact ⟨hbig hwh fuel, panel_loop_never_exits frame p._width p._height 0 hwh hlen
      (by decide) fuel⟩

/-- Witness for C20: on a 16 by 16 grid `send` of a frame of 16385 bytes has not returned
after 1000 evaluations of the panel loop condition; on a 1 by 1 grid it returns. -/
theorem send_terminates_iff_witness :
    (send 1000 0 (List.replicate 16385 0) (new_panel 16 16)).2 = Outcome.out_of_fuel ∧
    (send 2 0 (List.replicate 65 0) (new_panel 1 1)).2 = Outcome.returned :=
  ⟨((send_terminates_iff 0 (List.replicate 16385 0) (new_panel 16 16)
      (by rw [List.length_replicate]; rfl)).2.2 (by decide) 1000).1,
    (send_terminates_iff 0 (List.replicate 65 0) (new_panel 1 1) (by rw [List.length_replicate]; rfl)).2.1
      (by decide) 2 (by decide)⟩

/-! ## The byte selection of the scan engine and the order of transmission -/

theorem isr_spdr (fs : Nat) (m : Mcu) (hc : m.count < fs / 4) :
    (isr fs m).spdr = byte_at m.frame_buffer m.read (scan_index fs m.ab m.count) := by
  simp only [isr, isr_count, isr_shift_eq, isr_latch_eq, isr_row_select_eq, isr_advance_eq,
    isr_threshold_eq, isr_blank_eq, apply_ite Mcu.spdr, ite_self, scan_index]
  split_ifs
  rfl

theorem isr_a (fs : Nat) (s : Mcu) :
    (isr fs s).a =
      if s.count = fs / 4 + 1 then
        (if s.ab = 0 then false else if s.ab = 1 then true else if s.ab = 2 then false
         else if s.ab = 3 then true else s.a)
      else s.a := by
  simp only [isr, isr_count, isr_shift_eq, isr_latch_eq, isr_row_select_eq, isr_advance_eq,
    isr_threshold_eq, isr_blank_eq, apply_ite Mcu.a, ite_self]
  split_ifs <;> first | rfl | omega

theorem isr_b (fs : Nat) (s : Mcu) :
    (isr fs s).b =
      if s.count = fs / 4 + 1 then
        (if s.ab = 0 then false else if s.ab = 1 then s.b else if s.ab = 2 then true else s.b)
      else s.b := by
  simp only [isr, isr_count, isr_shift_eq, isr_latch_eq, isr_row_select_eq, isr_advance_eq,
    isr_threshold_eq, isr_blank_eq, apply_ite Mcu.b, ite_self]
  split_ifs <;> first | rfl | omega

theorem rowInv_step (fs : Nat) (s : Mcu) (act : McuAction) (h : RowInv s) :
    RowInv (mcu_step fs s act) := by
  obtain ⟨h1, h2, h3⟩ := h
  cases act with
  | iteration r p =>
    simp only [mcu_step, RowInv, loop_iteration_ab, loop_iteration_b]
    exact ⟨h1, h2, h3⟩
  | tick =>
    simp only [mcu_step, RowInv, isr_ab, isr_b]
    by_cases hc : s.count = fs / 4 + 1
    · simp only [hc, if_true]
      refine ⟨Nat.mod_lt _ (by decide), ?_, ?_⟩
      · intro hab
        have h0 : s.ab = 0 := by omega
        rw [if_pos h0]
      · intro hab
        have h0 : s.ab = 2 := by omega
        rw [if_neg (by omega), if_neg (by omega), if_pos h0]
    · simp only [hc, if_false]
      exact ⟨h1, h2, h3⟩

/-- C22: from power-up (row-select pins `a = b = 0`, `ab = 0`), in every reachable state,
the execution of tick `frame_size / 4 + 1` leaves the row-select pins at the binary
encoding (`a` bit 0, `b` bit 1) of the value `ab` had before its increment, although the
cases for `ab = 1` and `ab = 3` write pin `a` only; `ab` is then that value plus one modulo
4.  That value is the row group of the sweep just shifted out and latched: the shift ticks
select their byte with `ab`, and `ab` and the two pins change at no other tick and in no
iteration of the receiver loop. -/
theorem row_select_encoding (fs : Nat) (acts : List McuAction)
    (hcount : (mcu_run fs (power_up fs) acts).count = fs / 4 + 1) :
    ((power_up fs).a = false ∧ (power_up fs).b = false ∧ (power_up fs).ab = 0) ∧
    (mcu_run fs (power_up fs) acts).ab < 4 ∧
    (isr fs (mcu_run fs (power_up fs) acts)).a
      = decide ((mcu_run fs (power_up fs) acts).ab % 2 = 1) ∧
    (isr fs (mcu_run fs (power_up fs) acts)).b
      = decide ((mcu_run fs (power_up fs) acts).ab / 2 = 1) ∧
    (isr fs (mcu_run fs (power_up fs) acts)).ab
      = ((mcu_run fs (power_up fs) acts).ab + 1) % 4 ∧
    (∀ m : Mcu, m.count < fs / 4 →
      (isr fs m).spdr = byte_at m.frame_buffer m.read (m.count + (fs / 4) * m.ab + 1)) ∧
    (∀ m : Mcu, m.count ≠ fs / 4 + 1 →
      (isr fs m).ab = m.ab ∧ (isr fs m).a = m.a ∧ (isr fs m).b = m.b) ∧
    (∀ (m : Mcu) (request : Bool) (pind : Nat),
      (loop_iteration fs request pind m).ab = m.ab ∧
      (loop_iteration fs request pind m).a = m.a ∧
      (loop_iteration fs request pind m).b = m.b) := by
  have hinv : RowInv (mcu_run fs (power_up fs) acts) :=
    run_invariant fs RowInv (rowInv_step fs) acts (power_up fs)
      ⟨by show 0 < 4; decide, fun h => absurd h (by show ¬ ((0 : Nat) = 1); decide),
        fun h => absurd h (by show ¬ ((0 : Nat) = 3); decide)⟩
  generalize mcu_run fs (power_up fs) acts = s at hcount hinv
  obtain ⟨h1, h2, h3⟩ := hinv
  have hcases : s.ab = 0 ∨ s.ab = 1 ∨ s.ab = 2 ∨ s.ab = 3 := by omega
  refine ⟨⟨rfl, rfl, rfl⟩, h1, ?_, ?_, ?_, fun m hc => isr_spdr fs m hc, ?_,
    fun m request pind => ⟨loop_iteration_ab fs request pind m, loop_iteration_a fs request pind m,
      loop_iteration_b fs request pind m⟩⟩
  · rw [isr_a, if_pos hcount]
    rcases hcases with h0 | h0 | h0 | h0 <;> rw [h0] <;> rfl
  · rw [isr_b, if_pos hcount]
    rcases hcases with h0 | h0 | h0 | h0
    · rw [h0]; rfl
    · rw [if_neg (by omega), if_pos h0, h2 h0, h0]; rfl
    · rw [h0]; rfl
    · rw [if_neg (by omega), if_neg (by omega), if_neg (by omega), h3 h0, h0]; rfl
  · rw [isr_ab, if_pos hcount]
  · intro m hm
    rw [isr_ab, isr_a, isr_b, if_neg hm, if_neg hm, if_neg hm]
    exact ⟨rfl, rfl, rfl⟩

theorem mcu_run_ticks (fs n : Nat) (m : Mcu) :
    mcu_run fs m (List.replicate n McuAction.tick) = (isr fs)^[n] m := by
  induction n generalizing m with
  | zero => rfl
  | succ n ih =>
    rw [List.replicate_succ, Function.iterate_succ, Function.comp_apply, ← ih (isr fs m)]
    rfl

/-- The shipped receiver, 33 + 3 * 256 timer interrupts after power-up, is on entry to the
tick 33 of the fourth row group. -/
theorem fourth_group_entry :
    (mcu_run frame_size (power_up frame_size) (List.replicate 801 McuAction.tick)).count
      = frame_size / 4 + 1 ∧
    (mcu_run frame_size (power_up frame_size) (List.replicate 801 McuAction.tick)).ab = 3 := by
  rw [mcu_run_ticks]
  obtain ⟨h1, h2, h3⟩ := iterate_isr_phase frame_size (by decide) 801 (power_up frame_size)
    (by decide) (by decide)
  have hp : phase frame_size (power_up frame_size) = 222 := by decide
  have hq : frame_size / 4 = 32 := by decide
  rw [hp] at h3
  unfold phase at h3
  rw [hq] at h3 ⊢
  omega

/-- Witness for C22: the shipped receiver, 33 + 3 * 256 timer interrupts after power-up,
on entry to the tick 33 of the fourth row group: the case `ab = 3` writes pin `a` only and
both pins end high. -/
theorem row_select_encoding_witness :
    (mcu_run frame_size (power_up frame_size) (List.replicate 801 McuAction.tick)).ab = 3 ∧
    (isr frame_size
      (mcu_run frame_size (power_up frame_size) (List.replicate 801 McuAction.tick))).a = true ∧
    (isr frame_size
      (mcu_run frame_size (power_up frame_size) (List.replicate 801 McuAction.tick))).b = true := by
  have hc := fourth_group_entry
  have r := row_select_encoding frame_size (List.replicate 801 McuAction.tick) hc.1
  refine ⟨hc.2, ?_, ?_⟩
  · rw [r.2.2.1, hc.2]; rfl
  · rw [r.2.2.2.1, hc.2]; rfl

/-! ## The table `_byte_to_mask` -/

set_option maxRecDepth 100000 in
theorem table_or_of_bits : ∀ b < 256, byte_to_mask b = mask_of_bits b := by
  decide

set_option maxRecDepth 100000 in
theorem table_disjoint_cover :
    ∀ b < 256, byte_to_mask b &&& clear_mask b = 0 ∧
      byte_to_mask b ||| clear_mask b = byte_to_mask 255 ∧
      (byte_to_mask b).testBit acknowledge_pin = false ∧
      (clear_mask b).testBit acknowledge_pin = false := by
  decide

theorem table_injective (b b' : Nat) (hb : b < 256) (hb' : b' < 256)
    (h : byte_to_mask b = byte_to_mask b') : b = b' := by
  have e : ((List.range 8).map fun i => if b.testBit i then 2 ^ i else 0)
      = (List.range 8).map fun i => if b'.testBit i then 2 ^ i else 0 := by
    apply List.map_congr_left
    intro i hi
    have hi8 := List.mem_range.1 hi
    rw [← ((table_bits b hb).2.2.2.2 i hi8).1, ← ((table_bits b' hb').2.2.2.2 i hi8).1, h]
  rw [← byte_of_bits b hb, ← byte_of_bits b' hb', e]

/-- C23: for every byte `b`, `_byte_to_mask[b]` is the bitwise OR of `_byte_to_mask[2^i]`
over the set bits `i` of `b`; the eight single-bit masks are eight distinct single GPIO
bits, none of them the request bit 27 or the acknowledge bit 22; the table is injective;
the set mask `_byte_to_mask[b]` and the clear mask `(~_byte_to_mask[b]) &
_byte_to_mask[255]` are disjoint and together equal `_byte_to_mask[255]`; and the two data
register writes of `send_byte` leave the request line and the acknowledge line as they
were. -/
theorem byte_to_mask_encoding :
    (∀ b, b < 256 → byte_to_mask b = mask_of_bits b) ∧
    (∀ i, i < 8 → byte_to_mask (2 ^ i) = 2 ^ data_pin i ∧ data_pin i ≠ request_pin ∧
      data_pin i ≠ acknowledge_pin) ∧
    (∀ i j, i < 8 → j < 8 → data_pin i = data_pin j → i = j) ∧
    (∀ b b', b < 256 → b' < 256 → byte_to_mask b = byte_to_mask b' → b = b') ∧
    (∀ b, b < 256 → byte_to_mask b &&& clear_mask b = 0 ∧
      byte_to_mask b ||| clear_mask b = byte_to_mask 255) ∧
    (∀ level b first, b < 256 →
      (after_data_writes level b first).testBit request_pin = level.testBit request_pin ∧
      (after_data_writes level b first).testBit acknowledge_pin
        = level.testBit acknowledge_pin) ∧
    (request_mask = 2 ^ request_pin ∧ request_pin = 27 ∧ acknowledge_pin = 22) := by
  refine ⟨table_or_of_bits, ?_, ?_, table_injective, ?_, ?_, ⟨rfl, rfl, rfl⟩⟩
  · have h : ∀ i < 8, byte_to_mask (2 ^ i) = 2 ^ data_pin i ∧ data_pin i ≠ request_pin ∧
        data_pin i ≠ acknowledge_pin := by decide
    exact h
  · have h : ∀ i < 8, ∀ j < 8, data_pin i = data_pin j → i = j := by decide
    intro i j hi hj
    exact h i hi j hj
  · intro b hb
    exact ⟨(table_disjoint_cover b hb).1, (table_disjoint_cover b hb).2.1⟩
  · intro level b first hb
    obtain ⟨h1, h2, h3, h4, _⟩ := table_bits b hb
    obtain ⟨_, _, h5, h6⟩ := table_disjoint_cover b hb
    cases first
    · simp only [after_data_writes, data_write_1, data_write_2, Bool.false_eq_true, if_false]
      rw [testBit_gpio_set, testBit_gpio_clear _ _ _ h1 (by decide), testBit_gpio_set,
        testBit_gpio_clear _ _ _ h1 (by decide), h3, h4, h5, h6]
      simp
    · simp only [after_data_writes, data_write_1, data_write_2, if_true]
      rw [testBit_gpio_clear _ _ _ h2 (by decide), testBit_gpio_set,
        testBit_gpio_clear _ _ _ h2 (by decide), testBit_gpio_set, h3, h4, h5, h6]
      simp

/-! ## Warm-up with a stalled transmitter -/

/-- A run without timer interrupts leaves the tick counter and the row-group selector. -/
theorem tick_free_scan (fs w h : Nat) (acts : List Action)
    (hacts : ∀ a ∈ acts, a ≠ Action.tick) :
    ∀ s : Sys, (sys_run fs w h s acts).mcu.count = s.mcu.count ∧
      (sys_run fs w h s acts).mcu.ab = s.mcu.ab := by
  induction acts with
  | nil => intro s; exact ⟨rfl, rfl⟩
  | cons a acts ih =>
    intro s
    rw [sys_run, List.foldl_cons, ← sys_run]
    obtain ⟨i1, i2⟩ := ih (fun b hb => hacts b (List.mem_cons_of_mem _ hb))
      (sys_step fs w h s a)
    rw [i1, i2]
    cases a with
    | sender => exact ⟨rfl, rfl⟩
    | receiver => exact ⟨loop_iteration_count fs _ _ s.mcu, loop_iteration_ab fs _ _ s.mcu⟩
    | tick => exact absurd rfl (hacts Action.tick (List.mem_cons_self _ _))

/-- A stall of 8978 timer interrupts after twelve rounds of lockstep, with no frame pending:
up to the variables of the scan engine the run resumes with the refresh tick counter at
`ft`; the tick counter and the row-group selector are those the interrupts left. -/
theorem stall_run_from (s0 : Sys) (tail : List Action) (ft : Nat)
    (htail : ∀ a ∈ tail, a ≠ Action.tick)
    (hc : (sys_run 64 1 1 s0 (lockstep 12)).mcu.count < 256)
    (hab : (sys_run 64 1 1 s0 (lockstep 12)).mcu.ab < 4)
    (hr : (sys_run 64 1 1 s0 (lockstep 12)).mcu.read < 8)
    (hw : (sys_run 64 1 1 s0 (lockstep 12)).mcu.write < 8)
    (hft : (sys_run 64 1 1 s0 (lockstep 12)).mcu.frame_tick < 256)
    (hp : pending (sys_run 64 1 1 s0 (lockstep 12)).mcu = 0)
    (hn : ((sys_run 64 1 1 s0 (lockstep 12)).mcu.frame_tick
      + (phase 64 (sys_run 64 1 1 s0 (lockstep 12)).mcu + 8978) / 1024) % 256 = ft) :
    sys_reset (sys_run 64 1 1 s0 (lockstep 12 ++ (List.replicate 8978 Action.tick ++ tail)))
      = sys_run 64 1 1
          { sys_reset (sys_run 64 1 1 s0 (lockstep 12)) with
            mcu := { scan_reset (sys_run 64 1 1 s0 (lockstep 12)).mcu with frame_tick := ft } }
          tail ∧
    (sys_run 64 1 1 s0 (lockstep 12 ++ (List.replicate 8978 Action.tick ++ tail))).mcu.count < 256 ∧
    (sys_run 64 1 1 s0 (lockstep 12 ++ (List.replicate 8978 Action.tick ++ tail))).mcu.ab < 4 ∧
    phase 64 (sys_run 64 1 1 s0 (lockstep 12 ++ (List.replicate 8978 Action.tick ++ tail))).mcu
      = (phase 64 (sys_run 64 1 1 s0 (lockstep 12)).mcu + 8978) % 1024 := by
  rw [sys_run_append, sys_run_append, sys_run_ticks]
  generalize sys_run 64 1 1 s0 (lockstep 12) = s at hc hab hr hw hft hp hn
  obtain ⟨p1, p2, p3⟩ := iterate_isr_phase 64 (by decide) 8978 s.mcu hc hab
  obtain ⟨t1, t2⟩ := tick_free_scan 64 1 1 tail htail { s with mcu := (isr 64)^[8978] s.mcu }
  refine ⟨?_, ?_, ?_, ?_⟩
  · rw [sys_reset_run 64 1 1 _ htail]
    exact congrArg (fun x => sys_run 64 1 1 x tail)
      (sys_reset_ticks 64 (by decide) 8978 ft s hc hab hr hw hft hp hn)
  · rw [t1]; exact p1
  · rw [t2]; exact p2
  · rw [← p3]
    unfold phase
    rw [t1, t2]

/-- One refresh cycle after the scan engine has passed its tick `fs / 4 + 1` of row group 3
with one frame pending, it has moved on to that frame, and the next interrupt raises output
enable when the duty byte of the frame is not 0. -/
theorem oe_raised_after_cycle (fs : Nat) (hq : fs / 4 + 2 ≤ 255) (m : Mcu)
    (hc : m.count < 256) (hab : m.ab < 4) (hr : m.read < 8) (hw : m.write < 8)
    (hph : phase fs m = 0) (hpend : pending m = 1)
    (hduty : (byte_at m.frame_buffer ((m.read + 1) % 8) 0 + fs / 4 + 2) % 256 ≠ fs / 4 + 2) :
    ((isr fs)^[1025] m).oe = true := by
  obtain ⟨p1, p2, p3⟩ := iterate_isr_phase fs hq 1024 m hc hab
  obtain ⟨g1, g2⟩ := iterate_isr_pending fs hq 1024 m hc hab hr hw
  obtain ⟨f1, f2, _⟩ := iterate_isr_fields fs 1024 m
  rw [Function.iterate_succ_apply']
  generalize (isr fs)^[1024] m = M at p1 p2 p3 g1 g2 f1 f2
  rw [hph] at p3 g2
  rw [hpend] at g2
  unfold phase at p3
  unfold pending at g2 hpend
  rw [f2] at g2
  have hcount : M.count = fs / 4 + 2 := by omega
  have hread : M.read = (m.read + 1) % 8 := by omega
  rw [isr_oe, if_neg (by omega), if_neg (by omega), if_neg (by omega), if_pos hcount, f1, hread,
    if_pos hduty]


set_option maxRecDepth 100000 in
theorem warm_stall_before_ticks :
    ∀ n, n = 1 ∨ n = 2 →
      (sys_run 64 1 1 (warm_up_start 64 1 1 n) (lockstep 12)).mcu.count < 256 ∧
      (sys_run 64 1 1 (warm_up_start 64 1 1 n) (lockstep 12)).mcu.ab < 4 ∧
      (sys_run 64 1 1 (warm_up_start 64 1 1 n) (lockstep 12)).mcu.read < 8 ∧
      (sys_run 64 1 1 (warm_up_start 64 1 1 n) (lockstep 12)).mcu.write < 8 ∧
      (sys_run 64 1 1 (warm_up_start 64 1 1 n) (lockstep 12)).mcu.frame_tick < 256 ∧
      pending (sys_run 64 1 1 (warm_up_start 64 1 1 n) (lockstep 12)).mcu = 0 ∧
      ((sys_run 64 1 1 (warm_up_start 64 1 1 n) (lockstep 12)).mcu.frame_tick
        + (phase 64 (sys_run 64 1 1 (warm_up_start 64 1 1 n) (lockstep 12)).mcu + 8978) / 1024)
          % 256 = 9 ∧
      (phase 64 (sys_run 64 1 1 (warm_up_start 64 1 1 n) (lockstep 12)).mcu + 8978) % 1024
        = 0 := by
  intro n hn
  rcases hn with rfl | rfl <;> decide

set_option maxRecDepth 1000000 in
/-- One all-zero frame, the stall over: the transfer goes on to the end of `send`. -/
theorem warm_stall_tail_one :
    stays_in_range 64 1 1 (warm_stall_resume 1) ([Action.receiver] ++ lockstep 330) = true ∧
    sender_done (sys_run 64 1 1 (warm_stall_resume 1) ([Action.receiver] ++ lockstep 330)).tx
      = true ∧
    (sys_run 64 1 1 (warm_stall_resume 1) ([Action.receiver] ++ lockstep 330)).mcu.read_state
      = 2 ∧
    byte_at (sys_run 64 1 1 (warm_stall_resume 1)
      ([Action.receiver] ++ lockstep 330)).mcu.frame_buffer 1 0 = 255 := by
  decide

set_option maxRecDepth 1000000 in
/-- Two all-zero frames, the stall over: the transfer goes on to the end of the second
`send`. -/
theorem warm_stall_tail_two :
    stays_in_range 64 1 1 (warm_stall_resume 2)
      ([Action.receiver] ++ (lockstep 330 ++ lockstep 332)) = true ∧
    sender_done (sys_run 64 1 1 (warm_stall_resume 2)
      ([Action.receiver] ++ (lockstep 330 ++ lockstep 332))).tx = true ∧
    (sys_run 64 1 1 (warm_stall_resume 2)
      ([Action.receiver] ++ (lockstep 330 ++ lockstep 332))).mcu.read_state = 2 ∧
    (sys_run 64 1 1 (warm_stall_resume 2)
      ([Action.receiver] ++ (lockstep 330 ++ lockstep 332))).mcu.write = 2 ∧
    (sys_run 64 1 1 (warm_stall_resume 2)
      ([Action.receiver] ++ (lockstep 330 ++ lockstep 332))).mcu.read = 0 ∧
    byte_at (sys_run 64 1 1 (warm_stall_resume 2)
      ([Action.receiver] ++ (lockstep 330 ++ lockstep 332))).mcu.frame_buffer 1 0 = 255 := by
  decide


theorem sys_reset_read (s : Sys) : (sys_reset s).mcu.read = s.mcu.read := rfl

theorem append_tick_free (l l' : List Action) (hl : ∀ a ∈ l, a ≠ Action.tick)
    (hl' : ∀ a ∈ l', a ≠ Action.tick) : ∀ a ∈ l ++ l', a ≠ Action.tick := by
  intro a ha
  rcases List.mem_append.1 ha with ha | ha
  · exact hl a ha
  · exact hl' a ha

theorem receiver_tick_free : ∀ a ∈ [Action.receiver], a ≠ Action.tick := by
  intro a ha
  rw [List.mem_singleton.1 ha]
  decide

/-- The stall schedule on `n` all-zero frames resumes from `warm_stall_resume n`. -/
theorem warm_stall_run (n : Nat) (hn : n = 1 ∨ n = 2) (tail : List Action)
    (htail : ∀ a ∈ tail, a ≠ Action.tick) :
    sys_reset (sys_run 64 1 1 (warm_up_start 64 1 1 n)
        (lockstep 12 ++ (List.replicate 8978 Action.tick ++ tail)))
      = sys_run 64 1 1 (warm_stall_resume n) tail ∧
    (sys_run 64 1 1 (warm_up_start 64 1 1 n)
      (lockstep 12 ++ (List.replicate 8978 Action.tick ++ tail))).mcu.count < 256 ∧
    (sys_run 64 1 1 (warm_up_start 64 1 1 n)
      (lockstep 12 ++ (List.replicate 8978 Action.tick ++ tail))).mcu.ab < 4 ∧
    phase 64 (sys_run 64 1 1 (warm_up_start 64 1 1 n)
      (lockstep 12 ++ (List.replicate 8978 Action.tick ++ tail))).mcu = 0 := by
  obtain ⟨h1, h2, h3, h4, h5, h6, h7, h8⟩ := warm_stall_before_ticks n hn
  obtain ⟨e, c1, c2, c3⟩ := stall_run_from (warm_up_start 64 1 1 n) tail 9 htail
    h1 h2 h3 h4 h5 h6 h7
  rw [h8] at c3
  unfold warm_stall_resume
  exact ⟨e, c1, c2, c3⟩

/-- One all-zero frame with the stall: `send` returns with the receiver in state 2 and
the duty byte 255 in slot 1. -/
theorem warm_stalled_one :
    sender_done (sys_run 64 1 1 (warm_up_start 64 1 1 1) stall_schedule).tx = true ∧
    (sys_run 64 1 1 (warm_up_start 64 1 1 1) stall_schedule).mcu.read_state = 2 ∧
    byte_at (sys_run 64 1 1 (warm_up_start 64 1 1 1) stall_schedule).mcu.frame_buffer 1 0
      = 255 := by
  have hl : stall_schedule
      = lockstep 12 ++ (List.replicate 8978 Action.tick
          ++ ([Action.receiver] ++ lockstep 330)) := by
    unfold stall_schedule
    simp only [List.append_assoc]
  obtain ⟨e, _⟩ := warm_stall_run 1 (Or.inl rfl) ([Action.receiver] ++ lockstep 330)
    (append_tick_free _ _ receiver_tick_free (lockstep_tick_free 330))
  rw [← hl] at e
  obtain ⟨_, t1, t2, t3⟩ := warm_stall_tail_one
  rw [← e] at t1 t2 t3
  rw [sys_reset_tx] at t1
  rw [sys_reset_read_state] at t2
  rw [sys_reset_frame_buffer] at t3
  exact ⟨t1, t2, t3⟩


/-- Two all-zero frames with the stall: both calls of `send` return with the receiver in
state 2; slot 1 is committed with the duty byte 255, and the scan engine is at the start
of a refresh cycle with that frame pending. -/
theorem warm_stalled_two :
    sender_done
      (sys_run 64 1 1 (warm_up_start 64 1 1 2) (stall_schedule ++ lockstep 332)).tx = true ∧
    (sys_run 64 1 1 (warm_up_start 64 1 1 2) (stall_schedule ++ lockstep 332)).mcu.read_state
      = 2 ∧
    (sys_run 64 1 1 (warm_up_start 64 1 1 2) (stall_schedule ++ lockstep 332)).mcu.write = 2 ∧
    (sys_run 64 1 1 (warm_up_start 64 1 1 2) (stall_schedule ++ lockstep 332)).mcu.read = 0 ∧
    byte_at (sys_run 64 1 1 (warm_up_start 64 1 1 2)
      (stall_schedule ++ lockstep 332)).mcu.frame_buffer 1 0 = 255 ∧
    (sys_run 64 1 1 (warm_up_start 64 1 1 2) (stall_schedule ++ lockstep 332)).mcu.count < 256 ∧
    (sys_run 64 1 1 (warm_up_start 64 1 1 2) (stall_schedule ++ lockstep 332)).mcu.ab < 4 ∧
    phase 64 (sys_run 64 1 1 (warm_up_start 64 1 1 2) (stall_schedule ++ lockstep 332)).mcu
      = 0 := by
  have hl : stall_schedule ++ lockstep 332
      = lockstep 12 ++ (List.replicate 8978 Action.tick
          ++ ([Action.receiver] ++ (lockstep 330 ++ lockstep 332))) := by
    unfold stall_schedule
    simp only [List.append_assoc]
  obtain ⟨e, c1, c2, c3⟩ := warm_stall_run 2 (Or.inr rfl)
    ([Action.receiver] ++ (lockstep 330 ++ lockstep 332))
    (append_tick_free _ _ receiver_tick_free
      (append_tick_free _ _ (lockstep_tick_free 330) (lockstep_tick_free 332)))
  rw [← hl] at e c1 c2 c3
  obtain ⟨_, t1, t2, t3, t4, t5⟩ := warm_stall_tail_two
  rw [← e] at t1 t2 t3 t4 t5
  rw [sys_reset_tx] at t1
  rw [sys_reset_read_state] at t2
  rw [sys_reset_write] at t3
  rw [sys_reset_read] at t4
  rw [sys_reset_frame_buffer] at t5
  exact ⟨t1, t2, t3, t4, t5, c1, c2, c3⟩

/-- With slot 1 committed with the duty byte 255 and the scan engine at the start of a
refresh cycle on slot 0, output enable is high 1025 timer interrupts later. -/
theorem oe_raised_concrete (m : Mcu) (b3 : m.write = 2) (b4 : m.read = 0)
    (b5 : byte_at m.frame_buffer 1 0 = 255) (b6 : m.count < 256) (b7 : m.ab < 4)
    (b8 : phase 64 m = 0) : ((isr 64)^[1025] m).oe = true := by
  apply oe_raised_after_cycle 64 (by decide) m b6 b7 (by rw [b4]; decide)
      (by rw [b3]; decide) b8
  · unfold pending
    rw [b3, b4]
  · rw [b4, b5]
    decide

/-- C10 as stated fails when the transmitter stalls (1 by 1 grid, `frame_size = 64`,
receiver at power-up).  One all-zero frame, with a stall of nine refresh ticks inside the
third `send_byte`: `send` returns, the receiver is left in state 2, and slot 1 holds the
duty byte 255, not its power-up contents.  Two all-zero frames with the same stall: both
calls of `send` return, the receiver is left in state 2, `write` has advanced to 2 with
the duty byte 255 in the committed slot 1, and 1025 timer interrupts later the scan engine
has raised output enable. -/
theorem warm_up_stalled :
    (sender_done (sys_run 64 1 1 (warm_up_start 64 1 1 1) stall_schedule).tx = true ∧
      (sys_run 64 1 1 (warm_up_start 64 1 1 1) stall_schedule).mcu.read_state = 2 ∧
      byte_at (sys_run 64 1 1 (warm_up_start 64 1 1 1) stall_schedule).mcu.frame_buffer 1 0
        = 255 ∧
      (sys_run 64 1 1 (warm_up_start 64 1 1 1) stall_schedule).mcu.frame_buffer
        ≠ (power_up 64).frame_buffer) ∧
    (sender_done
        (sys_run 64 1 1 (warm_up_start 64 1 1 2) (stall_schedule ++ lockstep 332)).tx = true ∧
      (sys_run 64 1 1 (warm_up_start 64 1 1 2) (stall_schedule ++ lockstep 332)).mcu.read_state
        = 2 ∧
      (sys_run 64 1 1 (warm_up_start 64 1 1 2) (stall_schedule ++ lockstep 332)).mcu.write = 2 ∧
      byte_at (sys_run 64 1 1 (warm_up_start 64 1 1 2)
        (stall_schedule ++ lockstep 332)).mcu.frame_buffer 1 0 = 255 ∧
      ((isr 64)^[1025]
        (sys_run 64 1 1 (warm_up_start 64 1 1 2) (stall_schedule ++ lockstep 332)).mcu).oe
        = true) := by
  obtain ⟨a1, a2, a3⟩ := warm_stalled_one
  obtain ⟨b1, b2, b3, b4, b5, b6, b7, b8⟩ := warm_stalled_two
  refine ⟨⟨a1, a2, a3, ?_⟩, b1, b2, b3, b5, oe_raised_concrete _ b3 b4 b5 b6 b7 b8⟩
  intro hfb
  rw [hfb, power_up_duty] at a3
  exact absurd a3 (by decide)

end LedPanel
